import Mathlib

/-!
# Atari I, Robot polygon generator (`src/mame/video/irobot.cpp`)

A shallow embedding of the display-list renderer `irobot_state::irobot_run_video`
together with `draw_line`, the `draw_pixel` / `fill_hline` macros and
`ROUND_TO_PIXEL`, of the palette routines `PALETTE_INIT_MEMBER(irobot_state, irobot)` and
`irobot_paletteram_w`, and of the buffer selection by `m_bufsel` (`irobot_poly_clear`,
`screen_update_irobot`), followed by theorems about them.

Modelling conventions

* `int` variables are unbounded `Int`; `x >> 7` on an `int` is the arithmetic shift
  (`Int.shiftRight`, i.e. floor division by 128).
* `combase16[i]` reads a 16-bit word of a word-addressed memory `ComMem = Nat → Nat`
  (the value is reduced modulo `2^16`).  The command memory proper is the index range
  `0 .. 0x7FF`; the source also indexes past it, so the memory is total.
* `polybitmap` is the byte buffer selected by `m_bufsel`, addressed by the signed offset
  `y * BITMAP_WIDTH + x` from its base.
* Every loop carries a fuel counter.  A loop that has used up its fuel sets the ghost flag
  `timeout` and the pass stops there; `timeout = false` at the end means that the pass ran to
  completion as the C++ code would.
* `reads`, `writes`, `visited` and `entries` are ghost logs (most recent first): the
  `combase16` indices read, the `polybitmap` offsets stored to, the points stepped through
  by `draw_line`, and the number of object-table entries dispatched.  They never
  influence control flow.
* The palette is a table `Nat → Nat × Nat × Nat` of `(r, g, b)` entries.  `rgb_t`,
  `set_pen_color` and `bitswap<8>` belong to the emulator core and are modelled.
-/

namespace Irobot

/-- Row pitch of a polygon bitmap: `#define BITMAP_WIDTH 256`. -/
def BITMAP_WIDTH : Int := 256

/-- Word-addressed view `combase16` of the communication RAM. -/
abbrev ComMem := Nat → Nat

/-- The element `combase16[i]`, a `uint16_t`. -/
def combase16 (mem : ComMem) (i : Nat) : Nat := mem i % 65536

/-- The cast `(int16_t)w` of a 16-bit word `w`. -/
def int16 (w : Nat) : Int := if w < 32768 then (w : Int) else (w : Int) - 65536

/-- The macro `ROUND_TO_PIXEL(x) = ((x >> 7) - 128)`. -/
def ROUND_TO_PIXEL (x : Int) : Int := (x >>> (7 : Nat)) - 128

/-- The clip rectangle `m_ir_xmin`, `m_ir_ymin`, `m_ir_xmax`, `m_ir_ymax`. -/
structure Clip where
  m_ir_xmin : Int
  m_ir_ymin : Int
  m_ir_xmax : Int
  m_ir_ymax : Int

/-- The test `x >= m_ir_xmin && x < m_ir_xmax && y >= m_ir_ymin && y < m_ir_ymax`. -/
def Clip.inside (clip : Clip) (x y : Int) : Prop :=
  x ≥ clip.m_ir_xmin ∧ x < clip.m_ir_xmax ∧ y ≥ clip.m_ir_ymin ∧ y < clip.m_ir_ymax

instance (clip : Clip) (x y : Int) : Decidable (clip.inside x y) := by
  unfold Clip.inside; infer_instance

/-- State of one render pass: the draw-side buffer and the ghost logs. -/
structure VState where
  polybitmap : Int → Nat
  reads : List Nat
  writes : List Int
  visited : List (Int × Int)
  entries : Nat
  timeout : Bool

/-- A pass starts on buffer `bmp` with empty logs. -/
def VState.init (bmp : Int → Nat) : VState :=
  { polybitmap := bmp, reads := [], writes := [], visited := [], entries := 0, timeout := false }

/-- Ghost: record a read of `combase16[i]`. -/
def VState.read (s : VState) (i : Nat) : VState := { s with reads := i :: s.reads }

/-- Ghost: count one dispatched object-table entry. -/
def VState.countEntry (s : VState) : VState := { s with entries := s.entries + 1 }

/-- Ghost: record that a loop ran out of fuel. -/
def VState.timedOut (s : VState) : VState := { s with timeout := true }

/-- The macro `draw_pixel(x,y,c)`: `polybitmap[(y) * BITMAP_WIDTH + (x)] = (c)`
(a store to a `uint8_t`). -/
def draw_pixel (s : VState) (x y : Int) (c : Nat) : VState :=
  { s with
    polybitmap := fun j => if j = y * BITMAP_WIDTH + x then c % 256 else s.polybitmap j
    writes := (y * BITMAP_WIDTH + x) :: s.writes }

/-- The offsets `&polybitmap[(y) * BITMAP_WIDTH + (x1)] + k`, `k < (x2) - (x1) + 1`, that
`fill_hline(x1,x2,y,c)` stores to. -/
def hline_offsets (x1 x2 y : Int) : List Int :=
  (List.range (x2 - x1 + 1).toNat).map (fun (k : Nat) => y * BITMAP_WIDTH + x1 + (k : Int))

/-- The macro `fill_hline(x1,x2,y,c)`:
`memset(&polybitmap[(y) * BITMAP_WIDTH + (x1)], (c), (x2) - (x1) + 1)`.
The count is positive at the only call site, so its conversion to `size_t` is the identity. -/
def fill_hline (s : VState) (x1 x2 y : Int) (c : Nat) : VState :=
  { s with
    polybitmap := fun j =>
      if y * BITMAP_WIDTH + x1 ≤ j ∧ j < y * BITMAP_WIDTH + x1 + (x2 - x1 + 1) then c % 256
      else s.polybitmap j
    writes := hline_offsets x1 x2 y ++ s.writes }

/-- One visit of a `draw_line` loop: the clip test and `draw_pixel (x1, y1, col)`. -/
def plot (clip : Clip) (s : VState) (x1 y1 : Int) (col : Nat) : VState :=
  let s := { s with visited := (x1, y1) :: s.visited }
  if clip.inside x1 y1 then draw_pixel s x1 y1 col else s

/-- The loop of `draw_line` for `dx >= dy` (lines 179-191). -/
def draw_line_x (clip : Clip) (x2 sx sy dx dy : Int) (col : Nat) :
    Nat → VState → Int → Int → Int → VState
  | 0, s, _, _, _ => s.timedOut
  | fuel + 1, s, x1, y1, cx =>
    let s := plot clip s x1 y1 col
    if x1 = x2 then s
    else
      let x1 := x1 + sx
      let cx := cx - dy
      if cx < 0 then draw_line_x clip x2 sx sy dx dy col fuel s x1 (y1 + sy) (cx + dx)
      else draw_line_x clip x2 sx sy dx dy col fuel s x1 y1 cx

/-- The loop of `draw_line` for `dx < dy` (lines 195-207). -/
def draw_line_y (clip : Clip) (y2 sx sy dx dy : Int) (col : Nat) :
    Nat → VState → Int → Int → Int → VState
  | 0, s, _, _, _ => s.timedOut
  | fuel + 1, s, x1, y1, cy =>
    let s := plot clip s x1 y1 col
    if y1 = y2 then s
    else
      let y1 := y1 + sy
      let cy := cy - dx
      if cy < 0 then draw_line_y clip y2 sx sy dx dy col fuel s (x1 + sx) y1 (cy + dy)
      else draw_line_y clip y2 sx sy dx dy col fuel s x1 y1 cy

/-- `irobot_state::draw_line(polybitmap, x1, y1, x2, y2, col)`. -/
def draw_line (fuel : Nat) (clip : Clip) (s : VState) (x1 y1 x2 y2 : Int) (col : Nat) : VState :=
  let dx : Int := (x1 - x2).natAbs
  let dy : Int := (y1 - y2).natAbs
  let sx : Int := if x1 ≤ x2 then 1 else -1
  let sy : Int := if y1 ≤ y2 then 1 else -1
  let cx := dx / 2
  let cy := dy / 2
  if dx ≥ dy then draw_line_x clip x2 sx sy dx dy col fuel s x1 y1 cx
  else draw_line_y clip y2 sx sy dx dy col fuel s x1 y1 cy

/-- Body of the point loop after the terminator test (lines 247-252): colour, pixel
transform, clip test, `draw_pixel`. `x` is the word `combase16[spnt]`, `yColor` the word
`combase16[spnt+1]`. -/
def point_pair (clip : Clip) (s : VState) (x yColor : Nat) : VState :=
  let color := yColor &&& 0x3f
  let sx := ROUND_TO_PIXEL x
  let sy := ROUND_TO_PIXEL yColor
  if clip.inside sx sy then draw_pixel s sx sy color else s

/-- The point loop `while (spnt < 0x7ff)` (lines 243-254). -/
def point_loop (mem : ComMem) (clip : Clip) : Nat → VState → Nat → VState
  | 0, s, _ => s.timedOut
  | fuel + 1, s, spnt =>
    if spnt < 0x7ff then
      let sx := combase16 mem spnt
      let s := s.read spnt
      if sx = 0xffff then s
      else
        let sy := combase16 mem (spnt + 1)
        let s := s.read (spnt + 1)
        let s := point_pair clip s sx sy
        point_loop mem clip fuel s (spnt + 2)
    else s

/-- The raw end X of a vector, `ex = sx + word1 * (ey - sy + 1)` (lines 262-270), from the
four words `combase16[spnt .. spnt+3]`; `ey` and `sy` have been passed through
`ROUND_TO_PIXEL` before this line. -/
def vector_ex (endY startYColor slope startX : Nat) : Int :=
  let ey := ROUND_TO_PIXEL endY
  let sy := ROUND_TO_PIXEL startYColor
  let sx : Int := startX
  let word1 := int16 slope
  sx + word1 * (ey - sy + 1)

/-- Body of the line loop after the terminator test (lines 264-271) for the quadruple
`(endY, startYColor, slope, startX) = combase16[spnt .. spnt+3]`. -/
def vector_quad (fuel : Nat) (clip : Clip) (s : VState) (endY startYColor slope startX : Nat) :
    VState :=
  let ey := ROUND_TO_PIXEL endY
  let color := startYColor &&& 0x3f
  let sy := ROUND_TO_PIXEL startYColor
  let sx : Int := startX
  let ex := vector_ex endY startYColor slope startX
  draw_line fuel clip s (ROUND_TO_PIXEL sx) sy (ROUND_TO_PIXEL ex) ey color

/-- The line loop `while (spnt < 0x7ff)` (lines 260-273); `lfuel` is the fuel handed to each
`draw_line`. -/
def line_loop (lfuel : Nat) (mem : ComMem) (clip : Clip) : Nat → VState → Nat → VState
  | 0, s, _ => s.timedOut
  | fuel + 1, s, spnt =>
    if spnt < 0x7ff then
      let ey := combase16 mem spnt
      let s := s.read spnt
      if ey = 0xffff then s
      else
        let sy := combase16 mem (spnt + 1)
        let s := s.read (spnt + 1)
        let sx := combase16 mem (spnt + 3)
        let s := s.read (spnt + 3)
        let w := combase16 mem (spnt + 2)
        let s := s.read (spnt + 2)
        let s := vector_quad lfuel clip s ey sy w sx
        if s.timeout then s else line_loop lfuel mem clip fuel s (spnt + 4)
    else s

/-- The scanline fill of the polygon loop (lines 305-316). -/
def poly_scanline (clip : Clip) (s : VState) (sx sx2 sy : Int) (color : Nat) : VState :=
  if sy ≥ clip.m_ir_ymin ∧ sy < clip.m_ir_ymax then
    let x1 := ROUND_TO_PIXEL sx
    let x2 := ROUND_TO_PIXEL sx2
    let a := if x1 > x2 then x2 else x1
    let b := if x1 > x2 then x1 else x2
    let a := if a < clip.m_ir_xmin then clip.m_ir_xmin else a
    let b := if b ≥ clip.m_ir_xmax then clip.m_ir_xmax - 1 else b
    if a < b then fill_hline s (a + 1) b sy color else s
  else s

/-- The local variables of the polygon loop. -/
structure PolyVars where
  sx : Int
  sx2 : Int
  sy : Int
  word1 : Int
  ey : Int
  word2 : Int
  ey2 : Int
  spnt : Nat
  spnt2 : Nat

/-- Second-edge refresh or advance (lines 331-338). -/
def edge2_step (mem : ComMem) (s : VState) (v : PolyVars) : VState × PolyVars :=
  if v.sy > v.ey2 then
    let word2 := int16 (combase16 mem v.spnt2)
    let s := s.read v.spnt2
    let ey2 := ROUND_TO_PIXEL (combase16 mem (v.spnt2 + 1))
    let s := s.read (v.spnt2 + 1)
    (s, { v with word2 := word2, ey2 := ey2, spnt2 := v.spnt2 + 2 })
  else
    (s, { v with sx2 := v.sx2 + v.word2 })

/-- First-edge refresh or advance (lines 319-329); `none` is the `break`. -/
def edge1_step (mem : ComMem) (s : VState) (v : PolyVars) : VState × Option PolyVars :=
  if v.sy > v.ey then
    let word1 := int16 (combase16 mem v.spnt)
    let s := s.read v.spnt
    let ey := combase16 mem (v.spnt + 1)
    let s := s.read (v.spnt + 1)
    if word1 = -1 ∧ ey = 0xffff then (s, none)
    else (s, some { v with word1 := word1, ey := ROUND_TO_PIXEL ey, spnt := v.spnt + 2 })
  else
    (s, some { v with sx := v.sx + v.word1 })

/-- One iteration of the polygon loop `while(1)` (lines 305-338); `none` is the `break`. -/
def poly_body (mem : ComMem) (clip : Clip) (color : Nat) (s : VState) (v : PolyVars) :
    VState × Option PolyVars :=
  let s := poly_scanline clip s v.sx v.sx2 v.sy color
  let v := { v with sy := v.sy + 1 }
  match edge1_step mem s v with
  | (s, none) => (s, none)
  | (s, some v) =>
    let r := edge2_step mem s v
    (r.1, some r.2)

/-- The polygon loop `while(1)` (lines 303-340). -/
def poly_loop (mem : ComMem) (clip : Clip) (color : Nat) : Nat → VState → PolyVars → VState
  | 0, s, _ => s.timedOut
  | fuel + 1, s, v =>
    match poly_body mem clip color s v with
    | (s, none) => s
    | (s, some v) => poly_loop mem clip color fuel s v

/-- The polygon branch (lines 279-341) for the object at `spnt`. -/
def polygon (fuel : Nat) (mem : ComMem) (clip : Clip) (s : VState) (spnt : Nat) : VState :=
  let spnt2 := combase16 mem spnt &&& 0x7ff
  let s := s.read spnt
  let sx : Int := combase16 mem (spnt + 1)
  let s := s.read (spnt + 1)
  let sx2 : Int := combase16 mem (spnt + 2)
  let s := s.read (spnt + 2)
  let sy := combase16 mem (spnt + 3)
  let s := s.read (spnt + 3)
  let color := sy &&& 0x3f
  let sy := ROUND_TO_PIXEL sy
  let spnt := spnt + 4
  let word1 := int16 (combase16 mem spnt)
  let s := s.read spnt
  let ey := combase16 mem (spnt + 1)
  let s := s.read (spnt + 1)
  if word1 ≠ -1 ∨ ey ≠ 0xffff then
    let ey := ROUND_TO_PIXEL ey
    let spnt := spnt + 2
    let word2 := int16 (combase16 mem spnt2)
    let s := s.read spnt2
    let ey2 := ROUND_TO_PIXEL (combase16 mem (spnt2 + 1))
    let s := s.read (spnt2 + 1)
    let spnt2 := spnt2 + 2
    poly_loop mem clip color fuel s
      { sx := sx, sx2 := sx2, sy := sy, word1 := word1, ey := ey, word2 := word2, ey2 := ey2,
        spnt := spnt, spnt2 := spnt2 }
  else s

/-- Dispatch of one object-table entry `d1` (lines 237-342). -/
def dispatch (fuel : Nat) (mem : ComMem) (clip : Clip) (s : VState) (d1 : Nat) : VState :=
  let spnt := d1 &&& 0x07ff
  let shp := (d1 &&& 0xf000) >>> 12
  let s := s.countEntry
  let s := if shp = 0x8 then point_loop mem clip fuel s spnt else s
  let s := if shp = 0xc then line_loop fuel mem clip fuel s spnt else s
  let s := if shp = 0x4 then polygon fuel mem clip s spnt else s
  s

/-- The object-table loop `while (lpnt < 0x7ff)` (lines 233-343); `ifuel` is the fuel handed
to every inner loop. -/
def object_loop (ifuel : Nat) (mem : ComMem) (clip : Clip) : Nat → VState → Nat → VState
  | 0, s, _ => s.timedOut
  | fuel + 1, s, lpnt =>
    if lpnt < 0x7ff then
      let d1 := combase16 mem lpnt
      let s := s.read lpnt
      let lpnt := lpnt + 1
      if d1 = 0xffff then s
      else
        let s := dispatch ifuel mem clip s d1
        if s.timeout then s else object_loop ifuel mem clip fuel s lpnt
    else s

/-- The body of `irobot_state::irobot_run_video` from line 232 on, run on the selected
`polybitmap` held in `s`; every loop may take up to `fuel` iterations. -/
def irobot_run_video (fuel : Nat) (mem : ComMem) (clip : Clip) (s : VState) : VState :=
  object_loop fuel mem clip fuel s 0

/-- `irobot_state::irobot_poly_clear(bitmap_base)`:
`memset(bitmap_base, 0, BITMAP_WIDTH * m_screen->height())`. -/
def irobot_poly_clear (height : Nat) (bitmap_base : Int → Nat) : Int → Nat :=
  fun j => if 0 ≤ j ∧ j < BITMAP_WIDTH * (height : Int) then 0 else bitmap_base j

/-- A command memory given by its first words (0 elsewhere). -/
def memOfList (l : List Nat) : ComMem := fun i => l.getD i 0

/-! ## Palette and buffer selection -/

/-- Modelled from the spec: the colour value `rgb_t(r, g, b)` of the emulator core, which is
missing from the sources at hand: three 8-bit channels `(r, g, b)`. -/
def rgb_t (r g b : Nat) : Nat × Nat × Nat := (r % 256, g % 256, b % 256)

/-- Modelled from the spec: `set_pen_color(i, c)` of the palette device, which is missing
from the sources at hand: it stores colour `c` in table entry `i` and nothing else. -/
def set_pen_color (palette : Nat → Nat × Nat × Nat) (i : Nat) (c : Nat × Nat × Nat) :
    Nat → Nat × Nat × Nat :=
  fun j => if j = i then c else palette j

/-- Modelled from the spec: `BIT(x, n)`, bit `n` of `x`, missing from the sources at hand. -/
def BIT (x n : Nat) : Nat := (x >>> n) &&& 1

/-- Modelled from the spec: the bit permutation `bitswap<8>(val, b7, …, b0)`, missing from
the sources at hand: bit 7 of the result is bit `b7` of `val`, …, bit 0 is bit `b0`. -/
def bitswap8 (val b7 b6 b5 b4 b3 b2 b1 b0 : Nat) : Nat :=
  (BIT val b7 <<< 7) ||| (BIT val b6 <<< 6) ||| (BIT val b5 <<< 5) ||| (BIT val b4 <<< 4)
    ||| (BIT val b3 <<< 3) ||| (BIT val b2 <<< 2) ||| (BIT val b1 <<< 1) ||| BIT val b0

/-- Body of the loop of `PALETTE_INIT_MEMBER(irobot_state, irobot)` (lines 50-58) for index
`i`; `color_prom i` is the byte `color_prom[i]`. -/
def palette_init_entry (color_prom : Nat → Nat) (palette : Nat → Nat × Nat × Nat) (i : Nat) :
    Nat → Nat × Nat × Nat :=
  let p := color_prom i % 256
  let intensity := p &&& 0x03
  let r := 28 * ((p >>> 6) &&& 0x03) * intensity
  let g := 28 * ((p >>> 4) &&& 0x03) * intensity
  let b := 28 * ((p >>> 2) &&& 0x03) * intensity
  let swapped_i := bitswap8 i 7 6 5 4 3 0 1 2
  set_pen_color palette (swapped_i + 64) (rgb_t r g b)

/-- `PALETTE_INIT_MEMBER(irobot_state, irobot)`: the loop `for (i = 0; i < 32; i++)`. -/
def palette_init_irobot (color_prom : Nat → Nat) (palette : Nat → Nat × Nat × Nat) :
    Nat → Nat × Nat × Nat :=
  (List.range 32).foldl (palette_init_entry color_prom) palette

/-- `irobot_state::irobot_paletteram_w` (lines 63-78); `data` is a `uint8_t`. -/
def irobot_paletteram_w (palette : Nat → Nat × Nat × Nat) (offset data : Nat) :
    Nat → Nat × Nat × Nat :=
  let color := ((data <<< 1) ||| (offset &&& 0x01)) ^^^ 0x1ff
  let intensity := color &&& 0x07
  let bits := (color >>> 3) &&& 0x03
  let b := 12 * bits * intensity
  let bits := (color >>> 5) &&& 0x03
  let g := 12 * bits * intensity
  let bits := (color >>> 7) &&& 0x03
  let r := 12 * bits * intensity
  set_pen_color palette ((offset >>> 1) &&& 0x3F) (rgb_t r g b)

/-- The members of `irobot_state` that select the drawing surface: the flag `m_bufsel` and
the two polygon bitmaps. -/
structure irobot_state where
  m_bufsel : Bool
  m_polybitmap1 : Int → Nat
  m_polybitmap2 : Int → Nat

/-- The draw-side buffer, `m_bufsel ? m_polybitmap2 : m_polybitmap1` (lines 88, 227-230). -/
def irobot_state.draw_base (st : irobot_state) : Int → Nat :=
  if st.m_bufsel then st.m_polybitmap2 else st.m_polybitmap1

/-- The buffer `screen_update_irobot` copies to the screen,
`bitmap_base = m_bufsel ? m_polybitmap1 : m_polybitmap2` (line 351). -/
def irobot_state.screen_update_base (st : irobot_state) : Int → Nat :=
  if st.m_bufsel then st.m_polybitmap1 else st.m_polybitmap2

/-- Store back through the pointer chosen by `m_bufsel`: the draw-side buffer becomes `bmp`. -/
def irobot_state.set_draw_base (st : irobot_state) (bmp : Int → Nat) : irobot_state :=
  if st.m_bufsel then { st with m_polybitmap2 := bmp } else { st with m_polybitmap1 := bmp }

/-- `irobot_state::irobot_run_video()` on the device state: `polybitmap` is chosen by
`m_bufsel` (lines 227-230), then the pass of line 232 on runs on it. -/
def irobot_state.run_video (fuel : Nat) (mem : ComMem) (clip : Clip) (st : irobot_state) :
    irobot_state :=
  st.set_draw_base (irobot_run_video fuel mem clip (VState.init st.draw_base)).polybitmap

/-- The argument-less `irobot_state::irobot_poly_clear()` (lines 86-90); `height` is
`m_screen->height()`. -/
def irobot_state.poly_clear (height : Nat) (st : irobot_state) : irobot_state :=
  st.set_draw_base (irobot_poly_clear height st.draw_base)

/-! ## Specification vocabulary -/

/-- Offsets of the `n + 1` points `x1, x1 + sx, …, x1 + n * sx` of row `y`, last plotted
first (the order of the write log). -/
def hrow (y sx : Int) : Nat → Int → List Int
  | 0, x1 => [y * 256 + x1]
  | n + 1, x1 => hrow y sx n (x1 + sx) ++ [y * 256 + x1]

/-- Offsets stored to when rows `y, y + 1, …, y + n` are each filled from column `x1` to
column `x2`, last row first (the order of the write log). -/
def rect_offsets (x1 x2 : Int) : Nat → Int → List Int
  | 0, y => hline_offsets x1 x2 y
  | n + 1, y => rect_offsets x1 x2 n (y + 1) ++ hline_offsets x1 x2 y

/-- Offset `i` is the address of a pixel `(x, y)` that passes the clip test. -/
def clipOffset (clip : Clip) (i : Int) : Prop :=
  ∃ x y, clip.inside x y ∧ i = y * 256 + x

/-- From `s` to `t` the write log grew only by offsets of pixels inside the clip rectangle,
and every byte of the bitmap that differs is at such an offset. -/
def Confined (clip : Clip) (s t : VState) : Prop :=
  (∃ new : List Int, t.writes = new ++ s.writes ∧ ∀ i ∈ new, clipOffset clip i)
  ∧ ∀ i, t.polybitmap i ≠ s.polybitmap i → clipOffset clip i

/-- From `s` to `t` the read log grew only by indices below 2048. -/
def ReadsBelow (s t : VState) : Prop :=
  ∃ new : List Nat, t.reads = new ++ s.reads ∧ ∀ i ∈ new, i < 2048

/-- From `s` to `t` every byte of the bitmap either kept its value or holds a value that
fits in 6 bits. -/
def Low6 (s t : VState) : Prop :=
  ∀ i, t.polybitmap i = s.polybitmap i ∨ t.polybitmap i ≤ 63

/-- The loop variables with which the polygon branch enters its loop (lines 279-299), for
the object at `spnt`. -/
def polygon_vars (mem : ComMem) (spnt : Nat) : PolyVars :=
  { sx := combase16 mem (spnt + 1), sx2 := combase16 mem (spnt + 2),
    sy := ROUND_TO_PIXEL (combase16 mem (spnt + 3)),
    word1 := int16 (combase16 mem (spnt + 4)),
    ey := ROUND_TO_PIXEL (combase16 mem (spnt + 5)),
    word2 := int16 (combase16 mem (combase16 mem spnt &&& 0x7ff)),
    ey2 := ROUND_TO_PIXEL (combase16 mem ((combase16 mem spnt &&& 0x7ff) + 1)),
    spnt := spnt + 6, spnt2 := (combase16 mem spnt &&& 0x7ff) + 2 }

/-- The state after `k` iterations of the polygon loop, `none` once the loop has been left
by `break`. -/
def poly_iter (mem : ComMem) (clip : Clip) (color : Nat) :
    Nat → VState → PolyVars → Option (VState × PolyVars)
  | 0, s, v => some (s, v)
  | k + 1, s, v =>
    match poly_body mem clip color s v with
    | (_, none) => none
    | (s, some v) => poly_iter mem clip color k s v

/-- Bookkeeping for the X accumulators of a polygon that started on scanline `sy0` with
start X values `sx0`, `sx20`: slopes are signed 16-bit values, segment ends are at most
383, and each accumulator is away from its start value by at most `32768 * n`, where `n`
counts scanlines between `sy0` and `min sy 383`. -/
def AccBound (sx0 sx20 sy0 : Int) (v : PolyVars) : Prop :=
  (-32768 ≤ v.word1 ∧ v.word1 ≤ 32767) ∧ (-32768 ≤ v.word2 ∧ v.word2 ≤ 32767)
  ∧ v.ey ≤ 383 ∧ v.ey2 ≤ 383 ∧ sy0 ≤ v.sy
  ∧ (∃ n : Nat, sy0 + n ≤ min v.sy 383 ∧ -(32768 * (n : Int)) ≤ v.sx - sx0
      ∧ v.sx - sx0 ≤ 32768 * (n : Int))
  ∧ ∃ n : Nat, sy0 + n ≤ min v.sy 383 ∧ -(32768 * (n : Int)) ≤ v.sx2 - sx20
      ∧ v.sx2 - sx20 ≤ 32768 * (n : Int)

/-- The points the x-major loop of `draw_line` steps through, in order (the recursion of
`draw_line_x` without the bitmap). -/
def line_pts_x (x2 sx sy dx dy : Int) : Nat → Int → Int → Int → List (Int × Int)
  | 0, _, _, _ => []
  | fuel + 1, x1, y1, cx =>
    (x1, y1) :: (if x1 = x2 then []
      else if cx - dy < 0 then line_pts_x x2 sx sy dx dy fuel (x1 + sx) (y1 + sy) (cx - dy + dx)
      else line_pts_x x2 sx sy dx dy fuel (x1 + sx) y1 (cx - dy))

/-- The points the y-major loop of `draw_line` steps through, in order (the recursion of
`draw_line_y` without the bitmap). -/
def line_pts_y (y2 sx sy dx dy : Int) : Nat → Int → Int → Int → List (Int × Int)
  | 0, _, _, _ => []
  | fuel + 1, x1, y1, cy =>
    (x1, y1) :: (if y1 = y2 then []
      else if cy - dx < 0 then line_pts_y y2 sx sy dx dy fuel (x1 + sx) (y1 + sy) (cy - dx + dy)
      else line_pts_y y2 sx sy dx dy fuel x1 (y1 + sy) (cy - dx))

/-- The points `draw_line` steps through from `(x1, y1)` to `(x2, y2)`, in order. -/
def line_pts (fuel : Nat) (x1 y1 x2 y2 : Int) : List (Int × Int) :=
  let dx : Int := (x1 - x2).natAbs
  let dy : Int := (y1 - y2).natAbs
  let sx : Int := if x1 ≤ x2 then 1 else -1
  let sy : Int := if y1 ≤ y2 then 1 else -1
  if dx ≥ dy then line_pts_x x2 sx sy dx dy fuel x1 y1 (dx / 2)
  else line_pts_y y2 sx sy dx dy fuel x1 y1 (dy / 2)

/-- The offsets `y * 256 + x` of those points of a list that pass the clip test. -/
def plotted (clip : Clip) (pts : List (Int × Int)) : List Int :=
  (pts.filter (fun p => decide (clip.inside p.1 p.2))).map (fun p => p.2 * 256 + p.1)

/-- How many times the value changes from one entry of a list to the next. -/
def changes : List Int → Nat
  | a :: b :: l => (if a = b then 0 else 1) + changes (b :: l)
  | _ => 0

/-! ## Basic facts -/

theorem ROUND_TO_PIXEL_eq (x : Int) : ROUND_TO_PIXEL x = x / 128 - 128 := by
  unfold ROUND_TO_PIXEL
  rw [Int.shiftRight_eq_div_pow]
  norm_num

theorem color_mod (w : Nat) : (w &&& 0x3f) % 256 = w &&& 0x3f :=
  Nat.mod_eq_of_lt (lt_of_le_of_lt Nat.and_le_right (by decide))

theorem combase16_lt (mem : ComMem) (i : Nat) : combase16 mem i < 65536 := by
  unfold combase16; omega

/-! ## Point renderer -/

/-- C1: when the point loop meets a pair `(x, yColor)` with `x ≠ 0xFFFF` it runs `point_pair`
on it and goes on two words further; `point_pair` stores `yColor & 0x3F` at offset
`py * 256 + px`, where `(px, py) = ((x >> 7) - 128, (yColor >> 7) - 128)`, exactly when
`(px, py)` passes the clip test, and otherwise leaves the bitmap and the write log as they
were. -/
theorem point_pair_sets_pixel_iff_inside (mem : ComMem) (clip : Clip) (fuel : Nat) (s : VState)
    (spnt x yColor : Nat) (hs : spnt < 0x7ff)
    (hxw : combase16 mem spnt = x) (hyw : combase16 mem (spnt + 1) = yColor)
    (hx : x ≠ 0xffff) :
    point_loop mem clip (fuel + 1) s spnt
        = point_loop mem clip fuel
            (point_pair clip ((s.read spnt).read (spnt + 1)) x yColor) (spnt + 2)
    ∧ (clip.inside (ROUND_TO_PIXEL x) (ROUND_TO_PIXEL yColor) →
        (point_pair clip ((s.read spnt).read (spnt + 1)) x yColor).polybitmap
          = Function.update s.polybitmap
              (ROUND_TO_PIXEL yColor * 256 + ROUND_TO_PIXEL x) (yColor &&& 0x3f)
        ∧ (point_pair clip ((s.read spnt).read (spnt + 1)) x yColor).writes
          = (ROUND_TO_PIXEL yColor * 256 + ROUND_TO_PIXEL x) :: s.writes)
    ∧ (¬ clip.inside (ROUND_TO_PIXEL x) (ROUND_TO_PIXEL yColor) →
        (point_pair clip ((s.read spnt).read (spnt + 1)) x yColor).polybitmap = s.polybitmap
        ∧ (point_pair clip ((s.read spnt).read (spnt + 1)) x yColor).writes = s.writes) := by
  subst hxw hyw
  refine ⟨?_, ?_, ?_⟩
  · simp only [point_loop, if_pos hs, if_neg hx]
  · intro h
    simp only [point_pair, if_pos h, draw_pixel, VState.read, BITMAP_WIDTH, color_mod]
    refine ⟨?_, trivial⟩
    funext j
    simp [Function.update_apply]
  · intro h
    simp only [point_pair, if_neg h, VState.read]
    exact ⟨trivial, trivial⟩

/-- Witness for C1: the pair `(0x4500, 0x4007)` at address 2 is pixel `(10, 0)`, colour 7,
inside the clip rectangle `0 ≤ x < 256`, `0 ≤ y < 232`. -/
theorem point_pair_sets_pixel_iff_inside_witness :
    (point_pair ⟨0, 0, 256, 232⟩
        (((VState.init (fun _ => 0)).read 2).read 3) 0x4500 0x4007).polybitmap
      = Function.update (fun _ => 0) (ROUND_TO_PIXEL (0x4007 : Nat) * 256 + ROUND_TO_PIXEL (0x4500 : Nat))
          (0x4007 &&& 0x3f) :=
  ((point_pair_sets_pixel_iff_inside (memOfList [0x8002, 0xffff, 0x4500, 0x4007, 0xffff])
      ⟨0, 0, 256, 232⟩ 3 (VState.init (fun _ => 0)) 2 0x4500 0x4007
      (by decide) (by decide) (by decide) (by decide)).2.1 (by decide)).1

/-! ## Polygon scanline fill -/

theorem mem_hline_offsets (x1 x2 y i : Int) :
    i ∈ hline_offsets x1 x2 y ↔ ∃ x, x1 ≤ x ∧ x ≤ x2 ∧ i = y * 256 + x := by
  unfold hline_offsets BITMAP_WIDTH
  rw [List.mem_map]
  constructor
  · rintro ⟨k, hk, rfl⟩
    rw [List.mem_range] at hk
    exact ⟨x1 + k, by omega, by omega, by omega⟩
  · rintro ⟨x, h1, h2, rfl⟩
    exact ⟨(x - x1).toNat, List.mem_range.2 (by omega), by omega⟩

theorem fill_hline_writes (s : VState) (x1 x2 y : Int) (c : Nat) :
    (fill_hline s x1 x2 y c).writes = hline_offsets x1 x2 y ++ s.writes := rfl

theorem fill_hline_polybitmap (s : VState) (x1 x2 y : Int) (c : Nat) (i : Int) :
    (fill_hline s x1 x2 y c).polybitmap i
      = if i ∈ hline_offsets x1 x2 y then c % 256 else s.polybitmap i := by
  have : (y * BITMAP_WIDTH + x1 ≤ i ∧ i < y * BITMAP_WIDTH + x1 + (x2 - x1 + 1))
      ↔ i ∈ hline_offsets x1 x2 y := by
    rw [mem_hline_offsets]
    simp only [BITMAP_WIDTH]
    constructor
    · intro h
      exact ⟨i - y * 256, by omega, by omega, by omega⟩
    · rintro ⟨x, h1, h2, rfl⟩
      omega
  simp only [fill_hline, this]

/-- The scanline fill in terms of the clipped bounds `lo`, `hi`. -/
theorem poly_scanline_eq (clip : Clip) (s : VState) (sx sx2 sy : Int) (color : Nat) :
    poly_scanline clip s sx sx2 sy color
      = if (clip.m_ir_ymin ≤ sy ∧ sy < clip.m_ir_ymax)
            ∧ max (min (ROUND_TO_PIXEL sx) (ROUND_TO_PIXEL sx2)) clip.m_ir_xmin
                < min (max (ROUND_TO_PIXEL sx) (ROUND_TO_PIXEL sx2)) (clip.m_ir_xmax - 1)
        then fill_hline s
              (max (min (ROUND_TO_PIXEL sx) (ROUND_TO_PIXEL sx2)) clip.m_ir_xmin + 1)
              (min (max (ROUND_TO_PIXEL sx) (ROUND_TO_PIXEL sx2)) (clip.m_ir_xmax - 1)) sy color
        else s := by
  unfold poly_scanline
  generalize ROUND_TO_PIXEL sx = p
  generalize ROUND_TO_PIXEL sx2 = q
  by_cases hy : sy ≥ clip.m_ir_ymin ∧ sy < clip.m_ir_ymax
  · have hy' : clip.m_ir_ymin ≤ sy ∧ sy < clip.m_ir_ymax := hy
    rw [if_pos hy]
    simp only [hy', true_and]
    have ha : (if (if p > q then q else p) < clip.m_ir_xmin then clip.m_ir_xmin
                else (if p > q then q else p)) = max (min p q) clip.m_ir_xmin := by
      split_ifs <;> omega
    have hb : (if (if p > q then p else q) ≥ clip.m_ir_xmax then clip.m_ir_xmax - 1
                else (if p > q then p else q)) = min (max p q) (clip.m_ir_xmax - 1) := by
      split_ifs <;> omega
    simp only [ha, hb]
  · have hy' : ¬ (clip.m_ir_ymin ≤ sy ∧ sy < clip.m_ir_ymax) := hy
    simp only [if_neg hy, hy', false_and, if_false]

/-- C4: on a polygon scanline `sy` inside `[ymin, ymax)`, with `lo = max (min p q) xmin` and
`hi = min (max p q) (xmax - 1)` for the transformed accumulators `p`, `q`: if `lo < hi` the
offsets stored to are exactly `sy * 256 + x` for `lo < x ≤ hi` (so column `lo` is not among
them), each now holding the colour and every other byte unchanged; if `hi ≤ lo` nothing is
stored; and a scanline outside `[ymin, ymax)` stores nothing. -/
theorem poly_scanline_fills_open_left_run (clip : Clip) (s : VState) (sx sx2 sy : Int)
    (color : Nat) (hc : color ≤ 63) :
    (clip.m_ir_ymin ≤ sy ∧ sy < clip.m_ir_ymax →
      max (min (ROUND_TO_PIXEL sx) (ROUND_TO_PIXEL sx2)) clip.m_ir_xmin
        < min (max (ROUND_TO_PIXEL sx) (ROUND_TO_PIXEL sx2)) (clip.m_ir_xmax - 1) →
      ∃ new : List Int,
        (poly_scanline clip s sx sx2 sy color).writes = new ++ s.writes
        ∧ (∀ i, i ∈ new ↔ ∃ x,
            max (min (ROUND_TO_PIXEL sx) (ROUND_TO_PIXEL sx2)) clip.m_ir_xmin < x
            ∧ x ≤ min (max (ROUND_TO_PIXEL sx) (ROUND_TO_PIXEL sx2)) (clip.m_ir_xmax - 1)
            ∧ i = sy * 256 + x)
        ∧ sy * 256 + max (min (ROUND_TO_PIXEL sx) (ROUND_TO_PIXEL sx2)) clip.m_ir_xmin ∉ new
        ∧ ∀ i, (poly_scanline clip s sx sx2 sy color).polybitmap i
            = if i ∈ new then color else s.polybitmap i)
    ∧ (clip.m_ir_ymin ≤ sy ∧ sy < clip.m_ir_ymax →
      min (max (ROUND_TO_PIXEL sx) (ROUND_TO_PIXEL sx2)) (clip.m_ir_xmax - 1)
        ≤ max (min (ROUND_TO_PIXEL sx) (ROUND_TO_PIXEL sx2)) clip.m_ir_xmin →
      poly_scanline clip s sx sx2 sy color = s)
    ∧ (¬ (clip.m_ir_ymin ≤ sy ∧ sy < clip.m_ir_ymax) →
      poly_scanline clip s sx sx2 sy color = s) := by
  have hcm : color % 256 = color := Nat.mod_eq_of_lt (by omega)
  rw [poly_scanline_eq]
  generalize max (min (ROUND_TO_PIXEL sx) (ROUND_TO_PIXEL sx2)) clip.m_ir_xmin = lo
  generalize min (max (ROUND_TO_PIXEL sx) (ROUND_TO_PIXEL sx2)) (clip.m_ir_xmax - 1) = hi
  refine ⟨?_, ?_, ?_⟩
  · intro hy hlt
    rw [if_pos ⟨hy, hlt⟩]
    refine ⟨hline_offsets (lo + 1) hi sy, fill_hline_writes _ _ _ _ _, ?_, ?_, ?_⟩
    · intro i
      rw [mem_hline_offsets]
      constructor
      · rintro ⟨x, h1, h2, rfl⟩
        exact ⟨x, by omega, h2, rfl⟩
      · rintro ⟨x, h1, h2, rfl⟩
        exact ⟨x, by omega, h2, rfl⟩
    · rw [mem_hline_offsets]
      rintro ⟨x, h1, h2, h3⟩
      omega
    · intro i
      rw [fill_hline_polybitmap, hcm]
  · intro hy hle
    rw [if_neg (by omega)]
  · intro hy
    rw [if_neg (fun h => hy h.1)]

/-- Witness for C4: accumulators `0x4500`, `0x4A00` (columns 10 and 20) on scanline 0. -/
theorem poly_scanline_fills_open_left_run_witness :
    (0 : Int) * 256 + max (min (ROUND_TO_PIXEL 0x4500) (ROUND_TO_PIXEL 0x4A00)) 0
      ∉ hline_offsets 11 20 0
    ∧ ∃ new : List Int,
        (poly_scanline ⟨0, 0, 256, 232⟩ (VState.init (fun _ => 0)) 0x4500 0x4A00 0 7).writes
          = new ++ [] ∧ (11 : Int) ∈ new ∧ (10 : Int) ∉ new := by
  obtain ⟨new, h1, h2, h3, _⟩ :=
    (poly_scanline_fills_open_left_run ⟨0, 0, 256, 232⟩ (VState.init (fun _ => 0))
      0x4500 0x4A00 0 7 (by decide)).1 (by decide) (by decide)
  refine ⟨by decide, new, h1, (h2 11).2 ⟨11, by decide, by decide, by decide⟩, ?_⟩
  intro h
  obtain ⟨x, hx1, hx2, hx3⟩ := (h2 10).1 h
  have e1 : max (min (ROUND_TO_PIXEL 0x4500) (ROUND_TO_PIXEL 0x4A00)) 0 = 10 := by decide
  simp only [e1] at hx1
  omega

/-! ## Table walk: sentinel -/

/-- C6: if command-memory word 0 is `0xFFFF`, a render pass stores nothing: the write log and
every byte of the draw-side buffer are as before, whatever the other words, the clip
rectangle and the fuel are; on a buffer just cleared by `irobot_poly_clear` every byte of the
`256 * height` canvas is therefore still 0. -/
theorem run_video_sentinel_first (fuel : Nat) (mem : ComMem) (clip : Clip) (s : VState)
    (h0 : combase16 mem 0 = 0xffff) :
    (irobot_run_video fuel mem clip s).polybitmap = s.polybitmap
    ∧ (irobot_run_video fuel mem clip s).writes = s.writes
    ∧ (0 < fuel → (irobot_run_video fuel mem clip s).timeout = s.timeout)
    ∧ ∀ (height : Nat) (bmp : Int → Nat) (j : Int), 0 ≤ j → j < 256 * (height : Int) →
        (irobot_run_video fuel mem clip (VState.init (irobot_poly_clear height bmp))).polybitmap j
          = 0 := by
  have key : ∀ t : VState, (irobot_run_video fuel mem clip t).polybitmap = t.polybitmap
      ∧ (irobot_run_video fuel mem clip t).writes = t.writes
      ∧ (0 < fuel → (irobot_run_video fuel mem clip t).timeout = t.timeout) := by
    intro t
    cases fuel with
    | zero => exact ⟨rfl, rfl, fun h => absurd h (by decide)⟩
    | succ n =>
      simp only [irobot_run_video, object_loop, h0]
      exact ⟨rfl, rfl, fun _ => rfl⟩
  refine ⟨(key s).1, (key s).2.1, (key s).2.2, ?_⟩
  intro height bmp j hj0 hj1
  rw [(key _).1]
  simp only [VState.init, irobot_poly_clear, BITMAP_WIDTH]
  rw [if_pos ⟨hj0, hj1⟩]

/-- Witness for C6: the one-word table `[0xFFFF]`. -/
theorem run_video_sentinel_first_witness :
    (irobot_run_video 8 (memOfList [0xffff, 0x4002, 0x8003]) ⟨0, 0, 256, 232⟩
      (VState.init (fun _ => 0))).writes = [] :=
  (run_video_sentinel_first 8 (memOfList [0xffff, 0x4002, 0x8003]) ⟨0, 0, 256, 232⟩
    (VState.init (fun _ => 0)) (by decide)).2.1

/-! ## Polygon header -/

/-- C9: a polygon whose first `(slope, edgeEndY)` pair, right after the 4-word header at
`spnt`, is the sentinel (`(int16_t)slope == -1` and `edgeEndY == 0xFFFF`) stores nothing:
the write log, the bitmap and the timeout flag are unchanged,
for every header, clip rectangle, fuel and remaining memory. -/
theorem polygon_first_pair_sentinel_draws_nothing (fuel : Nat) (mem : ComMem) (clip : Clip)
    (s : VState) (spnt : Nat)
    (h1 : int16 (combase16 mem (spnt + 4)) = -1) (h2 : combase16 mem (spnt + 5) = 0xffff) :
    (polygon fuel mem clip s spnt).writes = s.writes
    ∧ (polygon fuel mem clip s spnt).polybitmap = s.polybitmap
    ∧ (polygon fuel mem clip s spnt).timeout = s.timeout := by
  have h2' : combase16 mem (spnt + 4 + 1) = 0xffff := h2
  simp only [polygon, h1, h2', ne_eq, not_true_eq_false, or_self, if_false, VState.read]
  exact ⟨trivial, trivial, trivial⟩

/-- Witness for C9: header at address 2 followed directly by `(0xFFFF, 0xFFFF)`. -/
theorem polygon_first_pair_sentinel_draws_nothing_witness :
    (polygon 8 (memOfList [0x4002, 0xffff, 10, 0x4500, 0x4A00, 0x4007, 0xffff, 0xffff])
      ⟨0, 0, 256, 232⟩ (VState.init (fun _ => 0)) 2).writes = [] :=
  (polygon_first_pair_sentinel_draws_nothing 8
    (memOfList [0x4002, 0xffff, 10, 0x4500, 0x4A00, 0x4007, 0xffff, 0xffff])
    ⟨0, 0, 256, 232⟩ (VState.init (fun _ => 0)) 2 (by decide) (by decide)).1

/-! ## Line renderer: end X -/

/-- C10 as stated fails: for the quadruple `(endY, startYColor, slope, startX) =
(0x4080, 0x4005, 128, 0x4000)` the code's raw end X is `0x4000 + 128 * (1 - 0 + 1) = 0x4100`
(scanlines 0 and 1 after the pixel transform), not
`0x4000 + 128 * (0x4080 - 0x4005 + 1)` from the untransformed words; the line ends at pixel
`(2, 1)`, and pixel `(124, 1)`, where the stated formula would end it, is not drawn. -/
theorem vector_ex_not_from_raw_words :
    vector_ex 0x4080 0x4005 128 0x4000 = 0x4100
    ∧ vector_ex 0x4080 0x4005 128 0x4000
        ≠ (0x4000 : Int) + int16 128 * ((0x4080 : Int) - (0x4005 : Int) + 1)
    ∧ (vector_quad 8 ⟨0, 0, 256, 232⟩ (VState.init (fun _ => 0)) 0x4080 0x4005 128 0x4000).writes
        = [1 * 256 + 2, 0 * 256 + 1, 0 * 256 + 0]
    ∧ (vector_quad 8 ⟨0, 0, 256, 232⟩ (VState.init (fun _ => 0))
        0x4080 0x4005 128 0x4000).polybitmap
          (1 * 256 + ROUND_TO_PIXEL ((0x4000 : Int) + int16 128 * ((0x4080 : Int) - (0x4005 : Int) + 1)))
        = 0 := by
  refine ⟨by decide, by decide, by decide, by decide⟩

/-- C10 (amended): for a quadruple `(endY, startYColor, slope, startX)` at `spnt < 0x7ff` with
`endY ≠ 0xFFFF`, the line loop rasterizes with `draw_line` from
`(transform startX, transform startYColor)` to `(transform ex, transform endY)` in colour
`startYColor & 0x3F` and goes on four words further, where the raw end X is
`ex = startX + slope * (transform endY - transform startYColor + 1)` with `slope` read as a
signed 16-bit value: the scanline difference is taken between the transformed rows. -/
theorem line_loop_end_x_from_transformed_rows (lfuel fuel : Nat) (mem : ComMem) (clip : Clip)
    (s : VState) (spnt endY startYColor slope startX : Nat) (hs : spnt < 0x7ff)
    (h0 : combase16 mem spnt = endY) (h1 : combase16 mem (spnt + 1) = startYColor)
    (h2 : combase16 mem (spnt + 2) = slope) (h3 : combase16 mem (spnt + 3) = startX)
    (hend : endY ≠ 0xffff) :
    vector_ex endY startYColor slope startX
        = (startX : Int)
            + int16 slope * (ROUND_TO_PIXEL endY - ROUND_TO_PIXEL startYColor + 1)
    ∧ vector_quad lfuel clip ((((s.read spnt).read (spnt + 1)).read (spnt + 3)).read (spnt + 2))
          endY startYColor slope startX
        = draw_line lfuel clip ((((s.read spnt).read (spnt + 1)).read (spnt + 3)).read (spnt + 2))
            (ROUND_TO_PIXEL startX) (ROUND_TO_PIXEL startYColor)
            (ROUND_TO_PIXEL ((startX : Int)
              + int16 slope * (ROUND_TO_PIXEL endY - ROUND_TO_PIXEL startYColor + 1)))
            (ROUND_TO_PIXEL endY) (startYColor &&& 0x3f)
    ∧ line_loop lfuel mem clip (fuel + 1) s spnt
        = if (vector_quad lfuel clip
                ((((s.read spnt).read (spnt + 1)).read (spnt + 3)).read (spnt + 2))
                endY startYColor slope startX).timeout
          then vector_quad lfuel clip
                ((((s.read spnt).read (spnt + 1)).read (spnt + 3)).read (spnt + 2))
                endY startYColor slope startX
          else line_loop lfuel mem clip fuel
                (vector_quad lfuel clip
                  ((((s.read spnt).read (spnt + 1)).read (spnt + 3)).read (spnt + 2))
                  endY startYColor slope startX) (spnt + 4) := by
  subst h0 h1 h2 h3
  refine ⟨rfl, rfl, ?_⟩
  simp only [line_loop, if_pos hs, if_neg hend]

/-- Witness for C10 (amended): the quadruple `(0x4080, 0x4005, 128, 0x4000)` at address 2. -/
theorem line_loop_end_x_from_transformed_rows_witness :
    vector_ex 0x4080 0x4005 128 0x4000
      = ((0x4000 : Nat) : Int)
          + int16 128 * (ROUND_TO_PIXEL (0x4080 : Nat) - ROUND_TO_PIXEL (0x4005 : Nat) + 1) :=
  (line_loop_end_x_from_transformed_rows 8 8
    (memOfList [0xC002, 0xffff, 0x4080, 0x4005, 128, 0x4000, 0xffff]) ⟨0, 0, 256, 232⟩
    (VState.init (fun _ => 0)) 2 0x4080 0x4005 128 0x4000
    (by decide) (by decide) (by decide) (by decide) (by decide) (by decide)).1

/-! ## Line renderer: horizontal lines -/

theorem hrow_length (y sx : Int) (n : Nat) (x1 : Int) : (hrow y sx n x1).length = n + 1 := by
  induction n generalizing x1 with
  | zero => rfl
  | succ n ih => simp [hrow, ih]

theorem mem_hrow (y sx : Int) (n : Nat) (x1 i : Int) :
    i ∈ hrow y sx n x1 ↔ ∃ k : Nat, k ≤ n ∧ i = y * 256 + x1 + sx * k := by
  induction n generalizing x1 with
  | zero =>
    simp only [hrow, List.mem_singleton]
    constructor
    · intro h
      exact ⟨0, le_refl _, by simp [h]⟩
    · rintro ⟨k, hk, rfl⟩
      obtain rfl : k = 0 := by omega
      simp
  | succ n ih =>
    simp only [hrow, List.mem_append, List.mem_singleton, ih]
    constructor
    · rintro (⟨k, hk, rfl⟩ | rfl)
      · exact ⟨k + 1, by omega, by push_cast; ring⟩
      · exact ⟨0, by omega, by simp⟩
    · rintro ⟨k, hk, rfl⟩
      rcases Nat.eq_zero_or_pos k with rfl | hpos
      · right; simp
      · left
        exact ⟨k - 1, by omega, by
          have : ((k - 1 : Nat) : Int) = (k : Int) - 1 := by omega
          rw [this]; ring⟩

theorem plot_inside (clip : Clip) (s : VState) (x y : Int) (col : Nat) (h : clip.inside x y) :
    (plot clip s x y col).timeout = s.timeout
    ∧ (plot clip s x y col).writes = (y * 256 + x) :: s.writes
    ∧ ∀ i, (plot clip s x y col).polybitmap i
        = if i = y * 256 + x then col % 256 else s.polybitmap i := by
  simp only [plot, if_pos h, draw_pixel, BITMAP_WIDTH]
  exact ⟨trivial, trivial, fun _ => trivial⟩

/-- The x-major loop on a horizontal run (`dy = 0`) that lies inside the clip rectangle. -/
theorem draw_line_x_horizontal (clip : Clip) (x2 sx sy dx y : Int) (col : Nat)
    (hsx : sx = 1 ∨ sx = -1) :
    ∀ (n fuel : Nat) (s : VState) (x1 cx : Int), n + 1 ≤ fuel → 0 ≤ cx →
      x2 = x1 + sx * n → (∀ k : Nat, k ≤ n → clip.inside (x1 + sx * k) y) →
      (draw_line_x clip x2 sx sy dx 0 col fuel s x1 y cx).timeout = s.timeout
      ∧ (draw_line_x clip x2 sx sy dx 0 col fuel s x1 y cx).writes = hrow y sx n x1 ++ s.writes
      ∧ ∀ i, (draw_line_x clip x2 sx sy dx 0 col fuel s x1 y cx).polybitmap i
          = if i ∈ hrow y sx n x1 then col % 256 else s.polybitmap i := by
  intro n
  induction n with
  | zero =>
    intro fuel s x1 cx hf hcx hx2 hin
    obtain ⟨f, rfl⟩ : ∃ f, fuel = f + 1 := ⟨fuel - 1, by omega⟩
    have hx : x1 = x2 := by simp [hx2]
    have hp := plot_inside clip s x1 y col (by simpa using hin 0 (le_refl _))
    simp only [draw_line_x, if_pos hx, hrow, List.mem_singleton]
    exact ⟨hp.1, by simp [hp.2.1], hp.2.2⟩
  | succ n ih =>
    intro fuel s x1 cx hf hcx hx2 hin
    obtain ⟨f, rfl⟩ : ∃ f, fuel = f + 1 := ⟨fuel - 1, by omega⟩
    have hx : ¬ x1 = x2 := by
      rcases hsx with rfl | rfl <;> omega
    have hp := plot_inside clip s x1 y col (by simpa using hin 0 (Nat.zero_le _))
    have hc : ¬ cx - 0 < 0 := by omega
    simp only [draw_line_x, if_neg hx, if_neg hc]
    have hrec := ih f (plot clip s x1 y col) (x1 + sx) (cx - 0) (by omega) (by omega)
      (by rw [hx2]; push_cast; ring)
      (fun k hk => by
        have := hin (k + 1) (by omega)
        have e : x1 + sx * ((k + 1 : Nat) : Int) = x1 + sx + sx * k := by push_cast; ring
        rwa [e] at this)
    refine ⟨hrec.1.trans hp.1, ?_, ?_⟩
    · rw [hrec.2.1, hp.2.1]; simp [hrow]
    · intro i
      rw [hrec.2.2, hp.2.2]
      simp only [hrow, List.mem_append, List.mem_singleton]
      by_cases h1 : i ∈ hrow y sx n (x1 + sx)
      · simp only [h1, true_or, if_true]
      · by_cases h2 : i = y * 256 + x1
        · simp only [h2, or_true, if_true, ite_self]
        · simp only [h1, h2, or_self, if_false]

/-! ## Ghost operations and loop unfoldings -/

@[simp]
theorem read_polybitmap (s : VState) (i : Nat) : (s.read i).polybitmap = s.polybitmap := rfl
@[simp]
theorem read_writes (s : VState) (i : Nat) : (s.read i).writes = s.writes := rfl
@[simp]
theorem read_timeout (s : VState) (i : Nat) : (s.read i).timeout = s.timeout := rfl
@[simp]
theorem read_entries (s : VState) (i : Nat) : (s.read i).entries = s.entries := rfl
@[simp]
theorem read_reads (s : VState) (i : Nat) : (s.read i).reads = i :: s.reads := rfl
@[simp]
theorem countEntry_polybitmap (s : VState) : s.countEntry.polybitmap = s.polybitmap := rfl
@[simp]
theorem countEntry_writes (s : VState) : s.countEntry.writes = s.writes := rfl
@[simp]
theorem countEntry_timeout (s : VState) : s.countEntry.timeout = s.timeout := rfl
@[simp]
theorem countEntry_entries (s : VState) : s.countEntry.entries = s.entries + 1 := rfl
@[simp]
theorem countEntry_reads (s : VState) : s.countEntry.reads = s.reads := rfl
@[simp]
theorem timedOut_polybitmap (s : VState) : s.timedOut.polybitmap = s.polybitmap := rfl
@[simp]
theorem timedOut_writes (s : VState) : s.timedOut.writes = s.writes := rfl
@[simp]
theorem timedOut_timeout (s : VState) : s.timedOut.timeout = true := rfl
@[simp]
theorem timedOut_entries (s : VState) : s.timedOut.entries = s.entries := rfl
@[simp]
theorem timedOut_reads (s : VState) : s.timedOut.reads = s.reads := rfl

theorem nibble_ne_sentinel (d1 : Nat) (h : (d1 &&& 0xf000) >>> 12 ≠ 0xf) : d1 ≠ 0xffff := by
  rintro rfl
  exact h (by decide)

theorem object_loop_stop (ifuel fuel : Nat) (mem : ComMem) (clip : Clip) (s : VState) (lpnt : Nat)
    (hl : lpnt < 0x7ff) (hd : combase16 mem lpnt = 0xffff) :
    object_loop ifuel mem clip (fuel + 1) s lpnt = s.read lpnt := by
  simp only [object_loop, if_pos hl, hd, if_true]

theorem object_loop_end (ifuel fuel : Nat) (mem : ComMem) (clip : Clip) (s : VState) (lpnt : Nat)
    (hl : ¬ lpnt < 0x7ff) :
    object_loop ifuel mem clip (fuel + 1) s lpnt = s := by
  simp only [object_loop, if_neg hl]

theorem object_loop_step (ifuel fuel : Nat) (mem : ComMem) (clip : Clip) (s : VState) (lpnt : Nat)
    (hl : lpnt < 0x7ff) (hd : combase16 mem lpnt ≠ 0xffff) :
    object_loop ifuel mem clip (fuel + 1) s lpnt
      = if (dispatch ifuel mem clip (s.read lpnt) (combase16 mem lpnt)).timeout
        then dispatch ifuel mem clip (s.read lpnt) (combase16 mem lpnt)
        else object_loop ifuel mem clip fuel
              (dispatch ifuel mem clip (s.read lpnt) (combase16 mem lpnt)) (lpnt + 1) := by
  simp only [object_loop, if_pos hl, if_neg hd]

theorem dispatch_point (fuel : Nat) (mem : ComMem) (clip : Clip) (s : VState) (d1 : Nat)
    (h : (d1 &&& 0xf000) >>> 12 = 0x8) :
    dispatch fuel mem clip s d1 = point_loop mem clip fuel s.countEntry (d1 &&& 0x07ff) := by
  simp only [dispatch, h, if_true, show ¬ (8 = 12) from by decide,
    show ¬ (8 = 4) from by decide, if_false]

theorem dispatch_line (fuel : Nat) (mem : ComMem) (clip : Clip) (s : VState) (d1 : Nat)
    (h : (d1 &&& 0xf000) >>> 12 = 0xc) :
    dispatch fuel mem clip s d1 = line_loop fuel mem clip fuel s.countEntry (d1 &&& 0x07ff) := by
  simp only [dispatch, h, if_true, show ¬ (12 = 8) from by decide,
    show ¬ (12 = 4) from by decide, if_false]

theorem dispatch_polygon (fuel : Nat) (mem : ComMem) (clip : Clip) (s : VState) (d1 : Nat)
    (h : (d1 &&& 0xf000) >>> 12 = 0x4) :
    dispatch fuel mem clip s d1 = polygon fuel mem clip s.countEntry (d1 &&& 0x07ff) := by
  simp only [dispatch, h, if_true, show ¬ (4 = 8) from by decide,
    show ¬ (4 = 12) from by decide, if_false]

theorem line_loop_stop (lfuel fuel : Nat) (mem : ComMem) (clip : Clip) (s : VState) (spnt : Nat)
    (h : spnt < 0x7ff → combase16 mem spnt = 0xffff) :
    line_loop lfuel mem clip (fuel + 1) s spnt = (if spnt < 0x7ff then s.read spnt else s) := by
  by_cases hb : spnt < 0x7ff
  · simp only [line_loop, if_pos hb, h hb, if_true]
  · simp only [line_loop, if_neg hb]

theorem line_loop_step (lfuel fuel : Nat) (mem : ComMem) (clip : Clip) (s : VState) (spnt : Nat)
    (hs : spnt < 0x7ff) (hend : combase16 mem spnt ≠ 0xffff) :
    line_loop lfuel mem clip (fuel + 1) s spnt
      = if (vector_quad lfuel clip
              ((((s.read spnt).read (spnt + 1)).read (spnt + 3)).read (spnt + 2))
              (combase16 mem spnt) (combase16 mem (spnt + 1)) (combase16 mem (spnt + 2))
              (combase16 mem (spnt + 3))).timeout
        then vector_quad lfuel clip
              ((((s.read spnt).read (spnt + 1)).read (spnt + 3)).read (spnt + 2))
              (combase16 mem spnt) (combase16 mem (spnt + 1)) (combase16 mem (spnt + 2))
              (combase16 mem (spnt + 3))
        else line_loop lfuel mem clip fuel
              (vector_quad lfuel clip
                ((((s.read spnt).read (spnt + 1)).read (spnt + 3)).read (spnt + 2))
                (combase16 mem spnt) (combase16 mem (spnt + 1)) (combase16 mem (spnt + 2))
                (combase16 mem (spnt + 3))) (spnt + 4) := by
  simp only [line_loop, if_pos hs, if_neg hend]

/-! ## Line renderer: horizontal lines, whole pass -/

/-- A horizontal `draw_line` whose two end points pass the clip test. -/
theorem draw_line_horizontal (fuel : Nat) (clip : Clip) (s : VState) (xa xb y : Int) (col : Nat)
    (hina : clip.inside xa y) (hinb : clip.inside xb y) (hfuel : (xb - xa).natAbs + 1 ≤ fuel) :
    (draw_line fuel clip s xa y xb y col).timeout = s.timeout
    ∧ ∃ new : List Int, (draw_line fuel clip s xa y xb y col).writes = new ++ s.writes
      ∧ new.length = (xb - xa).natAbs + 1
      ∧ (∀ i, i ∈ new ↔ ∃ x, min xa xb ≤ x ∧ x ≤ max xa xb ∧ i = y * 256 + x)
      ∧ ∀ i, (draw_line fuel clip s xa y xb y col).polybitmap i
          = if i ∈ new then col % 256 else s.polybitmap i := by
  have hdy : (((y - y).natAbs : Nat) : Int) = 0 := by simp
  have hge : (((xa - xb).natAbs : Nat) : Int) ≥ 0 := by omega
  simp only [draw_line, hdy, if_pos hge]
  have hsx : (if xa ≤ xb then (1 : Int) else -1) = 1 ∨ (if xa ≤ xb then (1 : Int) else -1) = -1 := by
    split_ifs
    · exact Or.inl rfl
    · exact Or.inr rfl
  have hx2 : xb = xa + (if xa ≤ xb then (1 : Int) else -1) * ((xb - xa).natAbs : Nat) := by
    split_ifs <;> omega
  have hin : ∀ k : Nat, k ≤ (xb - xa).natAbs →
      clip.inside (xa + (if xa ≤ xb then (1 : Int) else -1) * k) y := by
    intro k hk
    unfold Clip.inside at hina hinb ⊢
    split_ifs <;> refine ⟨?_, ?_, hina.2.2.1, hina.2.2.2⟩ <;> omega
  obtain ⟨h1, h2, h3⟩ := draw_line_x_horizontal clip xb _ (if y ≤ y then 1 else -1)
    ((xa - xb).natAbs : Nat) y col hsx
    (xb - xa).natAbs fuel s xa (((xa - xb).natAbs : Nat) / 2) hfuel (by omega) hx2 hin
  refine ⟨h1, _, h2, hrow_length _ _ _ _, ?_, h3⟩
  intro i
  rw [mem_hrow]
  constructor
  · rintro ⟨k, hk, rfl⟩
    refine ⟨xa + (if xa ≤ xb then (1 : Int) else -1) * k, ?_, ?_, by ring⟩ <;>
      split_ifs <;> omega
  · rintro ⟨x, hx1, hx2', rfl⟩
    refine ⟨(x - xa).natAbs, by omega, ?_⟩
    split_ifs <;> omega

/-- C3: a pass over a table holding one vector entry whose single quadruple has both
transformed end points `(xa, y)`, `(xb, y)` on the same row and inside the clip rectangle
completes, stores to exactly the `|xb - xa| + 1` offsets `y * 256 + x` with
`min xa xb ≤ x ≤ max xa xb`, leaves the line colour `startYColor & 0x3F` in each of them and
changes no other byte. -/
theorem horizontal_vector_sets_exactly_its_run (fuel : Nat) (mem : ComMem) (clip : Clip)
    (s : VState) (d1 spnt endY startYColor slope startX : Nat) (xa xb y : Int)
    (ht : s.timeout = false)
    (hd1 : combase16 mem 0 = d1) (hshp : (d1 &&& 0xf000) >>> 12 = 0xc)
    (hspnt : d1 &&& 0x07ff = spnt) (hlt : spnt < 0x7ff) (hw1 : combase16 mem 1 = 0xffff)
    (h0 : combase16 mem spnt = endY) (h1 : combase16 mem (spnt + 1) = startYColor)
    (h2 : combase16 mem (spnt + 2) = slope) (h3 : combase16 mem (spnt + 3) = startX)
    (hend : endY ≠ 0xffff) (hterm : spnt + 4 < 0x7ff → combase16 mem (spnt + 4) = 0xffff)
    (hya : ROUND_TO_PIXEL startYColor = y) (hyb : ROUND_TO_PIXEL endY = y)
    (hxa : ROUND_TO_PIXEL startX = xa)
    (hxb : ROUND_TO_PIXEL (vector_ex endY startYColor slope startX) = xb)
    (hina : clip.inside xa y) (hinb : clip.inside xb y)
    (hfuel : (xb - xa).natAbs + 2 ≤ fuel) :
    (irobot_run_video fuel mem clip s).timeout = false
    ∧ ∃ new : List Int, (irobot_run_video fuel mem clip s).writes = new ++ s.writes
      ∧ new.length = (xb - xa).natAbs + 1
      ∧ (∀ i, i ∈ new ↔ ∃ x, min xa xb ≤ x ∧ x ≤ max xa xb ∧ i = y * 256 + x)
      ∧ ∀ i, (irobot_run_video fuel mem clip s).polybitmap i
          = if i ∈ new then startYColor &&& 0x3f else s.polybitmap i := by
  obtain ⟨f, rfl⟩ : ∃ f, fuel = f + 2 := ⟨fuel - 2, by omega⟩
  have hd1ne : combase16 mem 0 ≠ 0xffff := by
    rw [hd1]; exact nibble_ne_sentinel d1 (by rw [hshp]; decide)
  have hend' : combase16 mem spnt ≠ 0xffff := by rw [h0]; exact hend
  -- the quadruple is a horizontal `draw_line`
  generalize hq : vector_quad (f + 2) clip
      (((((s.read 0).countEntry.read spnt).read (spnt + 1)).read (spnt + 3)).read (spnt + 2))
      endY startYColor slope startX = q
  have hq' := hq
  simp only [vector_quad, hya, hyb, hxa, hxb] at hq'
  obtain ⟨q1, new, q2, q3, q4, q5⟩ := draw_line_horizontal (f + 2) clip
    (((((s.read 0).countEntry.read spnt).read (spnt + 1)).read (spnt + 3)).read (spnt + 2))
    xa xb y (startYColor &&& 0x3f) hina hinb (by omega)
  rw [hq'] at q1 q2 q5
  simp only [read_timeout, read_writes, read_polybitmap, countEntry_timeout, countEntry_writes,
    countEntry_polybitmap, color_mod] at q1 q2 q5
  have hqt : q.timeout = false := q1.trans ht
  -- unfold the pass: entry 0, the quadruple, end of the list, table sentinel
  have e : irobot_run_video (f + 2) mem clip s
      = (if spnt + 4 < 0x7ff then q.read (spnt + 4) else q).read 1 := by
    unfold irobot_run_video
    rw [object_loop_step _ _ _ _ _ _ (by decide) hd1ne, hd1, dispatch_line _ _ _ _ _ hshp, hspnt,
      line_loop_step _ _ _ _ _ _ hlt hend', h0, h1, h2, h3, hq, hqt]
    simp only [Bool.false_eq_true, if_false]
    rw [line_loop_stop _ _ _ _ _ _ hterm]
    have : (if spnt + 4 < 0x7ff then q.read (spnt + 4) else q).timeout = false := by
      split_ifs <;> simpa using hqt
    rw [this]
    simp only [Bool.false_eq_true, if_false]
    rw [object_loop_stop _ _ _ _ _ _ (by decide) hw1]
  rw [e]
  have e1 : ((if spnt + 4 < 0x7ff then q.read (spnt + 4) else q).read 1).timeout = q.timeout := by
    split_ifs <;> rfl
  have e2 : ((if spnt + 4 < 0x7ff then q.read (spnt + 4) else q).read 1).writes = q.writes := by
    split_ifs <;> rfl
  have e3 : ((if spnt + 4 < 0x7ff then q.read (spnt + 4) else q).read 1).polybitmap
      = q.polybitmap := by
    split_ifs <;> rfl
  rw [e1, e2, e3]
  exact ⟨hqt, new, q2, q3, q4, q5⟩

/-- Witness for C3: the quadruple `(0x4000, 0x4005, 1280, 0x4000)` is the line from `(0, 0)`
to `(10, 0)` in colour 5; the pass stores to 11 offsets. -/
theorem horizontal_vector_sets_exactly_its_run_witness :
    ∃ new : List Int,
      (irobot_run_video 12 (memOfList [0xC002, 0xffff, 0x4000, 0x4005, 1280, 0x4000, 0xffff])
        ⟨0, 0, 256, 232⟩ (VState.init (fun _ => 0))).writes = new ++ []
      ∧ new.length = 11
      ∧ (∀ i, i ∈ new ↔ ∃ x, (0 : Int) ≤ x ∧ x ≤ 10 ∧ i = 0 * 256 + x)
      ∧ ∀ i, (irobot_run_video 12
          (memOfList [0xC002, 0xffff, 0x4000, 0x4005, 1280, 0x4000, 0xffff])
          ⟨0, 0, 256, 232⟩ (VState.init (fun _ => 0))).polybitmap i
          = if i ∈ new then 5 else 0 :=
  (horizontal_vector_sets_exactly_its_run 12
    (memOfList [0xC002, 0xffff, 0x4000, 0x4005, 1280, 0x4000, 0xffff]) ⟨0, 0, 256, 232⟩
    (VState.init (fun _ => 0)) 0xC002 2 0x4000 0x4005 1280 0x4000 0 10 0
    rfl (by decide) (by decide) (by decide) (by decide) (by decide) (by decide) (by decide)
    (by decide) (by decide) (by decide) (by decide) (by decide) (by decide) (by decide)
    (by decide) (by decide) (by decide) (by decide)).2


/-! ## Polygon renderer: two flat edges -/

theorem mem_rect_offsets (x1 x2 : Int) (n : Nat) (y i : Int) :
    i ∈ rect_offsets x1 x2 n y ↔
      ∃ row col, y ≤ row ∧ row ≤ y + n ∧ x1 ≤ col ∧ col ≤ x2 ∧ i = row * 256 + col := by
  induction n generalizing y with
  | zero =>
    simp only [rect_offsets, mem_hline_offsets]
    constructor
    · rintro ⟨x, h1, h2, rfl⟩
      exact ⟨y, x, le_refl _, by simp, h1, h2, rfl⟩
    · rintro ⟨row, col, h1, h2, h3, h4, rfl⟩
      obtain rfl : row = y := by
        have : row ≤ y := by simpa using h2
        omega
      exact ⟨col, h3, h4, rfl⟩
  | succ n ih =>
    simp only [rect_offsets, List.mem_append, ih, mem_hline_offsets]
    constructor
    · rintro (⟨row, col, h1, h2, h3, h4, rfl⟩ | ⟨x, h1, h2, rfl⟩)
      · exact ⟨row, col, by omega, by push_cast; omega, h3, h4, rfl⟩
      · exact ⟨y, x, le_refl _, by push_cast; omega, h1, h2, rfl⟩
    · rintro ⟨row, col, h1, h2, h3, h4, rfl⟩
      push_cast at h2
      by_cases hr : row = y
      · right; subst hr; exact ⟨col, h3, h4, rfl⟩
      · left; exact ⟨row, col, by omega, by omega, h3, h4, rfl⟩

/-- The polygon loop on two flat edges (`word1 = word2 = 0`) that both end on scanline
`sy + n`, the first edge list then holding the sentinel: rows `sy .. sy + n` are filled. -/
theorem poly_loop_flat (mem : ComMem) (clip : Clip) (color : Nat) (sx sx2 : Int)
    (spnt spnt2 : Nat) (yEnd : Int)
    (hs1 : int16 (combase16 mem spnt) = -1) (hs2 : combase16 mem (spnt + 1) = 0xffff)
    (hlo : clip.m_ir_xmin ≤ min (ROUND_TO_PIXEL sx) (ROUND_TO_PIXEL sx2))
    (hhi : max (ROUND_TO_PIXEL sx) (ROUND_TO_PIXEL sx2) < clip.m_ir_xmax)
    (hlt : min (ROUND_TO_PIXEL sx) (ROUND_TO_PIXEL sx2)
            < max (ROUND_TO_PIXEL sx) (ROUND_TO_PIXEL sx2))
    (hymax : yEnd < clip.m_ir_ymax) :
    ∀ (n fuel : Nat) (s : VState) (sy : Int), n + 1 ≤ fuel → sy + n = yEnd →
      clip.m_ir_ymin ≤ sy →
      (poly_loop mem clip color fuel s
          { sx := sx, sx2 := sx2, sy := sy, word1 := 0, ey := yEnd, word2 := 0, ey2 := yEnd,
            spnt := spnt, spnt2 := spnt2 }).timeout = s.timeout
      ∧ (poly_loop mem clip color fuel s
          { sx := sx, sx2 := sx2, sy := sy, word1 := 0, ey := yEnd, word2 := 0, ey2 := yEnd,
            spnt := spnt, spnt2 := spnt2 }).writes
          = rect_offsets (min (ROUND_TO_PIXEL sx) (ROUND_TO_PIXEL sx2) + 1)
              (max (ROUND_TO_PIXEL sx) (ROUND_TO_PIXEL sx2)) n sy ++ s.writes
      ∧ ∀ i, (poly_loop mem clip color fuel s
          { sx := sx, sx2 := sx2, sy := sy, word1 := 0, ey := yEnd, word2 := 0, ey2 := yEnd,
            spnt := spnt, spnt2 := spnt2 }).polybitmap i
          = if i ∈ rect_offsets (min (ROUND_TO_PIXEL sx) (ROUND_TO_PIXEL sx2) + 1)
              (max (ROUND_TO_PIXEL sx) (ROUND_TO_PIXEL sx2)) n sy
            then color % 256 else s.polybitmap i := by
  have hfill : ∀ (s : VState) (sy : Int), clip.m_ir_ymin ≤ sy → sy ≤ yEnd →
      poly_scanline clip s sx sx2 sy color
        = fill_hline s (min (ROUND_TO_PIXEL sx) (ROUND_TO_PIXEL sx2) + 1)
            (max (ROUND_TO_PIXEL sx) (ROUND_TO_PIXEL sx2)) sy color := by
    intro s sy h1 h2
    rw [poly_scanline_eq]
    have e1 : max (min (ROUND_TO_PIXEL sx) (ROUND_TO_PIXEL sx2)) clip.m_ir_xmin
        = min (ROUND_TO_PIXEL sx) (ROUND_TO_PIXEL sx2) := by omega
    have e2 : min (max (ROUND_TO_PIXEL sx) (ROUND_TO_PIXEL sx2)) (clip.m_ir_xmax - 1)
        = max (ROUND_TO_PIXEL sx) (ROUND_TO_PIXEL sx2) := by omega
    rw [e1, e2, if_pos ⟨⟨h1, by omega⟩, hlt⟩]
  intro n
  induction n with
  | zero =>
    intro fuel s sy hf hsy hymin
    obtain ⟨f, rfl⟩ : ∃ f, fuel = f + 1 := ⟨fuel - 1, by omega⟩
    have hsy' : sy = yEnd := by simpa using hsy
    subst hsy'
    have hgt : sy + 1 > sy := by omega
    simp only [poly_loop, poly_body, edge1_step, hgt, if_true, hs1, hs2, and_self,
      hfill s sy hymin (le_refl _), read_timeout, read_writes, read_polybitmap, rect_offsets,
      fill_hline_writes, fill_hline_polybitmap]
    exact ⟨rfl, trivial, fun _ => trivial⟩
  | succ n ih =>
    intro fuel s sy hf hsy hymin
    obtain ⟨f, rfl⟩ : ∃ f, fuel = f + 1 := ⟨fuel - 1, by omega⟩
    push_cast at hsy
    have hgt : ¬ sy + 1 > yEnd := by omega
    simp only [poly_loop, poly_body, edge1_step, edge2_step, hgt, if_false, add_zero,
      hfill s sy hymin (by omega)]
    obtain ⟨r1, r2, r3⟩ := ih f (fill_hline s (min (ROUND_TO_PIXEL sx) (ROUND_TO_PIXEL sx2) + 1)
      (max (ROUND_TO_PIXEL sx) (ROUND_TO_PIXEL sx2)) sy color) (sy + 1) (by omega) (by omega)
      (by omega)
    refine ⟨r1, ?_, ?_⟩
    · rw [r2, fill_hline_writes]; simp [rect_offsets]
    · intro i
      rw [r3, fill_hline_polybitmap]
      simp only [rect_offsets, List.mem_append]
      by_cases h1 : i ∈ rect_offsets (min (ROUND_TO_PIXEL sx) (ROUND_TO_PIXEL sx2) + 1)
          (max (ROUND_TO_PIXEL sx) (ROUND_TO_PIXEL sx2)) n (sy + 1)
      · simp only [h1, true_or, if_true]
      · simp only [h1, false_or, if_false]

/-- The polygon branch up to the loop: a polygon whose first pair is not the sentinel enters
the loop with the header values and the first pair of each edge list. -/
theorem polygon_start (fuel : Nat) (mem : ComMem) (clip : Clip) (s : VState) (spnt : Nat)
    (hne : int16 (combase16 mem (spnt + 4)) ≠ -1 ∨ combase16 mem (spnt + 5) ≠ 0xffff) :
    polygon fuel mem clip s spnt
      = poly_loop mem clip (combase16 mem (spnt + 3) &&& 0x3f) fuel
          ((((((((s.read spnt).read (spnt + 1)).read (spnt + 2)).read (spnt + 3)).read
            (spnt + 4)).read (spnt + 5)).read (combase16 mem spnt &&& 0x7ff)).read
              ((combase16 mem spnt &&& 0x7ff) + 1))
          { sx := combase16 mem (spnt + 1), sx2 := combase16 mem (spnt + 2),
            sy := ROUND_TO_PIXEL (combase16 mem (spnt + 3)),
            word1 := int16 (combase16 mem (spnt + 4)),
            ey := ROUND_TO_PIXEL (combase16 mem (spnt + 5)),
            word2 := int16 (combase16 mem (combase16 mem spnt &&& 0x7ff)),
            ey2 := ROUND_TO_PIXEL (combase16 mem ((combase16 mem spnt &&& 0x7ff) + 1)),
            spnt := spnt + 6, spnt2 := (combase16 mem spnt &&& 0x7ff) + 2 } := by
  have hne' : int16 (combase16 mem (spnt + 4)) ≠ -1 ∨ combase16 mem (spnt + 4 + 1) ≠ 0xffff := hne
  simp only [polygon, if_pos hne']

/-- C2: a pass over a table holding one polygon whose two edge lists each hold one segment
of slope 0 ending on the same scanline `yEnd ≥ startY` (the first list then holding the
sentinel), with transformed start X values `a < b` and rows `startY .. yEnd`, columns
`a .. b` inside the clip rectangle, completes, stores to exactly the offsets
`row * 256 + col` with `startY ≤ row ≤ yEnd` and `a + 1 ≤ col ≤ b`, leaves the polygon
colour `startYColor & 0x3F` in each of them and changes no other byte. -/
theorem flat_polygon_fills_open_left_rows (fuel : Nat) (mem : ComMem) (clip : Clip) (s : VState)
    (d1 spnt spnt2 startX1 startX2 startYColor endY1 endY2 : Nat) (a b startY yEnd : Int)
    (ht : s.timeout = false)
    (hd1 : combase16 mem 0 = d1) (hshp : (d1 &&& 0xf000) >>> 12 = 0x4)
    (hspnt : d1 &&& 0x07ff = spnt) (hw1 : combase16 mem 1 = 0xffff)
    (hp0 : combase16 mem spnt &&& 0x7ff = spnt2)
    (hp1 : combase16 mem (spnt + 1) = startX1) (hp2 : combase16 mem (spnt + 2) = startX2)
    (hp3 : combase16 mem (spnt + 3) = startYColor)
    (he0 : combase16 mem (spnt + 4) = 0) (he1 : combase16 mem (spnt + 5) = endY1)
    (he2 : combase16 mem (spnt + 6) = 0xffff) (he3 : combase16 mem (spnt + 7) = 0xffff)
    (hf0 : combase16 mem spnt2 = 0) (hf1 : combase16 mem (spnt2 + 1) = endY2)
    (hy0 : ROUND_TO_PIXEL startYColor = startY)
    (hy1 : ROUND_TO_PIXEL endY1 = yEnd) (hy2 : ROUND_TO_PIXEL endY2 = yEnd)
    (hrows : startY ≤ yEnd)
    (ha : min (ROUND_TO_PIXEL startX1) (ROUND_TO_PIXEL startX2) = a)
    (hb : max (ROUND_TO_PIXEL startX1) (ROUND_TO_PIXEL startX2) = b)
    (hab : a < b)
    (hxmin : clip.m_ir_xmin ≤ a) (hxmax : b < clip.m_ir_xmax)
    (hymin : clip.m_ir_ymin ≤ startY) (hymax : yEnd < clip.m_ir_ymax)
    (hfuel : (yEnd - startY).toNat + 2 ≤ fuel) :
    (irobot_run_video fuel mem clip s).timeout = false
    ∧ ∃ new : List Int, (irobot_run_video fuel mem clip s).writes = new ++ s.writes
      ∧ (∀ i, i ∈ new ↔ ∃ row col, startY ≤ row ∧ row ≤ yEnd ∧ a + 1 ≤ col ∧ col ≤ b
            ∧ i = row * 256 + col)
      ∧ ∀ i, (irobot_run_video fuel mem clip s).polybitmap i
          = if i ∈ new then startYColor &&& 0x3f else s.polybitmap i := by
  obtain ⟨f, rfl⟩ : ∃ f, fuel = f + 2 := ⟨fuel - 2, by omega⟩
  have hd1ne : combase16 mem 0 ≠ 0xffff := by
    rw [hd1]; exact nibble_ne_sentinel d1 (by rw [hshp]; decide)
  have hs1 : int16 (combase16 mem (spnt + 6)) = -1 := by rw [he2]; decide
  have hs2 : combase16 mem (spnt + 6 + 1) = 0xffff := he3
  have hne : int16 (combase16 mem (spnt + 4)) ≠ -1 ∨ combase16 mem (spnt + 5) ≠ 0xffff := by
    rw [he0]; exact Or.inl (by decide)
  have hpoly := polygon_start (f + 2) mem clip (s.read 0).countEntry spnt hne
  rw [hp0, hp1, hp2, hp3, he0, he1, hf0, hf1, hy0, hy1, hy2, show int16 0 = 0 from by decide]
    at hpoly
  generalize ht0 : (((((((((s.read 0).countEntry.read spnt).read (spnt + 1)).read
      (spnt + 2)).read (spnt + 3)).read (spnt + 4)).read (spnt + 5)).read spnt2).read
        (spnt2 + 1)) = t at hpoly
  have t1 : t.timeout = s.timeout := by rw [← ht0]; rfl
  have t2 : t.writes = s.writes := by rw [← ht0]; rfl
  have t3 : t.polybitmap = s.polybitmap := by rw [← ht0]; rfl
  obtain ⟨r1, r2, r3⟩ := poly_loop_flat mem clip (startYColor &&& 0x3f) startX1 startX2
    (spnt + 6) (spnt2 + 2) yEnd hs1 hs2 (by rw [ha]; exact hxmin) (by rw [hb]; exact hxmax)
    (by rw [ha, hb]; exact hab) hymax (yEnd - startY).toNat (f + 2) t
    startY (by omega) (by omega) hymin
  rw [ha, hb, ← hpoly] at r2 r3
  rw [← hpoly] at r1
  rw [t2] at r2
  simp only [t3, color_mod] at r3
  generalize hq : polygon (f + 2) mem clip (s.read 0).countEntry spnt = q at r1 r2 r3 hpoly
  have hqt : q.timeout = false := by rw [r1, t1]; exact ht
  have e : irobot_run_video (f + 2) mem clip s = q.read 1 := by
    unfold irobot_run_video
    rw [object_loop_step _ _ _ _ _ _ (by decide) hd1ne, hd1, dispatch_polygon _ _ _ _ _ hshp,
      hspnt, hq, hqt]
    simp only [Bool.false_eq_true, if_false]
    rw [object_loop_stop _ _ _ _ _ _ (by decide) hw1]
  rw [e]
  simp only [read_timeout, read_writes, read_polybitmap]
  refine ⟨hqt, _, r2, ?_, r3⟩
  intro i
  rw [mem_rect_offsets]
  constructor
  · rintro ⟨row, col, h1, h2, h3, h4, rfl⟩
    exact ⟨row, col, h1, by omega, h3, h4, rfl⟩
  · rintro ⟨row, col, h1, h2, h3, h4, rfl⟩
    exact ⟨row, col, h1, by omega, h3, h4, rfl⟩

/-- Witness for C2: edges at columns 10 and 20, rows 0..3, colour 7: the pass stores 7 to
columns 11..20 of rows 0..3. -/
theorem flat_polygon_fills_open_left_rows_witness :
    ∃ new : List Int,
      (irobot_run_video 8
        (memOfList [0x4002, 0xffff, 10, 0x4500, 0x4A00, 0x4007, 0, 0x4180, 0xffff, 0xffff, 0,
          0x4180])
        ⟨0, 0, 256, 232⟩ (VState.init (fun _ => 0))).writes = new ++ []
      ∧ (∀ i, i ∈ new ↔ ∃ row col, (0 : Int) ≤ row ∧ row ≤ 3 ∧ (10 : Int) + 1 ≤ col ∧ col ≤ 20
            ∧ i = row * 256 + col)
      ∧ ∀ i, (irobot_run_video 8
          (memOfList [0x4002, 0xffff, 10, 0x4500, 0x4A00, 0x4007, 0, 0x4180, 0xffff, 0xffff, 0,
            0x4180])
          ⟨0, 0, 256, 232⟩ (VState.init (fun _ => 0))).polybitmap i
          = if i ∈ new then 7 else 0 :=
  (flat_polygon_fills_open_left_rows 8
    (memOfList [0x4002, 0xffff, 10, 0x4500, 0x4A00, 0x4007, 0, 0x4180, 0xffff, 0xffff, 0,
      0x4180])
    ⟨0, 0, 256, 232⟩ (VState.init (fun _ => 0)) 0x4002 2 10 0x4500 0x4A00 0x4007 0x4180 0x4180
    10 20 0 3
    rfl (by decide) (by decide) (by decide) (by decide) (by decide) (by decide) (by decide)
    (by decide) (by decide) (by decide) (by decide) (by decide) (by decide) (by decide)
    (by decide) (by decide) (by decide) (by decide) (by decide) (by decide) (by decide)
    (by decide) (by decide) (by decide) (by decide) (by decide)).2


/-! ## Every store stays inside the clip rectangle -/

theorem Confined.same (clip : Clip) (s : VState) : Confined clip s s :=
  ⟨⟨[], rfl, fun _ h => absurd h (List.not_mem_nil _)⟩, fun _ h => absurd rfl h⟩

theorem Confined.andThen {clip : Clip} {s t u : VState} (h1 : Confined clip s t)
    (h2 : Confined clip t u) : Confined clip s u := by
  obtain ⟨⟨n1, e1, m1⟩, b1⟩ := h1
  obtain ⟨⟨n2, e2, m2⟩, b2⟩ := h2
  refine ⟨⟨n2 ++ n1, by rw [e2, e1, List.append_assoc], ?_⟩, ?_⟩
  · intro i hi
    rcases List.mem_append.1 hi with h | h
    · exact m2 i h
    · exact m1 i h
  · intro i hi
    by_cases h : u.polybitmap i = t.polybitmap i
    · exact b1 i (by rw [← h]; exact hi)
    · exact b2 i h

/-- A step that touches neither the bitmap nor the write log. -/
theorem Confined.of_eq {clip : Clip} {s t : VState} (hw : t.writes = s.writes)
    (hb : t.polybitmap = s.polybitmap) : Confined clip s t :=
  ⟨⟨[], by simp [hw], fun _ h => absurd h (List.not_mem_nil _)⟩,
    fun i h => absurd (by rw [hb]) h⟩

/-- The source state may be replaced by one with the same bitmap and write log. -/
theorem Confined.of_src {clip : Clip} {s t : VState} (s' : VState) (hw : s'.writes = s.writes)
    (hb : s'.polybitmap = s.polybitmap) (h : Confined clip s' t) : Confined clip s t :=
  Confined.andThen (Confined.of_eq hw hb) h

theorem edge1_step_frame (mem : ComMem) (s : VState) (v : PolyVars) :
    (edge1_step mem s v).1.writes = s.writes
    ∧ (edge1_step mem s v).1.polybitmap = s.polybitmap
    ∧ (edge1_step mem s v).1.timeout = s.timeout
    ∧ (edge1_step mem s v).1.entries = s.entries := by
  simp only [edge1_step]
  split_ifs <;> exact ⟨rfl, rfl, rfl, rfl⟩

theorem edge2_step_frame (mem : ComMem) (s : VState) (v : PolyVars) :
    (edge2_step mem s v).1.writes = s.writes
    ∧ (edge2_step mem s v).1.polybitmap = s.polybitmap
    ∧ (edge2_step mem s v).1.timeout = s.timeout
    ∧ (edge2_step mem s v).1.entries = s.entries := by
  simp only [edge2_step]
  split_ifs <;> exact ⟨rfl, rfl, rfl, rfl⟩

theorem poly_body_frame (mem : ComMem) (clip : Clip) (color : Nat) (s : VState) (v : PolyVars) :
    (poly_body mem clip color s v).1.writes = (poly_scanline clip s v.sx v.sx2 v.sy color).writes
    ∧ (poly_body mem clip color s v).1.polybitmap
        = (poly_scanline clip s v.sx v.sx2 v.sy color).polybitmap
    ∧ (poly_body mem clip color s v).1.timeout
        = (poly_scanline clip s v.sx v.sx2 v.sy color).timeout
    ∧ (poly_body mem clip color s v).1.entries
        = (poly_scanline clip s v.sx v.sx2 v.sy color).entries := by
  have h1 := edge1_step_frame mem (poly_scanline clip s v.sx v.sx2 v.sy color)
    { v with sy := v.sy + 1 }
  unfold poly_body
  simp only
  rcases he : edge1_step mem (poly_scanline clip s v.sx v.sx2 v.sy color)
    { v with sy := v.sy + 1 } with ⟨t, _ | w⟩
  · rw [he] at h1
    exact h1
  · rw [he] at h1
    have h2 := edge2_step_frame mem t w
    simp only at h1 ⊢
    exact ⟨h2.1.trans h1.1, h2.2.1.trans h1.2.1, h2.2.2.1.trans h1.2.2.1,
      h2.2.2.2.trans h1.2.2.2⟩

theorem confined_draw_pixel (clip : Clip) (s : VState) (x y : Int) (c : Nat)
    (h : clip.inside x y) : Confined clip s (draw_pixel s x y c) := by
  refine ⟨⟨[y * 256 + x], rfl, ?_⟩, ?_⟩
  · intro i hi
    rw [List.mem_singleton] at hi
    exact ⟨x, y, h, hi⟩
  · intro i hi
    simp only [draw_pixel, BITMAP_WIDTH] at hi
    by_cases e : i = y * 256 + x
    · exact ⟨x, y, h, e⟩
    · rw [if_neg e] at hi
      exact absurd rfl hi

theorem confined_plot (clip : Clip) (s : VState) (x y : Int) (c : Nat) :
    Confined clip s (plot clip s x y c) := by
  unfold plot
  by_cases h : clip.inside x y
  · simp only [if_pos h]
    exact Confined.andThen (Confined.of_eq rfl rfl) (confined_draw_pixel clip _ x y c h)
  · simp only [if_neg h]
    exact Confined.of_eq rfl rfl

theorem confined_draw_line_x (clip : Clip) (x2 sx sy dx dy : Int) (col : Nat) :
    ∀ (fuel : Nat) (s : VState) (x1 y1 cx : Int),
      Confined clip s (draw_line_x clip x2 sx sy dx dy col fuel s x1 y1 cx) := by
  intro fuel
  induction fuel with
  | zero => intro s x1 y1 cx; exact Confined.of_eq rfl rfl
  | succ n ih =>
    intro s x1 y1 cx
    simp only [draw_line_x]
    split_ifs
    · exact confined_plot clip s x1 y1 col
    · exact (confined_plot clip s x1 y1 col).andThen (ih _ _ _ _)
    · exact (confined_plot clip s x1 y1 col).andThen (ih _ _ _ _)

theorem confined_draw_line_y (clip : Clip) (y2 sx sy dx dy : Int) (col : Nat) :
    ∀ (fuel : Nat) (s : VState) (x1 y1 cy : Int),
      Confined clip s (draw_line_y clip y2 sx sy dx dy col fuel s x1 y1 cy) := by
  intro fuel
  induction fuel with
  | zero => intro s x1 y1 cy; exact Confined.of_eq rfl rfl
  | succ n ih =>
    intro s x1 y1 cy
    simp only [draw_line_y]
    split_ifs
    · exact confined_plot clip s x1 y1 col
    · exact (confined_plot clip s x1 y1 col).andThen (ih _ _ _ _)
    · exact (confined_plot clip s x1 y1 col).andThen (ih _ _ _ _)

theorem confined_draw_line (fuel : Nat) (clip : Clip) (s : VState) (x1 y1 x2 y2 : Int)
    (col : Nat) : Confined clip s (draw_line fuel clip s x1 y1 x2 y2 col) := by
  unfold draw_line
  simp only
  split_ifs <;>
    first
    | exact confined_draw_line_x _ _ _ _ _ _ _ _ _ _ _ _
    | exact confined_draw_line_y _ _ _ _ _ _ _ _ _ _ _ _

theorem confined_point_pair (clip : Clip) (s : VState) (x yColor : Nat) :
    Confined clip s (point_pair clip s x yColor) := by
  unfold point_pair
  simp only
  split_ifs with h
  · exact confined_draw_pixel clip s _ _ _ h
  · exact Confined.same clip s

theorem confined_point_loop (mem : ComMem) (clip : Clip) :
    ∀ (fuel : Nat) (s : VState) (spnt : Nat), Confined clip s (point_loop mem clip fuel s spnt) := by
  intro fuel
  induction fuel with
  | zero => intro s spnt; exact Confined.of_eq rfl rfl
  | succ n ih =>
    intro s spnt
    simp only [point_loop]
    split_ifs
    · exact Confined.of_eq rfl rfl
    · exact Confined.of_src ((s.read spnt).read (spnt + 1)) rfl rfl
        ((confined_point_pair clip _ _ _).andThen (ih _ _))
    · exact Confined.same clip s

theorem confined_vector_quad (fuel : Nat) (clip : Clip) (s : VState)
    (endY startYColor slope startX : Nat) :
    Confined clip s (vector_quad fuel clip s endY startYColor slope startX) := by
  unfold vector_quad
  exact confined_draw_line _ _ _ _ _ _ _ _

theorem confined_line_loop (lfuel : Nat) (mem : ComMem) (clip : Clip) :
    ∀ (fuel : Nat) (s : VState) (spnt : Nat),
      Confined clip s (line_loop lfuel mem clip fuel s spnt) := by
  intro fuel
  induction fuel with
  | zero => intro s spnt; exact Confined.of_eq rfl rfl
  | succ n ih =>
    intro s spnt
    simp only [line_loop]
    split_ifs
    · exact Confined.of_eq rfl rfl
    · exact Confined.of_src ((((s.read spnt).read (spnt + 1)).read (spnt + 3)).read (spnt + 2)) rfl rfl
        (confined_vector_quad _ clip _ _ _ _ _)
    · exact Confined.of_src ((((s.read spnt).read (spnt + 1)).read (spnt + 3)).read (spnt + 2)) rfl rfl
        ((confined_vector_quad _ clip _ _ _ _ _).andThen (ih _ _))
    · exact Confined.same clip s

theorem confined_poly_scanline (clip : Clip) (s : VState) (sx sx2 sy : Int) (color : Nat) :
    Confined clip s (poly_scanline clip s sx sx2 sy color) := by
  rw [poly_scanline_eq]
  split_ifs with h
  · obtain ⟨⟨hy1, hy2⟩, hlt⟩ := h
    have key : ∀ i, i ∈ hline_offsets
        (max (min (ROUND_TO_PIXEL sx) (ROUND_TO_PIXEL sx2)) clip.m_ir_xmin + 1)
        (min (max (ROUND_TO_PIXEL sx) (ROUND_TO_PIXEL sx2)) (clip.m_ir_xmax - 1)) sy →
        clipOffset clip i := by
      intro i hi
      rw [mem_hline_offsets] at hi
      obtain ⟨x, h1, h2, rfl⟩ := hi
      exact ⟨x, sy, ⟨by omega, by omega, hy1, hy2⟩, rfl⟩
    refine ⟨⟨_, fill_hline_writes _ _ _ _ _, key⟩, ?_⟩
    intro i hi
    rw [fill_hline_polybitmap] at hi
    by_cases e : i ∈ hline_offsets
        (max (min (ROUND_TO_PIXEL sx) (ROUND_TO_PIXEL sx2)) clip.m_ir_xmin + 1)
        (min (max (ROUND_TO_PIXEL sx) (ROUND_TO_PIXEL sx2)) (clip.m_ir_xmax - 1)) sy
    · exact key i e
    · rw [if_neg e] at hi
      exact absurd rfl hi
  · exact Confined.same clip s

theorem confined_poly_body (mem : ComMem) (clip : Clip) (color : Nat) (s : VState)
    (v : PolyVars) : Confined clip s (poly_body mem clip color s v).1 := by
  have h := confined_poly_scanline clip s v.sx v.sx2 v.sy color
  have f := poly_body_frame mem clip color s v
  exact h.andThen (Confined.of_eq f.1 f.2.1)

theorem confined_poly_loop (mem : ComMem) (clip : Clip) (color : Nat) :
    ∀ (fuel : Nat) (s : VState) (v : PolyVars),
      Confined clip s (poly_loop mem clip color fuel s v) := by
  intro fuel
  induction fuel with
  | zero => intro s v; exact Confined.of_eq rfl rfl
  | succ n ih =>
    intro s v
    have h := confined_poly_body mem clip color s v
    simp only [poly_loop]
    rcases hb : poly_body mem clip color s v with ⟨t, _ | w⟩
    · rw [hb] at h; exact h
    · rw [hb] at h; exact h.andThen (ih _ _)

theorem confined_polygon (fuel : Nat) (mem : ComMem) (clip : Clip) (s : VState) (spnt : Nat) :
    Confined clip s (polygon fuel mem clip s spnt) := by
  simp only [polygon]
  split_ifs
  · exact Confined.of_src ((((((((s.read spnt).read (spnt + 1)).read (spnt + 2)).read
        (spnt + 3)).read (spnt + 4)).read (spnt + 4 + 1)).read
          (combase16 mem spnt &&& 0x7ff)).read ((combase16 mem spnt &&& 0x7ff) + 1)) rfl rfl
      (confined_poly_loop mem clip _ _ _ _)
  · exact Confined.of_eq rfl rfl

theorem dispatch_other (fuel : Nat) (mem : ComMem) (clip : Clip) (s : VState) (d1 : Nat)
    (h8 : (d1 &&& 0xf000) >>> 12 ≠ 0x8) (hc : (d1 &&& 0xf000) >>> 12 ≠ 0xc)
    (h4 : (d1 &&& 0xf000) >>> 12 ≠ 0x4) :
    dispatch fuel mem clip s d1 = s.countEntry := by
  simp only [dispatch, if_neg h8, if_neg hc, if_neg h4]

theorem confined_dispatch (fuel : Nat) (mem : ComMem) (clip : Clip) (s : VState) (d1 : Nat) :
    Confined clip s (dispatch fuel mem clip s d1) := by
  by_cases h8 : (d1 &&& 0xf000) >>> 12 = 0x8
  · rw [dispatch_point _ _ _ _ _ h8]
    exact Confined.of_src (s.countEntry) rfl rfl (confined_point_loop mem clip _ _ _)
  · by_cases hc : (d1 &&& 0xf000) >>> 12 = 0xc
    · rw [dispatch_line _ _ _ _ _ hc]
      exact Confined.of_src (s.countEntry) rfl rfl (confined_line_loop _ mem clip _ _ _)
    · by_cases h4 : (d1 &&& 0xf000) >>> 12 = 0x4
      · rw [dispatch_polygon _ _ _ _ _ h4]
        exact Confined.of_src (s.countEntry) rfl rfl (confined_polygon _ mem clip _ _)
      · rw [dispatch_other _ _ _ _ _ h8 hc h4]
        exact Confined.of_eq rfl rfl

theorem confined_object_loop (ifuel : Nat) (mem : ComMem) (clip : Clip) :
    ∀ (fuel : Nat) (s : VState) (lpnt : Nat),
      Confined clip s (object_loop ifuel mem clip fuel s lpnt) := by
  intro fuel
  induction fuel with
  | zero => intro s lpnt; exact Confined.of_eq rfl rfl
  | succ n ih =>
    intro s lpnt
    simp only [object_loop]
    split_ifs
    · exact Confined.of_eq rfl rfl
    · exact Confined.of_src (s.read lpnt) rfl rfl (confined_dispatch _ mem clip _ _)
    · exact Confined.of_src (s.read lpnt) rfl rfl
        ((confined_dispatch _ mem clip _ _).andThen (ih _ _))
    · exact Confined.same clip s

/-- C5: for a clip rectangle inside the `256 × height` canvas, whatever the command memory
and the fuel, every byte of the draw-side buffer that differs after a render pass is at an
offset `y * 256 + x` with `(x, y)` inside the clip rectangle; every pixel `(x, y)` of the
canvas outside the clip rectangle keeps its value; and every offset stored to belongs to a
pixel inside the clip rectangle and lies inside the buffer, `0 ≤ offset < 256 * height`. -/
theorem run_video_stores_inside_clip (fuel : Nat) (mem : ComMem) (clip : Clip) (s : VState)
    (height : Nat)
    (hx0 : 0 ≤ clip.m_ir_xmin) (hx1 : clip.m_ir_xmax ≤ 256)
    (hy0 : 0 ≤ clip.m_ir_ymin) (hy1 : clip.m_ir_ymax ≤ height) :
    (∀ i, (irobot_run_video fuel mem clip s).polybitmap i ≠ s.polybitmap i →
        ∃ x y, clip.inside x y ∧ i = y * 256 + x)
    ∧ (∀ x y : Int, 0 ≤ x → x < 256 → ¬ clip.inside x y →
        (irobot_run_video fuel mem clip s).polybitmap (y * 256 + x) = s.polybitmap (y * 256 + x))
    ∧ ∃ new : List Int, (irobot_run_video fuel mem clip s).writes = new ++ s.writes
        ∧ ∀ i ∈ new, (∃ x y, clip.inside x y ∧ i = y * 256 + x)
            ∧ 0 ≤ i ∧ i < 256 * (height : Int) := by
  obtain ⟨⟨new, hw, hm⟩, hb⟩ := confined_object_loop fuel mem clip fuel s 0
  refine ⟨hb, ?_, new, hw, ?_⟩
  · intro x y hx hx' hout
    by_contra hne
    obtain ⟨x', y', hin, e⟩ := hb _ hne
    have hin' := hin
    unfold Clip.inside at hin'
    have : x' = x ∧ y' = y := by omega
    rw [this.1, this.2] at hin
    exact hout hin
  · intro i hi
    obtain ⟨x, y, hin, e⟩ := hm i hi
    have hin' := hin
    unfold Clip.inside at hin'
    refine ⟨⟨x, y, hin, e⟩, by omega, by omega⟩

/-- Witness for C5: the clip rectangle `0 ≤ x < 256`, `0 ≤ y < 232` on a canvas of height
232, with a polygon whose edges run off the left and right border and whose rows run from
-128 to 383: pixel `(5, 240)`, below the clip rectangle, keeps its value. -/
theorem run_video_stores_inside_clip_witness :
    (irobot_run_video 600
      (memOfList [0x4002, 0xffff, 10, 0x0000, 0xff00, 0x0007, 0, 0xff80, 0xffff, 0xffff, 0,
        0xff80])
      ⟨0, 0, 256, 232⟩ (VState.init (fun _ => 0))).polybitmap (240 * 256 + 5)
      = (VState.init (fun _ => 0)).polybitmap (240 * 256 + 5) :=
  (run_video_stores_inside_clip 600
    (memOfList [0x4002, 0xffff, 10, 0x0000, 0xff00, 0x0007, 0, 0xff80, 0xffff, 0xffff, 0,
      0xff80])
    ⟨0, 0, 256, 232⟩ (VState.init (fun _ => 0)) 232
    (by decide) (by decide) (by decide) (by decide)).2.1 5 240 (by decide) (by decide)
    (by decide)

/-! ## Table walk: the 2047-entry cap -/

theorem ReadsBelow.none (s : VState) : ReadsBelow s s :=
  ⟨[], rfl, fun _ h => absurd h (List.not_mem_nil _)⟩

theorem ReadsBelow.append {s t u : VState} (h1 : ReadsBelow s t) (h2 : ReadsBelow t u) :
    ReadsBelow s u := by
  obtain ⟨n1, e1, m1⟩ := h1
  obtain ⟨n2, e2, m2⟩ := h2
  refine ⟨n2 ++ n1, by rw [e2, e1, List.append_assoc], ?_⟩
  intro i hi
  rcases List.mem_append.1 hi with h | h
  · exact m2 i h
  · exact m1 i h

theorem ReadsBelow.one (s : VState) (i : Nat) (h : i < 2048) : ReadsBelow s (s.read i) :=
  ⟨[i], rfl, fun j hj => by rw [List.mem_singleton] at hj; omega⟩

theorem point_pair_frame (clip : Clip) (s : VState) (x yColor : Nat) :
    (point_pair clip s x yColor).reads = s.reads
    ∧ (point_pair clip s x yColor).entries = s.entries
    ∧ (point_pair clip s x yColor).timeout = s.timeout := by
  simp only [point_pair]
  split_ifs <;> exact ⟨rfl, rfl, rfl⟩

/-- The point loop reads only below index 2048, dispatches nothing, and with enough fuel
for the remaining pairs does not time out. -/
theorem point_loop_reads (mem : ComMem) (clip : Clip) :
    ∀ (fuel : Nat) (s : VState) (spnt : Nat),
      ReadsBelow s (point_loop mem clip fuel s spnt)
      ∧ (point_loop mem clip fuel s spnt).entries = s.entries
      ∧ (1 ≤ fuel → 0x801 ≤ 2 * fuel + spnt →
          (point_loop mem clip fuel s spnt).timeout = s.timeout) := by
  intro fuel
  induction fuel with
  | zero =>
    intro s spnt
    exact ⟨ReadsBelow.none _, rfl, fun h => absurd h (by decide)⟩
  | succ n ih =>
    intro s spnt
    simp only [point_loop]
    by_cases hb : spnt < 0x7ff
    · rw [if_pos hb]
      by_cases hx : combase16 mem spnt = 0xffff
      · rw [if_pos hx]
        exact ⟨ReadsBelow.one s spnt (by omega), rfl, fun _ _ => rfl⟩
      · rw [if_neg hx]
        obtain ⟨p1, p2, p3⟩ := point_pair_frame clip ((s.read spnt).read (spnt + 1))
          (combase16 mem spnt) (combase16 mem (spnt + 1))
        obtain ⟨i1, i2, i3⟩ := ih (point_pair clip ((s.read spnt).read (spnt + 1))
          (combase16 mem spnt) (combase16 mem (spnt + 1))) (spnt + 2)
        refine ⟨?_, by rw [i2, p2]; rfl, ?_⟩
        · refine ReadsBelow.append ?_ i1
          exact ⟨[spnt + 1, spnt], by rw [p1]; rfl, fun j hj => by
            simp only [List.mem_cons, List.mem_singleton, List.not_mem_nil, or_false] at hj
            omega⟩
        · intro _ hf
          rw [i3 (by omega) (by omega), p3]
          rfl
    · rw [if_neg hb]
      exact ⟨ReadsBelow.none _, rfl, fun _ _ => rfl⟩

/-- The table walk over point-type entries only. -/
theorem object_loop_points (ifuel : Nat) (mem : ComMem) (clip : Clip) (hif : 1025 ≤ ifuel)
    (hpt : ∀ i, i < 2047 → (combase16 mem i &&& 0xf000) >>> 12 = 0x8) :
    ∀ (fuel : Nat) (s : VState) (lpnt : Nat), s.timeout = false → lpnt ≤ 2047 →
      2048 ≤ fuel + lpnt →
      (object_loop ifuel mem clip fuel s lpnt).timeout = false
      ∧ (object_loop ifuel mem clip fuel s lpnt).entries = s.entries + (2047 - lpnt)
      ∧ ReadsBelow s (object_loop ifuel mem clip fuel s lpnt) := by
  intro fuel
  induction fuel with
  | zero => intro s lpnt _ h1 h2; omega
  | succ n ih =>
    intro s lpnt ht h1 h2
    by_cases hb : lpnt < 0x7ff
    · have hn := hpt lpnt hb
      have hd : combase16 mem lpnt ≠ 0xffff := nibble_ne_sentinel _ (by rw [hn]; decide)
      rw [object_loop_step _ _ _ _ _ _ hb hd, dispatch_point _ _ _ _ _ hn]
      obtain ⟨p1, p2, p3⟩ := point_loop_reads mem clip ifuel (s.read lpnt).countEntry
        (combase16 mem lpnt &&& 0x07ff)
      have hsp : combase16 mem lpnt &&& 0x07ff ≤ 0x7ff := Nat.and_le_right
      have pt : (point_loop mem clip ifuel (s.read lpnt).countEntry
          (combase16 mem lpnt &&& 0x07ff)).timeout = false := by
        rw [p3 (by omega) (by omega)]; exact ht
      rw [pt]
      simp only [Bool.false_eq_true, if_false]
      obtain ⟨i1, i2, i3⟩ := ih _ (lpnt + 1) pt (by omega) (by omega)
      refine ⟨i1, ?_, ?_⟩
      · rw [i2, p2]
        simp only [countEntry_entries, read_entries]
        omega
      · exact (ReadsBelow.append (ReadsBelow.append (ReadsBelow.one s lpnt (by omega))
          ⟨[], rfl, fun _ h => absurd h (List.not_mem_nil _)⟩) p1).append i3
    · rw [object_loop_end _ _ _ _ _ _ hb]
      exact ⟨ht, by omega, ReadsBelow.none _⟩

/-- C7: if words 0..2046 of the command memory are all point-type entries (type nibble
`0x8`), a pass with enough fuel completes (no timeout), has dispatched exactly 2047 table
entries, and every command-memory index it read, for table entries and point pairs alike,
is below 2048. -/
theorem point_table_stops_after_2047_entries (fuel : Nat) (mem : ComMem) (clip : Clip)
    (s : VState) (hfuel : 2048 ≤ fuel) (ht : s.timeout = false)
    (hpt : ∀ i, i < 2047 → (combase16 mem i &&& 0xf000) >>> 12 = 0x8) :
    (irobot_run_video fuel mem clip s).timeout = false
    ∧ (irobot_run_video fuel mem clip s).entries = s.entries + 2047
    ∧ ∃ new : List Nat, (irobot_run_video fuel mem clip s).reads = new ++ s.reads
        ∧ ∀ i ∈ new, i < 2048 := by
  obtain ⟨h1, h2, h3⟩ := object_loop_points fuel mem clip (by omega) hpt fuel s 0 ht
    (by omega) (by omega)
  exact ⟨h1, h2, h3⟩

/-- Witness for C7: every word is `0x8000`, a point entry whose list starts at word 0. -/
theorem point_table_stops_after_2047_entries_witness :
    (irobot_run_video 2048 (fun _ => 0x8000) ⟨0, 0, 256, 232⟩
      (VState.init (fun _ => 0))).entries = 0 + 2047 :=
  (point_table_stops_after_2047_entries 2048 (fun _ => 0x8000) ⟨0, 0, 256, 232⟩
    (VState.init (fun _ => 0)) (by decide) rfl (fun _ _ => (by decide : ((0x8000 : Nat) % 65536 &&& 0xf000) >>> 12 = 0x8))).2.1


/-! ## Polygon renderer: sentinel of the second edge list -/

/-- C8 (failing input): polygon at word 2 with edges at columns 10 and 20 from row 0, colour
7; the first edge list is `(0, row 3)` then the sentinel, the second edge list at word 12 is
`(0, row 1)` then the sentinel `(0xFFFF, 0xFFFF)` at words 14 and 15.  The pass reads the
second list's sentinel pair on entering scanline 2, takes it as a segment of slope `-1`
ending on row 383, and goes on filling: scanline 2 gets columns 11..20 and scanline 3 gets
columns 11..19, until the first list's sentinel ends the polygon.  The last conjunct is the
loop iteration of scanline 1 alone: it reads words 14 and 15 and continues (no `break`)
with `sy = 2`, `word2 = -1`, `ey2 = 383`, `spnt2 = 16`. -/
theorem second_list_sentinel_does_not_end_polygon :
    (irobot_run_video 8
        (memOfList [0x4002, 0xffff, 12, 0x4500, 0x4A00, 0x4007, 0, 0x4180, 0xffff, 0xffff, 0, 0,
          0, 0x4080, 0xffff, 0xffff])
        ⟨0, 0, 256, 232⟩ (VState.init (fun _ => 0))).reads
      = [1, 9, 8, 15, 14, 13, 12, 7, 6, 5, 4, 3, 2, 0]
    ∧ (irobot_run_video 8
        (memOfList [0x4002, 0xffff, 12, 0x4500, 0x4A00, 0x4007, 0, 0x4180, 0xffff, 0xffff, 0, 0,
          0, 0x4080, 0xffff, 0xffff])
        ⟨0, 0, 256, 232⟩ (VState.init (fun _ => 0))).writes
      = hline_offsets 11 19 3 ++ hline_offsets 11 20 2 ++ hline_offsets 11 20 1
          ++ hline_offsets 11 20 0
    ∧ (irobot_run_video 8
        (memOfList [0x4002, 0xffff, 12, 0x4500, 0x4A00, 0x4007, 0, 0x4180, 0xffff, 0xffff, 0, 0,
          0, 0x4080, 0xffff, 0xffff])
        ⟨0, 0, 256, 232⟩ (VState.init (fun _ => 0))).polybitmap (2 * 256 + 11) = 7
    ∧ (irobot_run_video 8
        (memOfList [0x4002, 0xffff, 12, 0x4500, 0x4A00, 0x4007, 0, 0x4180, 0xffff, 0xffff, 0, 0,
          0, 0x4080, 0xffff, 0xffff])
        ⟨0, 0, 256, 232⟩ (VState.init (fun _ => 0))).polybitmap (3 * 256 + 19) = 7
    ∧ (irobot_run_video 8
        (memOfList [0x4002, 0xffff, 12, 0x4500, 0x4A00, 0x4007, 0, 0x4180, 0xffff, 0xffff, 0, 0,
          0, 0x4080, 0xffff, 0xffff])
        ⟨0, 0, 256, 232⟩ (VState.init (fun _ => 0))).timeout = false
    ∧ (poly_body
        (memOfList [0x4002, 0xffff, 12, 0x4500, 0x4A00, 0x4007, 0, 0x4180, 0xffff, 0xffff, 0, 0,
          0, 0x4080, 0xffff, 0xffff])
        ⟨0, 0, 256, 232⟩ 7 (VState.init (fun _ => 0))
        { sx := 0x4500, sx2 := 0x4A00, sy := 1, word1 := 0, ey := 3, word2 := 0, ey2 := 1,
          spnt := 8, spnt2 := 14 }).2.map (fun v => (v.sy, v.word2, v.ey2, v.spnt2))
      = some (2, -1, 383, 16) := by
  refine ⟨by decide, by decide, by decide, by decide, by decide, by decide⟩

/-! ## Palette -/

theorem channel_lt (k a b : Nat) (m n : Nat) (hk : k * m * n < 256) :
    (k * (a &&& m) * (b &&& n)) % 256 = k * (a &&& m) * (b &&& n) := by
  apply Nat.mod_eq_of_lt
  have h1 : a &&& m ≤ m := Nat.and_le_right
  have h2 : b &&& n ≤ n := Nat.and_le_right
  calc k * (a &&& m) * (b &&& n) ≤ k * m * n :=
        Nat.mul_le_mul (Nat.mul_le_mul (le_refl k) h1) h2
    _ < 256 := hk

/-- C11: for every offset and 8-bit `data`, with `code = ((data << 1) | (offset & 1)) ^ 0x1FF`,
`irobot_paletteram_w` leaves in entry `(offset >> 1) & 0x3F` (an index below 64) the colour
`(12 * ((code >> 7) & 3) * (code & 7), 12 * ((code >> 5) & 3) * (code & 7),
12 * ((code >> 3) & 3) * (code & 7))` and changes no other entry; the same write repeated
changes nothing, and a later write to the same index replaces the earlier one. -/
theorem paletteram_w_sets_one_entry (palette : Nat → Nat × Nat × Nat) (offset data code : Nat)
    (hd : data < 256) (hcode : code = ((data <<< 1) ||| (offset &&& 0x01)) ^^^ 0x1ff) :
    irobot_paletteram_w palette offset data ((offset >>> 1) &&& 0x3F)
        = (12 * ((code >>> 7) &&& 3) * (code &&& 7), 12 * ((code >>> 5) &&& 3) * (code &&& 7),
            12 * ((code >>> 3) &&& 3) * (code &&& 7))
    ∧ (offset >>> 1) &&& 0x3F < 64
    ∧ code < 512
    ∧ (∀ j, j ≠ (offset >>> 1) &&& 0x3F →
        irobot_paletteram_w palette offset data j = palette j)
    ∧ irobot_paletteram_w (irobot_paletteram_w palette offset data) offset data
        = irobot_paletteram_w palette offset data
    ∧ ∀ offset' data', (offset' >>> 1) &&& 0x3F = (offset >>> 1) &&& 0x3F →
        irobot_paletteram_w (irobot_paletteram_w palette offset data) offset' data'
          = irobot_paletteram_w palette offset' data' := by
  subst hcode
  refine ⟨?_, ?_, ?_, ?_, ?_, ?_⟩
  · simp only [irobot_paletteram_w, set_pen_color, if_true, rgb_t]
    rw [channel_lt 12 _ _ 3 7 (by decide), channel_lt 12 _ _ 3 7 (by decide),
      channel_lt 12 _ _ 3 7 (by decide)]
  · exact lt_of_le_of_lt Nat.and_le_right (by decide)
  · have h1 : (data <<< 1) ||| (offset &&& 0x01) < 2 ^ 9 :=
      Nat.or_lt_two_pow (by rw [Nat.shiftLeft_eq]; omega)
        (lt_of_le_of_lt Nat.and_le_right (by decide))
    exact Nat.xor_lt_two_pow h1 (by decide)
  · intro j hj
    simp only [irobot_paletteram_w, set_pen_color, if_neg hj]
  · funext j
    simp only [irobot_paletteram_w, set_pen_color]
    split_ifs <;> rfl
  · intro offset' data' h
    funext j
    simp only [irobot_paletteram_w, set_pen_color, h]
    split_ifs <;> rfl

/-- Witness for C11: offset 0, data `0xFF` gives code 1 and colour `(0, 0, 0)` at index 0. -/
theorem paletteram_w_sets_one_entry_witness :
    irobot_paletteram_w (fun _ => (9, 9, 9)) 0 0xff ((0 >>> 1) &&& 0x3F)
      = (12 * ((1 >>> 7) &&& 3) * (1 &&& 7), 12 * ((1 >>> 5) &&& 3) * (1 &&& 7),
          12 * ((1 >>> 3) &&& 3) * (1 &&& 7))
    ∧ irobot_paletteram_w (fun _ => (9, 9, 9)) 0 0xff 0 = (0, 0, 0) :=
  ⟨(paletteram_w_sets_one_entry (fun _ => (9, 9, 9)) 0 0xff 1 (by decide) (by decide)).1,
    by decide⟩

theorem bitswap_reverses_low_three :
    ∀ i, i < 32 →
      bitswap8 i 7 6 5 4 3 0 1 2 = i / 8 * 8 + i % 2 * 4 + i / 2 % 2 * 2 + i / 4 % 2
      ∧ bitswap8 i 7 6 5 4 3 0 1 2 < 32
      ∧ bitswap8 (bitswap8 i 7 6 5 4 3 0 1 2) 7 6 5 4 3 0 1 2 = i := by
  decide

/-- Stores to pairwise distinct entries, one after the other: each target holds its own
colour at the end and every entry that is no target is unchanged. -/
theorem foldl_set_pen_color (t : Nat → Nat) (c : Nat → Nat × Nat × Nat) :
    ∀ (l : List Nat) (palette : Nat → Nat × Nat × Nat), l.Nodup →
      (∀ a ∈ l, ∀ b ∈ l, t a = t b → a = b) →
      (∀ i ∈ l, l.foldl (fun p i => set_pen_color p (t i) (c i)) palette (t i) = c i)
      ∧ ∀ j, (∀ i ∈ l, t i ≠ j) →
          l.foldl (fun p i => set_pen_color p (t i) (c i)) palette j = palette j := by
  intro l
  induction l with
  | nil =>
    intro palette _ _
    exact ⟨fun i hi => absurd hi (List.not_mem_nil _), fun _ _ => rfl⟩
  | cons a l ih =>
    intro palette hnd hinj
    obtain ⟨ha, hnd'⟩ := List.nodup_cons.1 hnd
    obtain ⟨ih1, ih2⟩ := ih (set_pen_color palette (t a) (c a)) hnd'
      (fun x hx y hy => hinj x (List.mem_cons_of_mem _ hx) y (List.mem_cons_of_mem _ hy))
    simp only [List.foldl_cons]
    constructor
    · intro i hi
      rcases List.mem_cons.1 hi with rfl | hi'
      · rw [ih2 (t i) (fun x hx hxe => ha (by
          have := hinj x (List.mem_cons_of_mem _ hx) i (List.mem_cons_self _ _) hxe
          rwa [this] at hx))]
        simp only [set_pen_color, if_true]
      · exact ih1 i hi'
    · intro j hj
      rw [ih2 j (fun x hx => hj x (List.mem_cons_of_mem _ hx))]
      have : j ≠ t a := fun h => hj a (List.mem_cons_self _ _) h.symm
      simp only [set_pen_color, if_neg this]

/-- C12: palette initialisation leaves, for every `i` in 0..31 with `p = color_prom[i]`, the
colour `(28 * ((p >> 6) & 3) * (p & 3), 28 * ((p >> 4) & 3) * (p & 3),
28 * ((p >> 2) & 3) * (p & 3))` in entry `64 + s i`, where `s i` keeps bits 3..7 of `i` and
reverses the order of bits 0..2; `s` maps 0..31 one-to-one onto itself, so the 32 targets
are pairwise distinct and are exactly the entries 64..95; every entry below 64 or above 95
is unchanged. -/
theorem palette_init_fills_64_to_95 (color_prom : Nat → Nat)
    (palette : Nat → Nat × Nat × Nat) :
    (∀ i, i < 32 →
      palette_init_irobot color_prom palette
          (64 + (i / 8 * 8 + i % 2 * 4 + i / 2 % 2 * 2 + i / 4 % 2))
        = (28 * (((color_prom i % 256) >>> 6) &&& 3) * ((color_prom i % 256) &&& 3),
            28 * (((color_prom i % 256) >>> 4) &&& 3) * ((color_prom i % 256) &&& 3),
            28 * (((color_prom i % 256) >>> 2) &&& 3) * ((color_prom i % 256) &&& 3)))
    ∧ (∀ i, i < 32 →
        bitswap8 i 7 6 5 4 3 0 1 2 = i / 8 * 8 + i % 2 * 4 + i / 2 % 2 * 2 + i / 4 % 2)
    ∧ (∀ i, i < 32 → ∀ k, k < 32 →
        bitswap8 i 7 6 5 4 3 0 1 2 = bitswap8 k 7 6 5 4 3 0 1 2 → i = k)
    ∧ (∀ j, 64 ≤ j → j < 96 → ∃ i, i < 32 ∧ 64 + bitswap8 i 7 6 5 4 3 0 1 2 = j)
    ∧ (∀ i, i < 32 → 64 ≤ 64 + bitswap8 i 7 6 5 4 3 0 1 2
        ∧ 64 + bitswap8 i 7 6 5 4 3 0 1 2 < 96)
    ∧ ∀ j, (j < 64 ∨ 96 ≤ j) → palette_init_irobot color_prom palette j = palette j := by
  have hinj : ∀ i, i < 32 → ∀ k, k < 32 →
      bitswap8 i 7 6 5 4 3 0 1 2 = bitswap8 k 7 6 5 4 3 0 1 2 → i = k := by
    intro i hi k hk h
    rw [← (bitswap_reverses_low_three i hi).2.2, h, (bitswap_reverses_low_three k hk).2.2]
  have hfold : palette_init_irobot color_prom palette
      = (List.range 32).foldl (fun p i => set_pen_color p (bitswap8 i 7 6 5 4 3 0 1 2 + 64)
          (rgb_t (28 * (((color_prom i % 256) >>> 6) &&& 0x03) * ((color_prom i % 256) &&& 0x03))
            (28 * (((color_prom i % 256) >>> 4) &&& 0x03) * ((color_prom i % 256) &&& 0x03))
            (28 * (((color_prom i % 256) >>> 2) &&& 0x03) * ((color_prom i % 256) &&& 0x03))))
          palette := rfl
  obtain ⟨f1, f2⟩ := foldl_set_pen_color (fun i => bitswap8 i 7 6 5 4 3 0 1 2 + 64)
    (fun i => rgb_t (28 * (((color_prom i % 256) >>> 6) &&& 0x03) * ((color_prom i % 256) &&& 0x03))
            (28 * (((color_prom i % 256) >>> 4) &&& 0x03) * ((color_prom i % 256) &&& 0x03))
            (28 * (((color_prom i % 256) >>> 2) &&& 0x03) * ((color_prom i % 256) &&& 0x03)))
    (List.range 32) palette (List.nodup_range 32)
    (fun a ha b hb h => hinj a (List.mem_range.1 ha) b (List.mem_range.1 hb)
      (Nat.add_right_cancel h))
  refine ⟨?_, fun i hi => (bitswap_reverses_low_three i hi).1, hinj, ?_, ?_, ?_⟩
  · intro i hi
    rw [← (bitswap_reverses_low_three i hi).1, hfold, Nat.add_comm 64]
    rw [f1 i (List.mem_range.2 hi)]
    simp only [rgb_t]
    rw [channel_lt 28 _ _ 3 3 (by decide), channel_lt 28 _ _ 3 3 (by decide),
      channel_lt 28 _ _ 3 3 (by decide)]
  · intro j h1 h2
    refine ⟨bitswap8 (j - 64) 7 6 5 4 3 0 1 2, (bitswap_reverses_low_three (j - 64) (by omega)).2.1,
      ?_⟩
    rw [(bitswap_reverses_low_three (j - 64) (by omega)).2.2]
    omega
  · intro i hi
    have := (bitswap_reverses_low_three i hi).2.1
    omega
  · intro j hj
    rw [hfold]
    apply f2
    intro i hi
    have := (bitswap_reverses_low_three i (List.mem_range.1 hi)).2.1
    omega

/-- Witness for C12: a PROM of all `0xFF`; index 1 goes to entry `64 + 4`. -/
theorem palette_init_fills_64_to_95_witness :
    palette_init_irobot (fun _ => 0xff) (fun _ => (0, 0, 0))
        (64 + (1 / 8 * 8 + 1 % 2 * 4 + 1 / 2 % 2 * 2 + 1 / 4 % 2))
      = (28 * (((0xff % 256) >>> 6) &&& 3) * ((0xff % 256) &&& 3),
          28 * (((0xff % 256) >>> 4) &&& 3) * ((0xff % 256) &&& 3),
          28 * (((0xff % 256) >>> 2) &&& 3) * ((0xff % 256) &&& 3)) :=
  (palette_init_fills_64_to_95 (fun _ => 0xff) (fun _ => (0, 0, 0))).1 1 (by decide)

/-! ## Buffer selection -/

/-- C13: for either value of `m_bufsel`, a render pass and the argument-less
`irobot_poly_clear` leave `m_bufsel` as it is and store only into the draw-side buffer
(`m_polybitmap2` when the flag is set, `m_polybitmap1` otherwise), which then holds the
result of the pass (of the clear) on its previous contents; the buffer that
`screen_update_irobot` reads for the same flag value is the other one and is unchanged.
For a clip rectangle inside the `256 × height` canvas every offset the pass stores to lies
inside the draw-side buffer. -/
theorem pass_and_clear_touch_only_draw_side (fuel height : Nat) (mem : ComMem) (clip : Clip)
    (st : irobot_state) :
    ((st.run_video fuel mem clip).m_bufsel = st.m_bufsel
      ∧ (st.poly_clear height).m_bufsel = st.m_bufsel)
    ∧ ((st.run_video fuel mem clip).screen_update_base = st.screen_update_base
      ∧ (st.poly_clear height).screen_update_base = st.screen_update_base)
    ∧ ((st.run_video fuel mem clip).draw_base
          = (irobot_run_video fuel mem clip (VState.init st.draw_base)).polybitmap
      ∧ (st.poly_clear height).draw_base = irobot_poly_clear height st.draw_base)
    ∧ (st.m_bufsel = true →
        st.draw_base = st.m_polybitmap2 ∧ st.screen_update_base = st.m_polybitmap1
        ∧ (st.run_video fuel mem clip).m_polybitmap1 = st.m_polybitmap1
        ∧ (st.poly_clear height).m_polybitmap1 = st.m_polybitmap1)
    ∧ (st.m_bufsel = false →
        st.draw_base = st.m_polybitmap1 ∧ st.screen_update_base = st.m_polybitmap2
        ∧ (st.run_video fuel mem clip).m_polybitmap2 = st.m_polybitmap2
        ∧ (st.poly_clear height).m_polybitmap2 = st.m_polybitmap2)
    ∧ (0 ≤ clip.m_ir_xmin → clip.m_ir_xmax ≤ 256 → 0 ≤ clip.m_ir_ymin →
        clip.m_ir_ymax ≤ height →
        ∀ i ∈ (irobot_run_video fuel mem clip (VState.init st.draw_base)).writes,
          0 ≤ i ∧ i < 256 * (height : Int)) := by
  refine ⟨?_, ?_, ?_, ?_, ?_, ?_⟩
  · obtain ⟨sel, b1, b2⟩ := st
    cases sel <;>
      simp [irobot_state.run_video, irobot_state.poly_clear, irobot_state.set_draw_base]
  · obtain ⟨sel, b1, b2⟩ := st
    cases sel <;>
      simp [irobot_state.run_video, irobot_state.poly_clear, irobot_state.set_draw_base,
        irobot_state.screen_update_base]
  · obtain ⟨sel, b1, b2⟩ := st
    cases sel <;>
      simp [irobot_state.run_video, irobot_state.poly_clear, irobot_state.set_draw_base,
        irobot_state.draw_base]
  · obtain ⟨sel, b1, b2⟩ := st
    rintro rfl
    simp [irobot_state.run_video, irobot_state.poly_clear, irobot_state.set_draw_base,
      irobot_state.draw_base, irobot_state.screen_update_base]
  · obtain ⟨sel, b1, b2⟩ := st
    rintro rfl
    simp [irobot_state.run_video, irobot_state.poly_clear, irobot_state.set_draw_base,
      irobot_state.draw_base, irobot_state.screen_update_base]
  · intro hx0 hx1 hy0 hy1 i hi
    obtain ⟨⟨new, hw, hm⟩, _⟩ :=
      confined_object_loop fuel mem clip fuel (VState.init st.draw_base) 0
    have hw' : (irobot_run_video fuel mem clip (VState.init st.draw_base)).writes
        = new ++ [] := hw
    rw [hw', List.append_nil] at hi
    obtain ⟨x, y, hin, e⟩ := hm i hi
    unfold Clip.inside at hin
    omega

/-- Witness for C13: flag set, a one-point table; `m_polybitmap1`, the displayed buffer, is
unchanged. -/
theorem pass_and_clear_touch_only_draw_side_witness :
    (irobot_state.run_video 8 (memOfList [0x8002, 0xffff, 0x4500, 0x4007, 0xffff])
        ⟨0, 0, 256, 232⟩ ⟨true, fun _ => 1, fun _ => 2⟩).m_polybitmap1 = fun _ => 1 :=
  ((pass_and_clear_touch_only_draw_side 8 232
      (memOfList [0x8002, 0xffff, 0x4500, 0x4007, 0xffff]) ⟨0, 0, 256, 232⟩
      ⟨true, fun _ => 1, fun _ => 2⟩).2.2.2.1 rfl).2.2.1

/-! ## Every stored value fits in 6 bits -/

theorem Low6.keep (s : VState) : Low6 s s := fun _ => Or.inl rfl

theorem Low6.next {s t u : VState} (h1 : Low6 s t) (h2 : Low6 t u) : Low6 s u := by
  intro i
  rcases h2 i with h | h
  · rw [h]; exact h1 i
  · exact Or.inr h

theorem Low6.of_bmp {s t : VState} (hb : t.polybitmap = s.polybitmap) : Low6 s t :=
  fun i => Or.inl (by rw [hb])

theorem Low6.via {s t : VState} (s' : VState) (hb : s'.polybitmap = s.polybitmap)
    (h : Low6 s' t) : Low6 s t :=
  Low6.next (Low6.of_bmp hb) h

theorem low6_draw_pixel (s : VState) (x y : Int) (c : Nat) (hc : c ≤ 63) :
    Low6 s (draw_pixel s x y c) := by
  intro i
  simp only [draw_pixel]
  split_ifs
  · right; omega
  · left; rfl

theorem low6_plot (clip : Clip) (s : VState) (x y : Int) (c : Nat) (hc : c ≤ 63) :
    Low6 s (plot clip s x y c) := by
  unfold plot
  by_cases h : clip.inside x y
  · simp only [if_pos h]
    exact Low6.via _ rfl (low6_draw_pixel _ x y c hc)
  · simp only [if_neg h]
    exact Low6.of_bmp rfl

theorem low6_draw_line_x (clip : Clip) (x2 sx sy dx dy : Int) (col : Nat) (hc : col ≤ 63) :
    ∀ (fuel : Nat) (s : VState) (x1 y1 cx : Int),
      Low6 s (draw_line_x clip x2 sx sy dx dy col fuel s x1 y1 cx) := by
  intro fuel
  induction fuel with
  | zero => intro s x1 y1 cx; exact Low6.of_bmp rfl
  | succ n ih =>
    intro s x1 y1 cx
    simp only [draw_line_x]
    split_ifs
    · exact low6_plot clip s x1 y1 col hc
    · exact (low6_plot clip s x1 y1 col hc).next (ih _ _ _ _)
    · exact (low6_plot clip s x1 y1 col hc).next (ih _ _ _ _)

theorem low6_draw_line_y (clip : Clip) (y2 sx sy dx dy : Int) (col : Nat) (hc : col ≤ 63) :
    ∀ (fuel : Nat) (s : VState) (x1 y1 cy : Int),
      Low6 s (draw_line_y clip y2 sx sy dx dy col fuel s x1 y1 cy) := by
  intro fuel
  induction fuel with
  | zero => intro s x1 y1 cy; exact Low6.of_bmp rfl
  | succ n ih =>
    intro s x1 y1 cy
    simp only [draw_line_y]
    split_ifs
    · exact low6_plot clip s x1 y1 col hc
    · exact (low6_plot clip s x1 y1 col hc).next (ih _ _ _ _)
    · exact (low6_plot clip s x1 y1 col hc).next (ih _ _ _ _)

theorem low6_draw_line (fuel : Nat) (clip : Clip) (s : VState) (x1 y1 x2 y2 : Int)
    (col : Nat) (hc : col ≤ 63) : Low6 s (draw_line fuel clip s x1 y1 x2 y2 col) := by
  unfold draw_line
  simp only
  split_ifs <;>
    first
    | exact low6_draw_line_x _ _ _ _ _ _ _ hc _ _ _ _ _
    | exact low6_draw_line_y _ _ _ _ _ _ _ hc _ _ _ _ _

theorem low6_point_pair (clip : Clip) (s : VState) (x yColor : Nat) :
    Low6 s (point_pair clip s x yColor) := by
  unfold point_pair
  simp only
  split_ifs
  · exact low6_draw_pixel s _ _ _ Nat.and_le_right
  · exact Low6.keep s

theorem low6_point_loop (mem : ComMem) (clip : Clip) :
    ∀ (fuel : Nat) (s : VState) (spnt : Nat), Low6 s (point_loop mem clip fuel s spnt) := by
  intro fuel
  induction fuel with
  | zero => intro s spnt; exact Low6.of_bmp rfl
  | succ n ih =>
    intro s spnt
    simp only [point_loop]
    split_ifs
    · exact Low6.of_bmp rfl
    · exact Low6.via ((s.read spnt).read (spnt + 1)) rfl
        ((low6_point_pair clip _ _ _).next (ih _ _))
    · exact Low6.keep s

theorem low6_vector_quad (fuel : Nat) (clip : Clip) (s : VState)
    (endY startYColor slope startX : Nat) :
    Low6 s (vector_quad fuel clip s endY startYColor slope startX) := by
  unfold vector_quad
  exact low6_draw_line _ _ _ _ _ _ _ _ Nat.and_le_right

theorem low6_line_loop (lfuel : Nat) (mem : ComMem) (clip : Clip) :
    ∀ (fuel : Nat) (s : VState) (spnt : Nat),
      Low6 s (line_loop lfuel mem clip fuel s spnt) := by
  intro fuel
  induction fuel with
  | zero => intro s spnt; exact Low6.of_bmp rfl
  | succ n ih =>
    intro s spnt
    simp only [line_loop]
    split_ifs
    · exact Low6.of_bmp rfl
    · exact Low6.via ((((s.read spnt).read (spnt + 1)).read (spnt + 3)).read (spnt + 2)) rfl
        (low6_vector_quad _ clip _ _ _ _ _)
    · exact Low6.via ((((s.read spnt).read (spnt + 1)).read (spnt + 3)).read (spnt + 2)) rfl
        ((low6_vector_quad _ clip _ _ _ _ _).next (ih _ _))
    · exact Low6.keep s

theorem low6_poly_scanline (clip : Clip) (s : VState) (sx sx2 sy : Int) (color : Nat)
    (hc : color ≤ 63) : Low6 s (poly_scanline clip s sx sx2 sy color) := by
  rw [poly_scanline_eq]
  split_ifs
  · intro i
    rw [fill_hline_polybitmap]
    split_ifs
    · right; omega
    · left; rfl
  · exact Low6.keep s

theorem low6_poly_loop (mem : ComMem) (clip : Clip) (color : Nat) (hc : color ≤ 63) :
    ∀ (fuel : Nat) (s : VState) (v : PolyVars),
      Low6 s (poly_loop mem clip color fuel s v) := by
  intro fuel
  induction fuel with
  | zero => intro s v; exact Low6.of_bmp rfl
  | succ n ih =>
    intro s v
    have h : Low6 s (poly_body mem clip color s v).1 :=
      (low6_poly_scanline clip s v.sx v.sx2 v.sy color hc).next
        (Low6.of_bmp (poly_body_frame mem clip color s v).2.1)
    simp only [poly_loop]
    rcases hb : poly_body mem clip color s v with ⟨t, _ | w⟩
    · rw [hb] at h; exact h
    · rw [hb] at h; exact h.next (ih _ _)

theorem low6_polygon (fuel : Nat) (mem : ComMem) (clip : Clip) (s : VState) (spnt : Nat) :
    Low6 s (polygon fuel mem clip s spnt) := by
  simp only [polygon]
  split_ifs
  · exact Low6.via ((((((((s.read spnt).read (spnt + 1)).read (spnt + 2)).read
        (spnt + 3)).read (spnt + 4)).read (spnt + 4 + 1)).read
          (combase16 mem spnt &&& 0x7ff)).read ((combase16 mem spnt &&& 0x7ff) + 1)) rfl
      (low6_poly_loop mem clip _ Nat.and_le_right _ _ _)
  · exact Low6.of_bmp rfl

theorem low6_dispatch (fuel : Nat) (mem : ComMem) (clip : Clip) (s : VState) (d1 : Nat) :
    Low6 s (dispatch fuel mem clip s d1) := by
  by_cases h8 : (d1 &&& 0xf000) >>> 12 = 0x8
  · rw [dispatch_point _ _ _ _ _ h8]
    exact Low6.via s.countEntry rfl (low6_point_loop mem clip _ _ _)
  · by_cases hc : (d1 &&& 0xf000) >>> 12 = 0xc
    · rw [dispatch_line _ _ _ _ _ hc]
      exact Low6.via s.countEntry rfl (low6_line_loop _ mem clip _ _ _)
    · by_cases h4 : (d1 &&& 0xf000) >>> 12 = 0x4
      · rw [dispatch_polygon _ _ _ _ _ h4]
        exact Low6.via s.countEntry rfl (low6_polygon _ mem clip _ _)
      · rw [dispatch_other _ _ _ _ _ h8 hc h4]
        exact Low6.of_bmp rfl

theorem low6_object_loop (ifuel : Nat) (mem : ComMem) (clip : Clip) :
    ∀ (fuel : Nat) (s : VState) (lpnt : Nat),
      Low6 s (object_loop ifuel mem clip fuel s lpnt) := by
  intro fuel
  induction fuel with
  | zero => intro s lpnt; exact Low6.of_bmp rfl
  | succ n ih =>
    intro s lpnt
    simp only [object_loop]
    split_ifs
    · exact Low6.of_bmp rfl
    · exact Low6.via (s.read lpnt) rfl (low6_dispatch _ mem clip _ _)
    · exact Low6.via (s.read lpnt) rfl ((low6_dispatch _ mem clip _ _).next (ih _ _))
    · exact Low6.keep s

/-- C20: whatever the command memory, the clip rectangle and the fuel, each byte of the
draw-side buffer after a render pass either has its previous value or a value in 0..63 (the
renderers store only `word & 0x3F`); so if every byte was at most 63 before the pass, every
byte is at most 63 after it, and on a buffer just zero-filled by `irobot_poly_clear` every
byte of the `256 * height` canvas is at most 63 afterwards. -/
theorem run_video_keeps_pixels_below_64 (fuel : Nat) (mem : ComMem) (clip : Clip) (s : VState) :
    (∀ i, (irobot_run_video fuel mem clip s).polybitmap i = s.polybitmap i
        ∨ (irobot_run_video fuel mem clip s).polybitmap i ≤ 63)
    ∧ ((∀ i, s.polybitmap i ≤ 63) → ∀ i, (irobot_run_video fuel mem clip s).polybitmap i ≤ 63)
    ∧ ∀ (height : Nat) (bmp : Int → Nat) (i : Int), 0 ≤ i → i < 256 * (height : Int) →
        (irobot_run_video fuel mem clip
          (VState.init (irobot_poly_clear height bmp))).polybitmap i ≤ 63 := by
  have key : ∀ t : VState, Low6 t (irobot_run_video fuel mem clip t) :=
    fun t => low6_object_loop fuel mem clip fuel t 0
  refine ⟨key s, ?_, ?_⟩
  · intro h i
    rcases key s i with e | e
    · rw [e]; exact h i
    · exact e
  · intro height bmp i h0 h1
    rcases key (VState.init (irobot_poly_clear height bmp)) i with e | e
    · rw [e]
      simp only [VState.init, irobot_poly_clear, BITMAP_WIDTH]
      rw [if_pos ⟨h0, h1⟩]
      exact Nat.zero_le _
    · exact e

/-- Witness for C20: a polygon of colour 7 on a zero buffer; offset 11 (row 0, column 11)
holds a value of at most 63 after the pass. -/
theorem run_video_keeps_pixels_below_64_witness :
    (irobot_run_video 8
      (memOfList [0x4002, 0xffff, 10, 0x4500, 0x4A00, 0x4007, 0, 0x4180, 0xffff, 0xffff, 0,
        0x4180])
      ⟨0, 0, 256, 232⟩ (VState.init (fun _ => 0))).polybitmap 11 ≤ 63 :=
  (run_video_keeps_pixels_below_64 8
    (memOfList [0x4002, 0xffff, 10, 0x4500, 0x4A00, 0x4007, 0, 0x4180, 0xffff, 0xffff, 0,
      0x4180])
    ⟨0, 0, 256, 232⟩ (VState.init (fun _ => 0))).2.1 (fun _ => Nat.zero_le _) 11

/-! ## Polygon renderer: edge stepping -/

theorem int16_range (w : Nat) (h : w < 65536) : -32768 ≤ int16 w ∧ int16 w ≤ 32767 := by
  unfold int16
  split_ifs <;> omega

theorem ROUND_TO_PIXEL_range (w : Nat) (h : w < 65536) :
    -128 ≤ ROUND_TO_PIXEL w ∧ ROUND_TO_PIXEL w ≤ 383 := by
  rw [ROUND_TO_PIXEL_eq]
  omega

/-- The polygon branch enters its loop with `polygon_vars`. -/
theorem polygon_enters_loop (fuel : Nat) (mem : ComMem) (clip : Clip) (s : VState) (spnt : Nat)
    (hne : int16 (combase16 mem (spnt + 4)) ≠ -1 ∨ combase16 mem (spnt + 5) ≠ 0xffff) :
    polygon fuel mem clip s spnt
      = poly_loop mem clip (combase16 mem (spnt + 3) &&& 0x3f) fuel
          ((((((((s.read spnt).read (spnt + 1)).read (spnt + 2)).read (spnt + 3)).read
            (spnt + 4)).read (spnt + 5)).read (combase16 mem spnt &&& 0x7ff)).read
              ((combase16 mem spnt &&& 0x7ff) + 1))
          (polygon_vars mem spnt) :=
  polygon_start fuel mem clip s spnt hne

/-- The loop after `k` iterations that did not `break` is the loop on the state reached. -/
theorem poly_loop_iter (mem : ComMem) (clip : Clip) (color : Nat) :
    ∀ (k fuel : Nat) (s : VState) (v : PolyVars) (s' : VState) (v' : PolyVars),
      poly_iter mem clip color k s v = some (s', v') →
      poly_loop mem clip color (k + fuel) s v = poly_loop mem clip color fuel s' v' := by
  intro k
  induction k with
  | zero =>
    intro fuel s v s' v' h
    simp only [poly_iter, Option.some.injEq, Prod.mk.injEq] at h
    rw [h.1, h.2, Nat.zero_add]
  | succ k ih =>
    intro fuel s v s' v' h
    rw [show k + 1 + fuel = (k + fuel) + 1 from by omega]
    simp only [poly_iter] at h
    simp only [poly_loop]
    rcases hb : poly_body mem clip color s v with ⟨t, _ | w⟩
    · rw [hb] at h; exact absurd h (by simp)
    · rw [hb] at h
      exact ih fuel t w s' v' h

/-- One scanline transition, unfolded: the scanline is filled with the accumulators as they
are, `sy` is incremented, then each edge either advances by its slope or loads its next
pair. -/
theorem poly_body_step (mem : ComMem) (clip : Clip) (color : Nat) (s : VState) (v : PolyVars) :
    (v.sy + 1 ≤ v.ey →
      ∃ v', (poly_body mem clip color s v).2 = some v'
        ∧ v'.sy = v.sy + 1 ∧ v'.sx = v.sx + v.word1
        ∧ v'.word1 = v.word1 ∧ v'.ey = v.ey ∧ v'.spnt = v.spnt)
    ∧ (v.sy + 1 > v.ey →
        ¬ (int16 (combase16 mem v.spnt) = -1 ∧ combase16 mem (v.spnt + 1) = 0xffff) →
      ∃ v', (poly_body mem clip color s v).2 = some v'
        ∧ v'.sy = v.sy + 1 ∧ v'.sx = v.sx
        ∧ v'.word1 = int16 (combase16 mem v.spnt)
        ∧ v'.ey = ROUND_TO_PIXEL (combase16 mem (v.spnt + 1)) ∧ v'.spnt = v.spnt + 2)
    ∧ (v.sy + 1 > v.ey →
        (int16 (combase16 mem v.spnt) = -1 ∧ combase16 mem (v.spnt + 1) = 0xffff) →
      (poly_body mem clip color s v).2 = none)
    ∧ (∀ v', (poly_body mem clip color s v).2 = some v' →
        (v.sy + 1 ≤ v.ey2 →
          v'.sx2 = v.sx2 + v.word2 ∧ v'.word2 = v.word2 ∧ v'.ey2 = v.ey2
          ∧ v'.spnt2 = v.spnt2)
        ∧ (v.sy + 1 > v.ey2 →
          v'.sx2 = v.sx2 ∧ v'.word2 = int16 (combase16 mem v.spnt2)
          ∧ v'.ey2 = ROUND_TO_PIXEL (combase16 mem (v.spnt2 + 1))
          ∧ v'.spnt2 = v.spnt2 + 2)) := by
  refine ⟨?_, ?_, ?_, ?_⟩
  · intro h
    have h' : ¬ v.sy + 1 > v.ey := by omega
    simp only [poly_body, edge1_step, if_neg h', edge2_step]
    split_ifs <;> exact ⟨_, rfl, rfl, rfl, rfl, rfl, rfl⟩
  · intro h hs
    simp only [poly_body, edge1_step, if_pos h, if_neg hs, edge2_step]
    split_ifs <;> exact ⟨_, rfl, rfl, rfl, rfl, rfl, rfl⟩
  · intro h hs
    simp only [poly_body, edge1_step, if_pos h, if_pos hs]
  · intro v' hv
    by_cases h1 : v.sy + 1 > v.ey
    · by_cases hs : int16 (combase16 mem v.spnt) = -1 ∧ combase16 mem (v.spnt + 1) = 0xffff
      · simp only [poly_body, edge1_step, if_pos h1, if_pos hs, reduceCtorEq] at hv
      · by_cases h2 : v.sy + 1 > v.ey2
        · simp only [poly_body, edge1_step, if_pos h1, if_neg hs, edge2_step, if_pos h2,
            Option.some.injEq] at hv
          subst hv
          exact ⟨fun h => absurd h2 (by omega), fun _ => ⟨rfl, rfl, rfl, rfl⟩⟩
        · simp only [poly_body, edge1_step, if_pos h1, if_neg hs, edge2_step, if_neg h2,
            Option.some.injEq] at hv
          subst hv
          exact ⟨fun _ => ⟨rfl, rfl, rfl, rfl⟩, fun h => absurd h h2⟩
    · by_cases h2 : v.sy + 1 > v.ey2
      · simp only [poly_body, edge1_step, if_neg h1, edge2_step, if_pos h2,
          Option.some.injEq] at hv
        subst hv
        exact ⟨fun h => absurd h2 (by omega), fun _ => ⟨rfl, rfl, rfl, rfl⟩⟩
      · simp only [poly_body, edge1_step, if_neg h1, edge2_step, if_neg h2,
          Option.some.injEq] at hv
        subst hv
        exact ⟨fun _ => ⟨rfl, rfl, rfl, rfl⟩, fun h => absurd h h2⟩

theorem poly_iter_succ (mem : ComMem) (clip : Clip) (color : Nat) (k : Nat) (s : VState)
    (v w : PolyVars) (h : (poly_body mem clip color s v).2 = some w) :
    poly_iter mem clip color (k + 1) s v
      = poly_iter mem clip color k (poly_body mem clip color s v).1 w := by
  simp only [poly_iter]
  rcases hb : poly_body mem clip color s v with ⟨t, _ | u⟩
  · rw [hb] at h; exact absurd h (by simp)
  · rw [hb] at h
    simp only [Option.some.injEq] at h
    subst h
    rfl

/-- Inside the current segment of the first edge the loop does not `break` and the X
accumulator grows by the slope on every scanline. -/
theorem poly_iter_first_segment (mem : ComMem) (clip : Clip) (color : Nat) :
    ∀ (k : Nat) (s : VState) (v : PolyVars), v.sy + k ≤ v.ey →
      ∃ s' v', poly_iter mem clip color k s v = some (s', v')
        ∧ v'.sx = v.sx + k * v.word1 ∧ v'.sy = v.sy + k
        ∧ v'.word1 = v.word1 ∧ v'.ey = v.ey ∧ v'.spnt = v.spnt := by
  intro k
  induction k with
  | zero =>
    intro s v _
    exact ⟨s, v, rfl, by simp, by simp, rfl, rfl, rfl⟩
  | succ k ih =>
    intro s v h
    push_cast at h
    obtain ⟨w, hw, w1, w2, w3, w4, w5⟩ := (poly_body_step mem clip color s v).1 (by omega)
    obtain ⟨s', v', e, r1, r2, r3, r4, r5⟩ := ih (poly_body mem clip color s v).1 w
      (by rw [w1, w4]; omega)
    refine ⟨s', v', by rw [poly_iter_succ mem clip color k s v w hw, e], ?_, ?_, ?_, ?_, ?_⟩
    · rw [r1, w2, w3]; push_cast; ring
    · rw [r2, w1]; push_cast; ring
    · rw [r3, w3]
    · rw [r4, w4]
    · rw [r5, w5]

/-- C17: a polygon at `spnt` whose first pair is not the sentinel enters its loop with the
header start X values unmodified, so the first scanline is filled from them; at each
scanline transition (after `sy` is incremented) an edge whose segment is not finished
(`sy + 1 ≤ ey`) has its X accumulator increased by exactly its slope, a signed 16-bit value,
while an edge whose segment just ended (`sy + 1 > ey`) loads the next pair and keeps its X
accumulator (on the first list, a sentinel pair ends the loop instead); hence on scanline
`startY + k` inside the first segment the first accumulator is `startX + k * slope`. -/
theorem edges_advance_by_slope_or_reload (fuel : Nat) (mem : ComMem) (clip : Clip)
    (s : VState) (spnt : Nat)
    (hne : int16 (combase16 mem (spnt + 4)) ≠ -1 ∨ combase16 mem (spnt + 5) ≠ 0xffff) :
    (∃ s0 : VState, s0.polybitmap = s.polybitmap
      ∧ polygon fuel mem clip s spnt
          = poly_loop mem clip (combase16 mem (spnt + 3) &&& 0x3f) fuel s0
              (polygon_vars mem spnt)
      ∧ (poly_body mem clip (combase16 mem (spnt + 3) &&& 0x3f) s0
            (polygon_vars mem spnt)).1.polybitmap
          = (poly_scanline clip s0 (combase16 mem (spnt + 1)) (combase16 mem (spnt + 2))
              (ROUND_TO_PIXEL (combase16 mem (spnt + 3)))
              (combase16 mem (spnt + 3) &&& 0x3f)).polybitmap
      ∧ ∀ k : Nat,
          ROUND_TO_PIXEL (combase16 mem (spnt + 3)) + k
            ≤ ROUND_TO_PIXEL (combase16 mem (spnt + 5)) →
          ∃ s' v', poly_iter mem clip (combase16 mem (spnt + 3) &&& 0x3f) k s0
                (polygon_vars mem spnt) = some (s', v')
            ∧ v'.sx = (combase16 mem (spnt + 1) : Int) + k * int16 (combase16 mem (spnt + 4))
            ∧ v'.sy = ROUND_TO_PIXEL (combase16 mem (spnt + 3)) + k)
    ∧ (-32768 ≤ (polygon_vars mem spnt).word1 ∧ (polygon_vars mem spnt).word1 ≤ 32767
      ∧ -32768 ≤ (polygon_vars mem spnt).word2 ∧ (polygon_vars mem spnt).word2 ≤ 32767)
    ∧ ∀ (color : Nat) (t : VState) (v : PolyVars),
        (v.sy + 1 ≤ v.ey →
          ∃ v', (poly_body mem clip color t v).2 = some v'
            ∧ v'.sy = v.sy + 1 ∧ v'.sx = v.sx + v.word1
            ∧ v'.word1 = v.word1 ∧ v'.ey = v.ey ∧ v'.spnt = v.spnt)
        ∧ (v.sy + 1 > v.ey →
            ¬ (int16 (combase16 mem v.spnt) = -1 ∧ combase16 mem (v.spnt + 1) = 0xffff) →
          ∃ v', (poly_body mem clip color t v).2 = some v'
            ∧ v'.sy = v.sy + 1 ∧ v'.sx = v.sx
            ∧ v'.word1 = int16 (combase16 mem v.spnt)
            ∧ v'.ey = ROUND_TO_PIXEL (combase16 mem (v.spnt + 1)) ∧ v'.spnt = v.spnt + 2)
        ∧ (v.sy + 1 > v.ey →
            (int16 (combase16 mem v.spnt) = -1 ∧ combase16 mem (v.spnt + 1) = 0xffff) →
          (poly_body mem clip color t v).2 = none)
        ∧ (∀ v', (poly_body mem clip color t v).2 = some v' →
            (v.sy + 1 ≤ v.ey2 →
              v'.sx2 = v.sx2 + v.word2 ∧ v'.word2 = v.word2 ∧ v'.ey2 = v.ey2
              ∧ v'.spnt2 = v.spnt2)
            ∧ (v.sy + 1 > v.ey2 →
              v'.sx2 = v.sx2 ∧ v'.word2 = int16 (combase16 mem v.spnt2)
              ∧ v'.ey2 = ROUND_TO_PIXEL (combase16 mem (v.spnt2 + 1))
              ∧ v'.spnt2 = v.spnt2 + 2)) := by
  refine ⟨⟨_, ?_, polygon_enters_loop fuel mem clip s spnt hne, ?_, ?_⟩, ?_,
    fun color t v => poly_body_step mem clip color t v⟩
  · rfl
  · exact (poly_body_frame mem clip _ _ _).2.1
  · intro k hk
    obtain ⟨s', v', e, r1, r2, _⟩ := poly_iter_first_segment mem clip
      (combase16 mem (spnt + 3) &&& 0x3f) k
      ((((((((s.read spnt).read (spnt + 1)).read (spnt + 2)).read (spnt + 3)).read
            (spnt + 4)).read (spnt + 5)).read (combase16 mem spnt &&& 0x7ff)).read
              ((combase16 mem spnt &&& 0x7ff) + 1))
      (polygon_vars mem spnt) hk
    exact ⟨s', v', e, r1, r2⟩
  · exact ⟨(int16_range _ (combase16_lt _ _)).1, (int16_range _ (combase16_lt _ _)).2,
      (int16_range _ (combase16_lt _ _)).1, (int16_range _ (combase16_lt _ _)).2⟩

/-- Witness for C17: the polygon at word 2 with first edge `(slope 128, row 3)` from
`startX = 0x4500`, row 0: the loop is entered on `polygon_vars`, whose `sx` is the header
word. -/
theorem edges_advance_by_slope_or_reload_witness :
    -32768 ≤ (polygon_vars
        (memOfList [0x4002, 0xffff, 10, 0x4500, 0x4A00, 0x4007, 128, 0x4180, 0xffff, 0xffff, 0,
          0x4180]) 2).word1
    ∧ (polygon_vars
        (memOfList [0x4002, 0xffff, 10, 0x4500, 0x4A00, 0x4007, 128, 0x4180, 0xffff, 0xffff, 0,
          0x4180]) 2).word1 ≤ 32767
    ∧ (polygon_vars
        (memOfList [0x4002, 0xffff, 10, 0x4500, 0x4A00, 0x4007, 128, 0x4180, 0xffff, 0xffff, 0,
          0x4180]) 2).sx = 0x4500 :=
  ⟨(edges_advance_by_slope_or_reload 8
      (memOfList [0x4002, 0xffff, 10, 0x4500, 0x4A00, 0x4007, 128, 0x4180, 0xffff, 0xffff, 0,
        0x4180]) ⟨0, 0, 256, 232⟩ (VState.init (fun _ => 0)) 2 (Or.inl (by decide))).2.1.1,
    (edges_advance_by_slope_or_reload 8
      (memOfList [0x4002, 0xffff, 10, 0x4500, 0x4A00, 0x4007, 128, 0x4180, 0xffff, 0xffff, 0,
        0x4180]) ⟨0, 0, 256, 232⟩ (VState.init (fun _ => 0)) 2 (Or.inl (by decide))).2.1.2.1,
    by decide⟩

/-! ## No overflow of the X accumulators -/

theorem accBound_step (mem : ComMem) (clip : Clip) (color : Nat) (sx0 sx20 sy0 : Int)
    (s : VState) (v w : PolyVars) (hv : AccBound sx0 sx20 sy0 v)
    (hw : (poly_body mem clip color s v).2 = some w) :
    AccBound sx0 sx20 sy0 w ∧ w.sy = v.sy + 1 := by
  obtain ⟨hw1, hw2, hey, hey2, hsy, ⟨n1, a1, a2, a3⟩, ⟨n2, b1, b2, b3⟩⟩ := hv
  obtain ⟨p1, p2, p3, p4⟩ := poly_body_step mem clip color s v
  obtain ⟨q1, q2⟩ := p4 w hw
  clear p4
  -- first edge
  have first : w.sy = v.sy + 1 ∧ (-32768 ≤ w.word1 ∧ w.word1 ≤ 32767) ∧ w.ey ≤ 383
      ∧ ∃ n : Nat, sy0 + n ≤ min w.sy 383 ∧ -(32768 * (n : Int)) ≤ w.sx - sx0
          ∧ w.sx - sx0 ≤ 32768 * (n : Int) := by
    by_cases h : v.sy + 1 ≤ v.ey
    · obtain ⟨w', e, r1, r2, r3, r4, _⟩ := p1 h
      rw [hw] at e
      simp only [Option.some.injEq] at e
      subst e
      clear p1 p2 p3 q1 q2 hw
      refine ⟨r1, by rw [r3]; exact hw1, by rw [r4]; exact hey, n1 + 1, ?_, ?_, ?_⟩
      · rw [r1]; push_cast; omega
      · rw [r2]; push_cast; omega
      · rw [r2]; push_cast; omega
    · by_cases hs : int16 (combase16 mem v.spnt) = -1 ∧ combase16 mem (v.spnt + 1) = 0xffff
      · rw [p3 (by omega) hs] at hw
        exact absurd hw (by simp)
      · obtain ⟨w', e, r1, r2, r3, r4, _⟩ := p2 (by omega) hs
        rw [hw] at e
        simp only [Option.some.injEq] at e
        subst e
        clear p1 p2 p3 q1 q2 hw
        refine ⟨r1, by rw [r3]; exact int16_range _ (combase16_lt _ _),
          by rw [r4]; exact (ROUND_TO_PIXEL_range _ (combase16_lt _ _)).2, n1, ?_, ?_, ?_⟩
        · rw [r1]; omega
        · rw [r2]; exact a2
        · rw [r2]; exact a3
  obtain ⟨f1, f2, f3, n3, f4, f5, f6⟩ := first
  clear p1 p2 p3
  have second : (-32768 ≤ w.word2 ∧ w.word2 ≤ 32767) ∧ w.ey2 ≤ 383
      ∧ ∃ n : Nat, sy0 + n ≤ min w.sy 383 ∧ -(32768 * (n : Int)) ≤ w.sx2 - sx20
          ∧ w.sx2 - sx20 ≤ 32768 * (n : Int) := by
    by_cases h : v.sy + 1 ≤ v.ey2
    · obtain ⟨r2, r3, r4, _⟩ := q1 h
      clear q1 q2
      refine ⟨by rw [r3]; exact hw2, by rw [r4]; exact hey2, n2 + 1, ?_, ?_, ?_⟩
      · rw [f1]; push_cast; omega
      · rw [r2]; push_cast; omega
      · rw [r2]; push_cast; omega
    · obtain ⟨r2, r3, r4, _⟩ := q2 (by omega)
      clear q1 q2
      refine ⟨by rw [r3]; exact int16_range _ (combase16_lt _ _),
        by rw [r4]; exact (ROUND_TO_PIXEL_range _ (combase16_lt _ _)).2, n2, ?_, ?_, ?_⟩
      · rw [f1]; omega
      · rw [r2]; exact b2
      · rw [r2]; exact b3
  exact ⟨⟨f2, second.1, f3, second.2.1, by rw [f1]; omega, ⟨n3, f4, f5, f6⟩, second.2.2⟩, f1⟩

theorem accBound_iter (mem : ComMem) (clip : Clip) (color : Nat) (sx0 sx20 sy0 : Int) :
    ∀ (k : Nat) (s : VState) (v : PolyVars) (s' : VState) (v' : PolyVars),
      AccBound sx0 sx20 sy0 v → poly_iter mem clip color k s v = some (s', v') →
      AccBound sx0 sx20 sy0 v' ∧ v'.sy = v.sy + k := by
  intro k
  induction k with
  | zero =>
    intro s v s' v' hv h
    simp only [poly_iter, Option.some.injEq, Prod.mk.injEq] at h
    rw [← h.2]
    exact ⟨hv, by simp⟩
  | succ k ih =>
    intro s v s' v' hv h
    rcases hb : (poly_body mem clip color s v).2 with _ | w
    · simp only [poly_iter] at h
      rcases hb' : poly_body mem clip color s v with ⟨t, _ | u⟩
      · rw [hb'] at h; exact absurd h (by simp)
      · rw [hb'] at hb; exact absurd hb (by simp)
    · rw [poly_iter_succ mem clip color k s v w hb] at h
      obtain ⟨hw, hsy⟩ := accBound_step mem clip color sx0 sx20 sy0 s v w hv hb
      obtain ⟨h1, h2⟩ := ih _ w s' v' hw h
      exact ⟨h1, by rw [h2, hsy]; push_cast; ring⟩

theorem accBound_polygon_vars (mem : ComMem) (spnt : Nat) :
    AccBound (combase16 mem (spnt + 1)) (combase16 mem (spnt + 2))
      (ROUND_TO_PIXEL (combase16 mem (spnt + 3))) (polygon_vars mem spnt) := by
  refine ⟨int16_range _ (combase16_lt _ _), int16_range _ (combase16_lt _ _),
    (ROUND_TO_PIXEL_range _ (combase16_lt _ _)).2, (ROUND_TO_PIXEL_range _ (combase16_lt _ _)).2,
    le_refl _, ⟨0, ?_, ?_, ?_⟩, ⟨0, ?_, ?_, ?_⟩⟩
  · have := ROUND_TO_PIXEL_range _ (combase16_lt mem (spnt + 3))
    simp only [polygon_vars]
    push_cast
    omega
  · simp [polygon_vars]
  · simp [polygon_vars]
  · have := ROUND_TO_PIXEL_range _ (combase16_lt mem (spnt + 3))
    simp only [polygon_vars]
    push_cast
    omega
  · simp [polygon_vars]
  · simp [polygon_vars]

theorem vector_ex_bound (endY startYColor slope startX : Nat) (h0 : endY < 65536)
    (h1 : startYColor < 65536) (h2 : slope < 65536) (h3 : startX < 65536) :
    (-510 ≤ ROUND_TO_PIXEL endY - ROUND_TO_PIXEL startYColor + 1
      ∧ ROUND_TO_PIXEL endY - ROUND_TO_PIXEL startYColor + 1 ≤ 512)
    ∧ (-(32768 * 512) ≤ int16 slope * (ROUND_TO_PIXEL endY - ROUND_TO_PIXEL startYColor + 1)
      ∧ int16 slope * (ROUND_TO_PIXEL endY - ROUND_TO_PIXEL startYColor + 1) ≤ 32768 * 512)
    ∧ -(2 ^ 25) < vector_ex endY startYColor slope startX
    ∧ vector_ex endY startYColor slope startX < 2 ^ 25 := by
  obtain ⟨a1, a2⟩ := ROUND_TO_PIXEL_range endY h0
  obtain ⟨b1, b2⟩ := ROUND_TO_PIXEL_range startYColor h1
  obtain ⟨c1, c2⟩ := int16_range slope h2
  have hd : |ROUND_TO_PIXEL endY - ROUND_TO_PIXEL startYColor + 1| ≤ 512 :=
    abs_le.2 ⟨by omega, by omega⟩
  have hw : |int16 slope| ≤ 32768 := abs_le.2 ⟨by omega, by omega⟩
  have hp : |int16 slope * (ROUND_TO_PIXEL endY - ROUND_TO_PIXEL startYColor + 1)|
      ≤ 32768 * 512 := by
    rw [abs_mul]
    exact mul_le_mul hw hd (abs_nonneg _) (by norm_num)
  obtain ⟨p1, p2⟩ := abs_le.1 hp
  refine ⟨⟨by omega, by omega⟩, ⟨p1, p2⟩, ?_, ?_⟩
  · simp only [vector_ex]
    have : (0 : Int) ≤ (startX : Int) := Int.natCast_nonneg _
    norm_num at p1 p2 ⊢
    linarith
  · simp only [vector_ex]
    have : (startX : Int) < 65536 := by exact_mod_cast h3
    norm_num at p1 p2 ⊢
    linarith

/-- C19: in a polygon at `spnt`, after any number `k` of loop iterations the scanline counter
is `startY + k`, and each X accumulator differs from its header start value by at most
`32768 * n` for some `n ≤ 511` (an advance needs the incremented counter, which starts at
`startY + 1 ≥ -127`, to be at most a segment end `≤ 383`); hence its absolute value is at
most `65535 + 511 * 32768 < 2^25` and adding the next slope stays inside the 32-bit range.
For every vector quadruple the row difference `ey - sy + 1` lies in `-510 .. 512`, the
product with the slope in `± 2^24`, and the end X `sx + slope * (ey - sy + 1)` strictly
between `-2^25` and `2^25`. -/
theorem accumulators_and_end_x_below_2_pow_25 (mem : ComMem) (clip : Clip) (color : Nat)
    (spnt k : Nat) (s s' : VState) (v' : PolyVars)
    (h : poly_iter mem clip color k s (polygon_vars mem spnt) = some (s', v')) :
    v'.sy = ROUND_TO_PIXEL (combase16 mem (spnt + 3)) + k
    ∧ (∃ n : Nat, n ≤ 511 ∧ n ≤ k
        ∧ -(32768 * (n : Int)) ≤ v'.sx - combase16 mem (spnt + 1)
        ∧ v'.sx - combase16 mem (spnt + 1) ≤ 32768 * (n : Int))
    ∧ (∃ n : Nat, n ≤ 511 ∧ n ≤ k
        ∧ -(32768 * (n : Int)) ≤ v'.sx2 - combase16 mem (spnt + 2)
        ∧ v'.sx2 - combase16 mem (spnt + 2) ≤ 32768 * (n : Int))
    ∧ (-(65535 + 511 * 32768) ≤ v'.sx ∧ v'.sx ≤ 65535 + 511 * 32768)
    ∧ (-(65535 + 511 * 32768) ≤ v'.sx2 ∧ v'.sx2 ≤ 65535 + 511 * 32768)
    ∧ ((65535 : Int) + 511 * 32768 < 2 ^ 25)
    ∧ (-(2 ^ 31) ≤ v'.sx + v'.word1 ∧ v'.sx + v'.word1 < 2 ^ 31)
    ∧ (-(2 ^ 31) ≤ v'.sx2 + v'.word2 ∧ v'.sx2 + v'.word2 < 2 ^ 31)
    ∧ ∀ i : Nat,
        (-510 ≤ ROUND_TO_PIXEL (combase16 mem i) - ROUND_TO_PIXEL (combase16 mem (i + 1)) + 1
          ∧ ROUND_TO_PIXEL (combase16 mem i) - ROUND_TO_PIXEL (combase16 mem (i + 1)) + 1 ≤ 512)
        ∧ (-(32768 * 512) ≤ int16 (combase16 mem (i + 2))
              * (ROUND_TO_PIXEL (combase16 mem i) - ROUND_TO_PIXEL (combase16 mem (i + 1)) + 1)
          ∧ int16 (combase16 mem (i + 2))
              * (ROUND_TO_PIXEL (combase16 mem i) - ROUND_TO_PIXEL (combase16 mem (i + 1)) + 1)
            ≤ 32768 * 512)
        ∧ -(2 ^ 25) < vector_ex (combase16 mem i) (combase16 mem (i + 1))
            (combase16 mem (i + 2)) (combase16 mem (i + 3))
        ∧ vector_ex (combase16 mem i) (combase16 mem (i + 1)) (combase16 mem (i + 2))
            (combase16 mem (i + 3)) < 2 ^ 25 := by
  obtain ⟨⟨hw1, hw2, _, _, _, ⟨n1, a1, a2, a3⟩, ⟨n2, b1, b2, b3⟩⟩, hsy⟩ :=
    accBound_iter mem clip color _ _ _ k s (polygon_vars mem spnt) s' v'
      (accBound_polygon_vars mem spnt) h
  have hsy' : v'.sy = ROUND_TO_PIXEL (combase16 mem (spnt + 3)) + k := hsy
  have hr := ROUND_TO_PIXEL_range _ (combase16_lt mem (spnt + 3))
  have hx1 := combase16_lt mem (spnt + 1)
  have hx2 := combase16_lt mem (spnt + 2)
  have hn1 : n1 ≤ 511 ∧ n1 ≤ k := by omega
  have hn2 : n2 ≤ 511 ∧ n2 ≤ k := by omega
  refine ⟨hsy', ⟨n1, hn1.1, hn1.2, a2, a3⟩, ⟨n2, hn2.1, hn2.2, b2, b3⟩, ⟨by omega, by omega⟩,
    ⟨by omega, by omega⟩, by norm_num, ⟨?_, ?_⟩, ⟨?_, ?_⟩,
    fun i => vector_ex_bound _ _ _ _ (combase16_lt _ _) (combase16_lt _ _) (combase16_lt _ _)
      (combase16_lt _ _)⟩
  · norm_num; omega
  · norm_num; omega
  · norm_num; omega
  · norm_num; omega

/-- Witness for C19: two iterations of the polygon at word 2 with first edge
`(slope 128, row 3)`. -/
theorem accumulators_and_end_x_below_2_pow_25_witness :
    ∃ (s' : VState) (v' : PolyVars),
      poly_iter
          (memOfList [0x4002, 0xffff, 10, 0x4500, 0x4A00, 0x4007, 128, 0x4180, 0xffff, 0xffff, 0,
            0x4180]) ⟨0, 0, 256, 232⟩ 7 2 (VState.init (fun _ => 0))
          (polygon_vars (memOfList [0x4002, 0xffff, 10, 0x4500, 0x4A00, 0x4007, 128, 0x4180,
            0xffff, 0xffff, 0, 0x4180]) 2) = some (s', v')
      ∧ v'.sx ≤ 65535 + 511 * 32768 := by
  obtain ⟨s', v', e, _⟩ := poly_iter_first_segment
    (memOfList [0x4002, 0xffff, 10, 0x4500, 0x4A00, 0x4007, 128, 0x4180, 0xffff, 0xffff, 0,
      0x4180]) ⟨0, 0, 256, 232⟩ 7 2 (VState.init (fun _ => 0))
    (polygon_vars (memOfList [0x4002, 0xffff, 10, 0x4500, 0x4A00, 0x4007, 128, 0x4180,
      0xffff, 0xffff, 0, 0x4180]) 2) (by decide)
  exact ⟨s', v', e, (accumulators_and_end_x_below_2_pow_25 _ _ _ _ _ _ _ _ e).2.2.2.1.2⟩

/-! ## Termination and command-memory bounds of the sub-list loops -/

/-- A polygon loop that never meets a first-list sentinel uses up any fuel. -/
theorem poly_loop_runs_out (mem : ComMem) (clip : Clip) (color : Nat)
    (hno : ∀ i, int16 (combase16 mem i) ≠ -1) :
    ∀ (fuel : Nat) (s : VState) (v : PolyVars),
      (poly_loop mem clip color fuel s v).timeout = true
      ∧ (poly_loop mem clip color fuel s v).entries = s.entries := by
  intro fuel
  induction fuel with
  | zero => intro s v; exact ⟨rfl, rfl⟩
  | succ n ih =>
    intro s v
    have hf := (poly_body_frame mem clip color s v).2.2.2
    have hsc : (poly_scanline clip s v.sx v.sx2 v.sy color).entries = s.entries := by
      rw [poly_scanline_eq]
      split_ifs <;> rfl
    obtain ⟨p1, p2, _, _⟩ := poly_body_step mem clip color s v
    have hsome : ∃ w, (poly_body mem clip color s v).2 = some w := by
      by_cases h : v.sy + 1 ≤ v.ey
      · obtain ⟨w, e, _⟩ := p1 h
        exact ⟨w, e⟩
      · obtain ⟨w, e, _⟩ := p2 (by omega) (fun hs => hno _ hs.1)
        exact ⟨w, e⟩
    obtain ⟨w, hw⟩ := hsome
    simp only [poly_loop]
    rcases hb : poly_body mem clip color s v with ⟨t, _ | u⟩
    · rw [hb] at hw; exact absurd hw (by simp)
    · rw [hb] at hf
      simp only at hf ⊢
      exact ⟨(ih t u).1, by rw [(ih t u).2, hf, hsc]⟩

/-- C14 (failing input): every word read is `0x4000`.  Word 0 is then a polygon entry for the
object at word 0, no slope word is the sentinel `0xFFFF`, and the polygon loop never leaves:
whatever the fuel, the pass has not completed (`timeout`), and with any fuel at all it is
still inside the first table entry. -/
theorem polygon_without_sentinel_never_completes :
    ∀ (fuel : Nat) (clip : Clip) (s : VState),
      (irobot_run_video fuel (fun _ => 0x4000) clip s).timeout = true
      ∧ (0 < fuel → (irobot_run_video fuel (fun _ => 0x4000) clip s).entries = s.entries + 1) := by
  intro fuel clip s
  cases fuel with
  | zero => exact ⟨rfl, fun h => absurd h (by decide)⟩
  | succ n =>
    have hno : ∀ i, int16 (combase16 (fun _ => 0x4000) i) ≠ -1 :=
      fun _ => (by decide : int16 (0x4000 % 65536) ≠ -1)
    have hd : combase16 (fun _ => 0x4000) 0 ≠ 0xffff := by decide
    have hshp : (combase16 (fun _ => 0x4000) 0 &&& 0xf000) >>> 12 = 0x4 := by decide
    obtain ⟨h1, h2⟩ := poly_loop_runs_out (fun _ => 0x4000) clip
      (combase16 (fun _ => 0x4000) (0 + 3) &&& 0x3f) hno (n + 1)
      (((((((((s.read 0).countEntry.read 0).read (0 + 1)).read (0 + 2)).read (0 + 3)).read
        (0 + 4)).read (0 + 5)).read (combase16 (fun _ => 0x4000) 0 &&& 0x7ff)).read
          ((combase16 (fun _ => 0x4000) 0 &&& 0x7ff) + 1))
      (polygon_vars (fun _ => 0x4000) 0)
    have hp := polygon_enters_loop (n + 1) (fun _ => 0x4000) clip (s.read 0).countEntry 0
      (Or.inl (hno _))
    have e : irobot_run_video (n + 1) (fun _ => 0x4000) clip s
        = polygon (n + 1) (fun _ => 0x4000) clip (s.read 0).countEntry 0 := by
      unfold irobot_run_video
      rw [object_loop_step _ _ _ _ _ _ (by decide) hd, dispatch_polygon _ _ _ _ _ hshp]
      have e0 : combase16 (fun _ => 0x4000) 0 &&& 0x07ff = 0 := by decide
      rw [e0, hp, h1]
      simp only [if_true]
    rw [e, hp]
    exact ⟨h1, fun _ => h2⟩

/-- C15 (failing input): word 0 is `0xC7FE`, a vector entry for the list at word `0x7FE`,
word 1 is `0xFFFF` and the other words are `0x4000` (the word at `0x800`, which the code
takes as slope, is 0).  The quadruple at `0x7FE` passes the guard `spnt < 0x7ff` and the
pass reads the words `0x7FE`, `0x7FF`, `0x801`, `0x800`: two of them lie beyond the last
command-memory word `0x7FF`.  With word 0 = `0x47FF` instead, a polygon entry, the header
and first pair are read at `0x7FF .. 0x804` without any guard. -/
theorem vector_and_polygon_read_past_0x7FF :
    (irobot_run_video 8
        (fun i => if i = 0 then 0xC7FE else if i = 1 then 0xffff else if i = 0x800 then 0
          else 0x4000)
        ⟨0, 0, 256, 232⟩ (VState.init (fun _ => 0))).reads
      = [1, 0x800, 0x801, 0x7FF, 0x7FE, 0]
    ∧ (irobot_run_video 8
        (fun i => if i = 0 then 0xC7FE else if i = 1 then 0xffff else if i = 0x800 then 0
          else 0x4000)
        ⟨0, 0, 256, 232⟩ (VState.init (fun _ => 0))).timeout = false
    ∧ (irobot_run_video 8
        (fun i => if i = 0 then 0x47FF else if i = 1 then 0xffff else if i = 0x7FF then 0
          else 0xffff)
        ⟨0, 0, 256, 232⟩ (VState.init (fun _ => 0))).reads
      = [1, 0x804, 0x803, 0x802, 0x801, 0x800, 0x7FF, 0]
    ∧ (irobot_run_video 8
        (fun i => if i = 0 then 0x47FF else if i = 1 then 0xffff else if i = 0x7FF then 0
          else 0xffff)
        ⟨0, 0, 256, 232⟩ (VState.init (fun _ => 0))).timeout = false := by
  refine ⟨by decide, by decide, by decide, by decide⟩

/-! ## Line renderer: the points stepped through -/

theorem plotted_cons (clip : Clip) (p : Int × Int) (l : List (Int × Int)) :
    plotted clip (p :: l) = plotted clip [p] ++ plotted clip l := by
  simp only [plotted, List.filter_cons, List.filter_nil]
  split_ifs <;> simp

theorem plotted_single_reverse (clip : Clip) (p : Int × Int) :
    (plotted clip [p]).reverse = plotted clip [p] := by
  simp only [plotted, List.filter_cons, List.filter_nil]
  split_ifs <;> simp

theorem plot_effect (clip : Clip) (s : VState) (x y : Int) (col : Nat) :
    (plot clip s x y col).visited = (x, y) :: s.visited
    ∧ (plot clip s x y col).writes = plotted clip [(x, y)] ++ s.writes
    ∧ (plot clip s x y col).timeout = s.timeout
    ∧ ∀ i, (plot clip s x y col).polybitmap i
        = if i ∈ plotted clip [(x, y)] then col % 256 else s.polybitmap i := by
  by_cases h : clip.inside x y
  · have hp : plotted clip [(x, y)] = [y * 256 + x] := by
      simp [plotted, List.filter_cons, h]
    rw [hp]
    simp only [plot, if_pos h, draw_pixel, BITMAP_WIDTH, List.mem_singleton]
    refine ⟨?_, ?_, ?_, ?_⟩ <;>
      first | rfl | trivial | exact fun _ => rfl | exact fun _ => trivial
  · have hp : plotted clip [(x, y)] = [] := by
      simp [plotted, List.filter_cons, h]
    rw [hp]
    simp only [plot, if_neg h, List.not_mem_nil, if_false]
    refine ⟨?_, ?_, ?_, ?_⟩ <;>
      first | rfl | trivial | exact fun _ => rfl | exact fun _ => trivial

/-- What a run of a `draw_line` loop does to the state, given the points it steps through. -/
theorem trace_effect (clip : Clip) (col : Nat) (s u : VState) (x y : Int)
    (rest : List (Int × Int))
    (hv : u.visited = rest.reverse ++ (plot clip s x y col).visited)
    (hw : u.writes = (plotted clip rest).reverse ++ (plot clip s x y col).writes)
    (hb : ∀ i, u.polybitmap i
        = if i ∈ plotted clip rest then col % 256 else (plot clip s x y col).polybitmap i) :
    u.visited = ((x, y) :: rest).reverse ++ s.visited
    ∧ u.writes = (plotted clip ((x, y) :: rest)).reverse ++ s.writes
    ∧ ∀ i, u.polybitmap i
        = if i ∈ plotted clip ((x, y) :: rest) then col % 256 else s.polybitmap i := by
  obtain ⟨e1, e2, _, e4⟩ := plot_effect clip s x y col
  refine ⟨?_, ?_, ?_⟩
  · rw [hv, e1]; simp
  · rw [hw, e2, plotted_cons clip (x, y) rest, List.reverse_append, plotted_single_reverse]
    simp
  · intro i
    rw [hb i, e4 i]
    simp only [plotted_cons clip (x, y) rest, List.mem_append]
    by_cases h1 : i ∈ plotted clip rest
    · simp only [h1, or_true, if_true]
    · by_cases h2 : i ∈ plotted clip [(x, y)]
      · simp only [h1, h2, true_or, if_true, if_false]
      · simp only [h1, h2, or_self, if_false]

theorem trace_effect_nil (clip : Clip) (col : Nat) (s : VState) :
    s.timedOut.visited = ([] : List (Int × Int)).reverse ++ s.visited
    ∧ s.timedOut.writes = (plotted clip []).reverse ++ s.writes
    ∧ ∀ i, s.timedOut.polybitmap i
        = if i ∈ plotted clip [] then col % 256 else s.polybitmap i := by
  refine ⟨rfl, rfl, fun i => ?_⟩
  simp [plotted]

theorem draw_line_x_trace (clip : Clip) (x2 sx sy dx dy : Int) (col : Nat) :
    ∀ (fuel : Nat) (s : VState) (x1 y1 cx : Int),
      (draw_line_x clip x2 sx sy dx dy col fuel s x1 y1 cx).visited
          = (line_pts_x x2 sx sy dx dy fuel x1 y1 cx).reverse ++ s.visited
      ∧ (draw_line_x clip x2 sx sy dx dy col fuel s x1 y1 cx).writes
          = (plotted clip (line_pts_x x2 sx sy dx dy fuel x1 y1 cx)).reverse ++ s.writes
      ∧ ∀ i, (draw_line_x clip x2 sx sy dx dy col fuel s x1 y1 cx).polybitmap i
          = if i ∈ plotted clip (line_pts_x x2 sx sy dx dy fuel x1 y1 cx) then col % 256
            else s.polybitmap i := by
  intro fuel
  induction fuel with
  | zero =>
    intro s x1 y1 cx
    exact trace_effect_nil clip col s
  | succ n ih =>
    intro s x1 y1 cx
    simp only [draw_line_x, line_pts_x]
    by_cases hx : x1 = x2
    · simp only [if_pos hx]
      exact trace_effect clip col s _ x1 y1 [] (by simp) (by simp [plotted])
        (by simp [plotted])
    · simp only [if_neg hx]
      by_cases hc : cx - dy < 0
      · simp only [if_pos hc]
        obtain ⟨i1, i2, i3⟩ := ih (plot clip s x1 y1 col) (x1 + sx) (y1 + sy) (cx - dy + dx)
        exact trace_effect clip col s _ x1 y1 _ i1 i2 i3
      · simp only [if_neg hc]
        obtain ⟨i1, i2, i3⟩ := ih (plot clip s x1 y1 col) (x1 + sx) y1 (cx - dy)
        exact trace_effect clip col s _ x1 y1 _ i1 i2 i3

theorem draw_line_y_trace (clip : Clip) (y2 sx sy dx dy : Int) (col : Nat) :
    ∀ (fuel : Nat) (s : VState) (x1 y1 cy : Int),
      (draw_line_y clip y2 sx sy dx dy col fuel s x1 y1 cy).visited
          = (line_pts_y y2 sx sy dx dy fuel x1 y1 cy).reverse ++ s.visited
      ∧ (draw_line_y clip y2 sx sy dx dy col fuel s x1 y1 cy).writes
          = (plotted clip (line_pts_y y2 sx sy dx dy fuel x1 y1 cy)).reverse ++ s.writes
      ∧ ∀ i, (draw_line_y clip y2 sx sy dx dy col fuel s x1 y1 cy).polybitmap i
          = if i ∈ plotted clip (line_pts_y y2 sx sy dx dy fuel x1 y1 cy) then col % 256
            else s.polybitmap i := by
  intro fuel
  induction fuel with
  | zero =>
    intro s x1 y1 cy
    exact trace_effect_nil clip col s
  | succ n ih =>
    intro s x1 y1 cy
    simp only [draw_line_y, line_pts_y]
    by_cases hy : y1 = y2
    · simp only [if_pos hy]
      exact trace_effect clip col s _ x1 y1 [] (by simp) (by simp [plotted])
        (by simp [plotted])
    · simp only [if_neg hy]
      by_cases hc : cy - dx < 0
      · simp only [if_pos hc]
        obtain ⟨i1, i2, i3⟩ := ih (plot clip s x1 y1 col) (x1 + sx) (y1 + sy) (cy - dx + dy)
        exact trace_effect clip col s _ x1 y1 _ i1 i2 i3
      · simp only [if_neg hc]
        obtain ⟨i1, i2, i3⟩ := ih (plot clip s x1 y1 col) x1 (y1 + sy) (cy - dx)
        exact trace_effect clip col s _ x1 y1 _ i1 i2 i3

theorem draw_line_trace (fuel : Nat) (clip : Clip) (s : VState) (x1 y1 x2 y2 : Int)
    (col : Nat) :
    (draw_line fuel clip s x1 y1 x2 y2 col).visited
        = (line_pts fuel x1 y1 x2 y2).reverse ++ s.visited
    ∧ (draw_line fuel clip s x1 y1 x2 y2 col).writes
        = (plotted clip (line_pts fuel x1 y1 x2 y2)).reverse ++ s.writes
    ∧ ∀ i, (draw_line fuel clip s x1 y1 x2 y2 col).polybitmap i
        = if i ∈ plotted clip (line_pts fuel x1 y1 x2 y2) then col % 256
          else s.polybitmap i := by
  unfold draw_line line_pts
  simp only
  by_cases h : (((x1 - x2).natAbs : Nat) : Int) ≥ (((y1 - y2).natAbs : Nat) : Int)
  · simp only [if_pos h]
    exact draw_line_x_trace clip _ _ _ _ _ col fuel s x1 y1 _
  · simp only [if_neg h]
    exact draw_line_y_trace clip _ _ _ _ _ col fuel s x1 y1 _

theorem range_succ_map_shift (n : Nat) (a d : Int) :
    (List.range (n + 1 + 1)).map (fun (k : Nat) => a + d * (k : Int))
      = a :: (List.range (n + 1)).map (fun (k : Nat) => a + d + d * (k : Int)) := by
  rw [List.range_succ_eq_map, List.map_cons, List.map_map]
  congr 1
  · simp
  · apply List.map_congr_left
    intro k _
    simp only [Function.comp, Nat.succ_eq_add_one]
    push_cast
    ring

/-- The x-major point list: `n + 1` points with consecutive x, each y step of size one, and
the error term tying the number `m` of y steps to the slope. -/
theorem line_pts_x_spec (x2 sx sy dx dy : Int) (hsy : sy = 1 ∨ sy = -1) (hdy0 : 0 ≤ dy)
    (hdydx : dy ≤ dx) :
    ∀ (n fuel : Nat) (x1 y1 cx : Int), n + 1 ≤ fuel → x2 = x1 + sx * n →
      (1 ≤ n → x1 ≠ x2) → 0 ≤ cx → (cx < dx ∨ n = 0) →
      ∃ (rest : List (Int × Int)) (m : Nat),
        line_pts_x x2 sx sy dx dy fuel x1 y1 cx = (x1, y1) :: rest
        ∧ rest.length = n
        ∧ ((x1, y1) :: rest).map Prod.fst
            = (List.range (n + 1)).map (fun (k : Nat) => x1 + sx * (k : Int))
        ∧ ((x1, y1) :: rest).getLast? = some (x2, y1 + sy * (m : Int))
        ∧ (1 ≤ n → 0 ≤ cx - n * dy + m * dx ∧ cx - n * dy + m * dx < dx)
        ∧ (n = 0 → m = 0)
        ∧ List.Chain' (fun p q : Int × Int => q.2 = p.2 ∨ q.2 = p.2 + sy) ((x1, y1) :: rest)
        ∧ changes (((x1, y1) :: rest).map Prod.snd) = m := by
  intro n
  induction n with
  | zero =>
    intro fuel x1 y1 cx hf hx2 _ _ _
    obtain ⟨f, rfl⟩ : ∃ f, fuel = f + 1 := ⟨fuel - 1, by omega⟩
    have hx : x1 = x2 := by simp [hx2]
    refine ⟨[], 0, by simp only [line_pts_x, if_pos hx], rfl, by simp [List.range_succ],
      by simp [hx],
      fun h => absurd h (by decide), fun _ => rfl, List.chain'_singleton _, rfl⟩
  | succ n ih =>
    intro fuel x1 y1 cx hf hx2 hne hcx0 hcx
    obtain ⟨f, rfl⟩ : ∃ f, fuel = f + 1 := ⟨fuel - 1, by omega⟩
    have hx : ¬ x1 = x2 := hne (by omega)
    have hcx' : cx < dx := by
      rcases hcx with h | h
      · exact h
      · omega
    have hx2' : x2 = x1 + sx + sx * (n : Int) := by rw [hx2]; push_cast; ring
    have hne' : 1 ≤ n → x1 + sx ≠ x2 := by
      intro hn heq
      -- then `sx * n = 0` with `n ≥ 1`, so `sx = 0` and `x1 = x2`
      have h0 : sx * (n : Int) = 0 := by linarith
      rcases mul_eq_zero.1 h0 with h | h
      · apply hx; rw [hx2, h]; simp
      · have : (n : Int) ≥ 1 := by exact_mod_cast hn
        omega
    by_cases hc : cx - dy < 0
    · obtain ⟨rest, m, e, r1, r2, r3, r4, r5, r6, r7⟩ :=
        ih f (x1 + sx) (y1 + sy) (cx - dy + dx) (by omega) hx2' hne' (by omega)
          (Or.inl (by omega))
      refine ⟨(x1 + sx, y1 + sy) :: rest, m + 1, ?_, by simp [r1], ?_, ?_, ?_,
        fun h => absurd h (by omega), ?_, ?_⟩
      · simp only [line_pts_x, if_neg hx, if_pos hc, e]
      · rw [range_succ_map_shift, List.map_cons, r2]
      · rw [List.getLast?_cons_cons, r3]
        congr 2
        push_cast
        ring
      · intro _
        have e1 : cx - ((n + 1 : Nat) : Int) * dy + ((m + 1 : Nat) : Int) * dx
            = (cx - dy + dx) - n * dy + m * dx := by push_cast; ring
        rw [e1]
        rcases Nat.eq_zero_or_pos n with h0 | hpos
        · have hm := r5 h0
          subst h0
          subst hm
          simp only [Nat.cast_zero, zero_mul, sub_zero, add_zero]
          omega
        · exact r4 hpos
      · exact List.chain'_cons.2 ⟨Or.inr rfl, r6⟩
      · have hne2 : ¬ y1 = y1 + sy := by rcases hsy with h | h <;> omega
        simp only [List.map_cons] at r7 ⊢
        simp only [changes, if_neg hne2, r7]
        omega
    · obtain ⟨rest, m, e, r1, r2, r3, r4, r5, r6, r7⟩ :=
        ih f (x1 + sx) y1 (cx - dy) (by omega) hx2' hne' (by omega) (Or.inl (by omega))
      refine ⟨(x1 + sx, y1) :: rest, m, ?_, by simp [r1], ?_, ?_, ?_, ?_, ?_, ?_⟩
      · simp only [line_pts_x, if_neg hx, if_neg hc, e]
      · rw [range_succ_map_shift, List.map_cons, r2]
      · rw [List.getLast?_cons_cons, r3]
      · intro _
        have e1 : cx - ((n + 1 : Nat) : Int) * dy + (m : Int) * dx
            = (cx - dy) - n * dy + m * dx := by push_cast; ring
        rw [e1]
        rcases Nat.eq_zero_or_pos n with h0 | hpos
        · have hm := r5 h0
          subst h0
          subst hm
          simp only [Nat.cast_zero, zero_mul, sub_zero, add_zero]
          omega
        · exact r4 hpos
      · intro h; omega
      · exact List.chain'_cons.2 ⟨Or.inl rfl, r6⟩
      · simp only [List.map_cons] at r7 ⊢
        simp only [changes, if_true, r7]
        omega

/-- The y-major point list: `n + 1` points with consecutive y, each x step of size one, and
the error term tying the number `m` of x steps to the slope. -/
theorem line_pts_y_spec (y2 sx sy dx dy : Int) (hsx : sx = 1 ∨ sx = -1) (hdx0 : 0 ≤ dx)
    (hdxdy : dx ≤ dy) :
    ∀ (n fuel : Nat) (x1 y1 cy : Int), n + 1 ≤ fuel → y2 = y1 + sy * n →
      (1 ≤ n → y1 ≠ y2) → 0 ≤ cy → (cy < dy ∨ n = 0) →
      ∃ (rest : List (Int × Int)) (m : Nat),
        line_pts_y y2 sx sy dx dy fuel x1 y1 cy = (x1, y1) :: rest
        ∧ rest.length = n
        ∧ ((x1, y1) :: rest).map Prod.snd
            = (List.range (n + 1)).map (fun (k : Nat) => y1 + sy * (k : Int))
        ∧ ((x1, y1) :: rest).getLast? = some (x1 + sx * (m : Int), y2)
        ∧ (1 ≤ n → 0 ≤ cy - n * dx + m * dy ∧ cy - n * dx + m * dy < dy)
        ∧ (n = 0 → m = 0)
        ∧ List.Chain' (fun p q : Int × Int => q.1 = p.1 ∨ q.1 = p.1 + sx) ((x1, y1) :: rest)
        ∧ changes (((x1, y1) :: rest).map Prod.fst) = m := by
  intro n
  induction n with
  | zero =>
    intro fuel x1 y1 cy hf hy2 _ _ _
    obtain ⟨f, rfl⟩ : ∃ f, fuel = f + 1 := ⟨fuel - 1, by omega⟩
    have hy : y1 = y2 := by simp [hy2]
    refine ⟨[], 0, by simp only [line_pts_y, if_pos hy], rfl, by simp [List.range_succ],
      by simp [hy], fun h => absurd h (by decide), fun _ => rfl, List.chain'_singleton _, rfl⟩
  | succ n ih =>
    intro fuel x1 y1 cy hf hy2 hne hcy0 hcy
    obtain ⟨f, rfl⟩ : ∃ f, fuel = f + 1 := ⟨fuel - 1, by omega⟩
    have hy : ¬ y1 = y2 := hne (by omega)
    have hcy' : cy < dy := by
      rcases hcy with h | h
      · exact h
      · omega
    have hy2' : y2 = y1 + sy + sy * (n : Int) := by rw [hy2]; push_cast; ring
    have hne' : 1 ≤ n → y1 + sy ≠ y2 := by
      intro hn heq
      have h0 : sy * (n : Int) = 0 := by linarith
      rcases mul_eq_zero.1 h0 with h | h
      · apply hy; rw [hy2, h]; simp
      · have : (n : Int) ≥ 1 := by exact_mod_cast hn
        omega
    by_cases hc : cy - dx < 0
    · obtain ⟨rest, m, e, r1, r2, r3, r4, r5, r6, r7⟩ :=
        ih f (x1 + sx) (y1 + sy) (cy - dx + dy) (by omega) hy2' hne' (by omega)
          (Or.inl (by omega))
      refine ⟨(x1 + sx, y1 + sy) :: rest, m + 1, ?_, by simp [r1], ?_, ?_, ?_,
        fun h => absurd h (by omega), ?_, ?_⟩
      · simp only [line_pts_y, if_neg hy, if_pos hc, e]
      · rw [range_succ_map_shift, List.map_cons, r2]
      · rw [List.getLast?_cons_cons, r3]
        congr 2
        push_cast
        ring
      · intro _
        have e1 : cy - ((n + 1 : Nat) : Int) * dx + ((m + 1 : Nat) : Int) * dy
            = (cy - dx + dy) - n * dx + m * dy := by push_cast; ring
        rw [e1]
        rcases Nat.eq_zero_or_pos n with h0 | hpos
        · have hm := r5 h0
          subst h0
          subst hm
          simp only [Nat.cast_zero, zero_mul, sub_zero, add_zero]
          omega
        · exact r4 hpos
      · exact List.chain'_cons.2 ⟨Or.inr rfl, r6⟩
      · have hne2 : ¬ x1 = x1 + sx := by rcases hsx with h | h <;> omega
        simp only [List.map_cons] at r7 ⊢
        simp only [changes, if_neg hne2, r7]
        omega
    · obtain ⟨rest, m, e, r1, r2, r3, r4, r5, r6, r7⟩ :=
        ih f x1 (y1 + sy) (cy - dx) (by omega) hy2' hne' (by omega) (Or.inl (by omega))
      refine ⟨(x1, y1 + sy) :: rest, m, ?_, by simp [r1], ?_, ?_, ?_, ?_, ?_, ?_⟩
      · simp only [line_pts_y, if_neg hy, if_neg hc, e]
      · rw [range_succ_map_shift, List.map_cons, r2]
      · rw [List.getLast?_cons_cons, r3]
      · intro _
        have e1 : cy - ((n + 1 : Nat) : Int) * dx + (m : Int) * dy
            = (cy - dx) - n * dx + m * dy := by push_cast; ring
        rw [e1]
        rcases Nat.eq_zero_or_pos n with h0 | hpos
        · have hm := r5 h0
          subst h0
          subst hm
          simp only [Nat.cast_zero, zero_mul, sub_zero, add_zero]
          omega
        · exact r4 hpos
      · intro h; omega
      · exact List.chain'_cons.2 ⟨Or.inl rfl, r6⟩
      · simp only [List.map_cons] at r7 ⊢
        simp only [changes, if_true, r7]
        omega

/-- With fuel for the `n + 1` points of the run the x-major loop leaves by its `break`. -/
theorem draw_line_x_finishes (clip : Clip) (x2 sx sy dx dy : Int) (col : Nat) :
    ∀ (n fuel : Nat) (s : VState) (x1 y1 cx : Int), n + 1 ≤ fuel → x2 = x1 + sx * n →
      (1 ≤ n → x1 ≠ x2) →
      (draw_line_x clip x2 sx sy dx dy col fuel s x1 y1 cx).timeout = s.timeout := by
  intro n
  induction n with
  | zero =>
    intro fuel s x1 y1 cx hf hx2 _
    obtain ⟨f, rfl⟩ : ∃ f, fuel = f + 1 := ⟨fuel - 1, by omega⟩
    have hx : x1 = x2 := by simp [hx2]
    simp only [draw_line_x, if_pos hx]
    exact (plot_effect clip s x1 y1 col).2.2.1
  | succ n ih =>
    intro fuel s x1 y1 cx hf hx2 hne
    obtain ⟨f, rfl⟩ : ∃ f, fuel = f + 1 := ⟨fuel - 1, by omega⟩
    have hx : ¬ x1 = x2 := hne (by omega)
    have hx2' : x2 = x1 + sx + sx * (n : Int) := by rw [hx2]; push_cast; ring
    have hne' : 1 ≤ n → x1 + sx ≠ x2 := by
      intro hn heq
      have h0 : sx * (n : Int) = 0 := by linarith
      rcases mul_eq_zero.1 h0 with h | h
      · apply hx; rw [hx2, h]; simp
      · have : (n : Int) ≥ 1 := by exact_mod_cast hn
        omega
    simp only [draw_line_x, if_neg hx]
    split_ifs
    · rw [ih f _ _ _ _ (by omega) hx2' hne']
      exact (plot_effect clip s x1 y1 col).2.2.1
    · rw [ih f _ _ _ _ (by omega) hx2' hne']
      exact (plot_effect clip s x1 y1 col).2.2.1

/-- With fuel for the `n + 1` points of the run the y-major loop leaves by its `break`. -/
theorem draw_line_y_finishes (clip : Clip) (y2 sx sy dx dy : Int) (col : Nat) :
    ∀ (n fuel : Nat) (s : VState) (x1 y1 cy : Int), n + 1 ≤ fuel → y2 = y1 + sy * n →
      (1 ≤ n → y1 ≠ y2) →
      (draw_line_y clip y2 sx sy dx dy col fuel s x1 y1 cy).timeout = s.timeout := by
  intro n
  induction n with
  | zero =>
    intro fuel s x1 y1 cy hf hy2 _
    obtain ⟨f, rfl⟩ : ∃ f, fuel = f + 1 := ⟨fuel - 1, by omega⟩
    have hy : y1 = y2 := by simp [hy2]
    simp only [draw_line_y, if_pos hy]
    exact (plot_effect clip s x1 y1 col).2.2.1
  | succ n ih =>
    intro fuel s x1 y1 cy hf hy2 hne
    obtain ⟨f, rfl⟩ : ∃ f, fuel = f + 1 := ⟨fuel - 1, by omega⟩
    have hy : ¬ y1 = y2 := hne (by omega)
    have hy2' : y2 = y1 + sy + sy * (n : Int) := by rw [hy2]; push_cast; ring
    have hne' : 1 ≤ n → y1 + sy ≠ y2 := by
      intro hn heq
      have h0 : sy * (n : Int) = 0 := by linarith
      rcases mul_eq_zero.1 h0 with h | h
      · apply hy; rw [hy2, h]; simp
      · have : (n : Int) ≥ 1 := by exact_mod_cast hn
        omega
    simp only [draw_line_y, if_neg hy]
    split_ifs
    · rw [ih f _ _ _ _ (by omega) hy2' hne']
      exact (plot_effect clip s x1 y1 col).2.2.1
    · rw [ih f _ _ _ _ (by omega) hy2' hne']
      exact (plot_effect clip s x1 y1 col).2.2.1

/-- The error term after a whole run leaves room for exactly `E` minor steps. -/
theorem error_term_forces_steps (D E c : Int) (m : Nat) (hc0 : 0 ≤ c) (hcD : c < D)
    (h1 : 0 ≤ c - D * E + m * D) (h2 : c - D * E + m * D < D) : (m : Int) = E := by
  have hD : 0 < D := by omega
  by_contra hne
  rcases lt_or_gt_of_ne hne with h | h
  · have h' : (m : Int) + 1 ≤ E := h
    have := mul_le_mul_of_nonneg_left h' (le_of_lt hD)
    nlinarith
  · have h' : E + 1 ≤ (m : Int) := h
    have := mul_le_mul_of_nonneg_left h' (le_of_lt hD)
    nlinarith

/-- The points of an x-major line (`|y1 - y2| ≤ |x1 - x2|`). -/
theorem line_pts_x_major (fuel : Nat) (x1 y1 x2 y2 : Int)
    (h : (y1 - y2).natAbs ≤ (x1 - x2).natAbs) (hf : (x1 - x2).natAbs + 1 ≤ fuel) :
    ∃ rest : List (Int × Int),
      line_pts fuel x1 y1 x2 y2 = (x1, y1) :: rest
      ∧ rest.length = (x1 - x2).natAbs
      ∧ ((x1, y1) :: rest).map Prod.fst
          = (List.range ((x1 - x2).natAbs + 1)).map
              (fun (k : Nat) => x1 + (if x1 ≤ x2 then 1 else -1) * (k : Int))
      ∧ ((x1, y1) :: rest).getLast? = some (x2, y2)
      ∧ List.Chain' (fun p q : Int × Int =>
            q.2 = p.2 ∨ q.2 = p.2 + (if y1 ≤ y2 then 1 else -1)) ((x1, y1) :: rest)
      ∧ changes (((x1, y1) :: rest).map Prod.snd) = (y1 - y2).natAbs := by
  have hge : (((x1 - x2).natAbs : Nat) : Int) ≥ (((y1 - y2).natAbs : Nat) : Int) := by
    exact_mod_cast h
  have hsy : (if y1 ≤ y2 then (1 : Int) else -1) = 1 ∨ (if y1 ≤ y2 then (1 : Int) else -1) = -1 := by
    split_ifs
    · exact Or.inl rfl
    · exact Or.inr rfl
  obtain ⟨rest, m, e, r1, r2, r3, r4, r5, r6, r7⟩ :=
    line_pts_x_spec x2 (if x1 ≤ x2 then 1 else -1) (if y1 ≤ y2 then 1 else -1)
      ((x1 - x2).natAbs : Nat) ((y1 - y2).natAbs : Nat) hsy (by omega) hge
      (x1 - x2).natAbs fuel x1 y1 ((((x1 - x2).natAbs : Nat) : Int) / 2) hf
      (by split_ifs <;> omega) (by omega) (by omega) (by omega)
  have hm : m = (y1 - y2).natAbs := by
    rcases Nat.eq_zero_or_pos (x1 - x2).natAbs with h0 | hpos
    · rw [r5 h0]; omega
    · obtain ⟨b1, b2⟩ := r4 hpos
      have := error_term_forces_steps (((x1 - x2).natAbs : Nat) : Int)
        (((y1 - y2).natAbs : Nat) : Int) ((((x1 - x2).natAbs : Nat) : Int) / 2) m
        (by omega) (by omega) b1 b2
      exact_mod_cast this
  refine ⟨rest, ?_, r1, r2, ?_, r6, by rw [r7, hm]⟩
  · unfold line_pts
    simp only [if_pos hge]
    exact e
  · rw [r3, hm]
    congr 2
    split_ifs <;> omega

/-- The points of a y-major line (`|x1 - x2| < |y1 - y2|`). -/
theorem line_pts_y_major (fuel : Nat) (x1 y1 x2 y2 : Int)
    (h : (x1 - x2).natAbs < (y1 - y2).natAbs) (hf : (y1 - y2).natAbs + 1 ≤ fuel) :
    ∃ rest : List (Int × Int),
      line_pts fuel x1 y1 x2 y2 = (x1, y1) :: rest
      ∧ rest.length = (y1 - y2).natAbs
      ∧ ((x1, y1) :: rest).map Prod.snd
          = (List.range ((y1 - y2).natAbs + 1)).map
              (fun (k : Nat) => y1 + (if y1 ≤ y2 then 1 else -1) * (k : Int))
      ∧ ((x1, y1) :: rest).getLast? = some (x2, y2)
      ∧ List.Chain' (fun p q : Int × Int =>
            q.1 = p.1 ∨ q.1 = p.1 + (if x1 ≤ x2 then 1 else -1)) ((x1, y1) :: rest)
      ∧ changes (((x1, y1) :: rest).map Prod.fst) = (x1 - x2).natAbs := by
  have hlt : ¬ (((x1 - x2).natAbs : Nat) : Int) ≥ (((y1 - y2).natAbs : Nat) : Int) := by
    have : (((x1 - x2).natAbs : Nat) : Int) < (((y1 - y2).natAbs : Nat) : Int) := by
      exact_mod_cast h
    omega
  have hsx : (if x1 ≤ x2 then (1 : Int) else -1) = 1 ∨ (if x1 ≤ x2 then (1 : Int) else -1) = -1 := by
    split_ifs
    · exact Or.inl rfl
    · exact Or.inr rfl
  obtain ⟨rest, m, e, r1, r2, r3, r4, r5, r6, r7⟩ :=
    line_pts_y_spec y2 (if x1 ≤ x2 then 1 else -1) (if y1 ≤ y2 then 1 else -1)
      ((x1 - x2).natAbs : Nat) ((y1 - y2).natAbs : Nat) hsx (by omega) (by omega)
      (y1 - y2).natAbs fuel x1 y1 ((((y1 - y2).natAbs : Nat) : Int) / 2) hf
      (by split_ifs <;> omega) (by omega) (by omega) (by omega)
  have hm : m = (x1 - x2).natAbs := by
    have hpos : 1 ≤ (y1 - y2).natAbs := by omega
    obtain ⟨b1, b2⟩ := r4 hpos
    have := error_term_forces_steps (((y1 - y2).natAbs : Nat) : Int)
      (((x1 - x2).natAbs : Nat) : Int) ((((y1 - y2).natAbs : Nat) : Int) / 2) m
      (by omega) (by omega) b1 b2
    exact_mod_cast this
  refine ⟨rest, ?_, r1, r2, ?_, r6, by rw [r7, hm]⟩
  · unfold line_pts
    simp only [if_neg hlt]
    exact e
  · rw [r3, hm]
    congr 2
    split_ifs <;> omega

/-- With fuel for `max (|x1 - x2|, |y1 - y2|) + 1` points `draw_line` returns. -/
theorem draw_line_finishes (fuel : Nat) (clip : Clip) (s : VState) (x1 y1 x2 y2 : Int)
    (col : Nat) (hf : max (x1 - x2).natAbs (y1 - y2).natAbs + 1 ≤ fuel) :
    (draw_line fuel clip s x1 y1 x2 y2 col).timeout = s.timeout := by
  unfold draw_line
  simp only
  by_cases h : (((x1 - x2).natAbs : Nat) : Int) ≥ (((y1 - y2).natAbs : Nat) : Int)
  · simp only [if_pos h]
    exact draw_line_x_finishes clip _ _ _ _ _ col (x1 - x2).natAbs fuel s x1 y1 _ (by omega)
      (by split_ifs <;> omega) (by omega)
  · simp only [if_neg h]
    exact draw_line_y_finishes clip _ _ _ _ _ col (y1 - y2).natAbs fuel s x1 y1 _ (by omega)
      (by split_ifs <;> omega) (by omega)

theorem mem_plotted (clip : Clip) (pts : List (Int × Int)) (i : Int) :
    i ∈ plotted clip pts ↔ ∃ p ∈ pts, clip.inside p.1 p.2 ∧ i = p.2 * 256 + p.1 := by
  unfold plotted
  rw [List.mem_map]
  constructor
  · rintro ⟨p, hp, rfl⟩
    rw [List.mem_filter] at hp
    exact ⟨p, hp.1, of_decide_eq_true hp.2, rfl⟩
  · rintro ⟨p, hp, hin, rfl⟩
    exact ⟨p, List.mem_filter.2 ⟨hp, decide_eq_true hin⟩, rfl⟩

theorem nodup_steps (a d : Int) (hd : d = 1 ∨ d = -1) (n : Nat) :
    ((List.range n).map (fun (k : Nat) => a + d * (k : Int))).Nodup := by
  apply List.Nodup.map _ (List.nodup_range n)
  intro i j hij
  simp only at hij
  rcases hd with rfl | rfl <;> omega

/-- C16: for all end points and enough fuel (`max (|x1 - x2|, |y1 - y2|) + 1`), `draw_line`
returns after stepping through exactly `max (|x1 - x2|, |y1 - y2|) + 1` points, the list
`line_pts`; along the major axis (x when `|x1 - x2| ≥ |y1 - y2|`, otherwise y) the `k`-th
point has coordinate `start ± k`, so these coordinates are consecutive and pairwise
distinct; the offsets stored to are those of the stepped-through points that pass the clip
test, in order, each then holding `col`, and no other byte changes. -/
theorem draw_line_visits_major_axis_once (fuel : Nat) (clip : Clip) (s : VState)
    (x1 y1 x2 y2 : Int) (col : Nat) (hc : col < 256)
    (hf : max (x1 - x2).natAbs (y1 - y2).natAbs + 1 ≤ fuel) :
    (draw_line fuel clip s x1 y1 x2 y2 col).timeout = s.timeout
    ∧ (draw_line fuel clip s x1 y1 x2 y2 col).visited
        = (line_pts fuel x1 y1 x2 y2).reverse ++ s.visited
    ∧ (line_pts fuel x1 y1 x2 y2).length = max (x1 - x2).natAbs (y1 - y2).natAbs + 1
    ∧ ((y1 - y2).natAbs ≤ (x1 - x2).natAbs →
        (line_pts fuel x1 y1 x2 y2).map Prod.fst
          = (List.range ((x1 - x2).natAbs + 1)).map
              (fun (k : Nat) => x1 + (if x1 ≤ x2 then 1 else -1) * (k : Int))
        ∧ ((line_pts fuel x1 y1 x2 y2).map Prod.fst).Nodup)
    ∧ ((x1 - x2).natAbs < (y1 - y2).natAbs →
        (line_pts fuel x1 y1 x2 y2).map Prod.snd
          = (List.range ((y1 - y2).natAbs + 1)).map
              (fun (k : Nat) => y1 + (if y1 ≤ y2 then 1 else -1) * (k : Int))
        ∧ ((line_pts fuel x1 y1 x2 y2).map Prod.snd).Nodup)
    ∧ (draw_line fuel clip s x1 y1 x2 y2 col).writes
        = (plotted clip (line_pts fuel x1 y1 x2 y2)).reverse ++ s.writes
    ∧ (∀ i, i ∈ plotted clip (line_pts fuel x1 y1 x2 y2) ↔
        ∃ p ∈ line_pts fuel x1 y1 x2 y2, clip.inside p.1 p.2 ∧ i = p.2 * 256 + p.1)
    ∧ ∀ i, (draw_line fuel clip s x1 y1 x2 y2 col).polybitmap i
        = if i ∈ plotted clip (line_pts fuel x1 y1 x2 y2) then col else s.polybitmap i := by
  obtain ⟨t1, t2, t3⟩ := draw_line_trace fuel clip s x1 y1 x2 y2 col
  rw [Nat.mod_eq_of_lt hc] at t3
  have hsx : (if x1 ≤ x2 then (1 : Int) else -1) = 1 ∨ (if x1 ≤ x2 then (1 : Int) else -1) = -1 := by
    split_ifs
    · exact Or.inl rfl
    · exact Or.inr rfl
  have hsy : (if y1 ≤ y2 then (1 : Int) else -1) = 1 ∨ (if y1 ≤ y2 then (1 : Int) else -1) = -1 := by
    split_ifs
    · exact Or.inl rfl
    · exact Or.inr rfl
  refine ⟨draw_line_finishes fuel clip s x1 y1 x2 y2 col hf, t1, ?_, ?_, ?_, t2,
    fun i => mem_plotted clip _ i, t3⟩
  · by_cases h : (y1 - y2).natAbs ≤ (x1 - x2).natAbs
    · obtain ⟨rest, e, r1, _⟩ := line_pts_x_major fuel x1 y1 x2 y2 h (by omega)
      rw [e, List.length_cons, r1]
      omega
    · obtain ⟨rest, e, r1, _⟩ := line_pts_y_major fuel x1 y1 x2 y2 (by omega) (by omega)
      rw [e, List.length_cons, r1]
      omega
  · intro h
    obtain ⟨rest, e, _, r2, _⟩ := line_pts_x_major fuel x1 y1 x2 y2 h (by omega)
    rw [e, r2]
    exact ⟨rfl, nodup_steps x1 _ hsx _⟩
  · intro h
    obtain ⟨rest, e, _, r2, _⟩ := line_pts_y_major fuel x1 y1 x2 y2 h (by omega)
    rw [e, r2]
    exact ⟨rfl, nodup_steps y1 _ hsy _⟩

/-- Witness for C16: the line from `(0, 0)` to `(2, 1)` in colour 5 steps through 3 points. -/
theorem draw_line_visits_major_axis_once_witness :
    (line_pts 3 0 0 2 1).length = max ((0 : Int) - 2).natAbs ((0 : Int) - 1).natAbs + 1
    ∧ (draw_line 3 ⟨0, 0, 256, 232⟩ (VState.init (fun _ => 0)) 0 0 2 1 5).visited
        = [(2, 1), (1, 0), (0, 0)] :=
  ⟨(draw_line_visits_major_axis_once 3 ⟨0, 0, 256, 232⟩ (VState.init (fun _ => 0)) 0 0 2 1 5
      (by decide) (by decide)).2.2.1, by decide⟩

/-- C18: for all end points and enough fuel, the first point `draw_line` steps through is
`(x1, y1)` and the last one is `(x2, y2)`; from one point to the next the minor-axis
coordinate (y when `|x1 - x2| ≥ |y1 - y2|`, otherwise x) changes by at most 1, and over the
run it changes exactly `|y1 - y2|` (respectively `|x1 - x2|`) times. -/
theorem draw_line_joins_its_end_points (fuel : Nat) (clip : Clip) (s : VState)
    (x1 y1 x2 y2 : Int) (col : Nat)
    (hf : max (x1 - x2).natAbs (y1 - y2).natAbs + 1 ≤ fuel) :
    (draw_line fuel clip s x1 y1 x2 y2 col).visited
        = (line_pts fuel x1 y1 x2 y2).reverse ++ s.visited
    ∧ (line_pts fuel x1 y1 x2 y2).head? = some (x1, y1)
    ∧ (line_pts fuel x1 y1 x2 y2).getLast? = some (x2, y2)
    ∧ ((y1 - y2).natAbs ≤ (x1 - x2).natAbs →
        List.Chain' (fun p q : Int × Int => (q.2 - p.2).natAbs ≤ 1) (line_pts fuel x1 y1 x2 y2)
        ∧ changes ((line_pts fuel x1 y1 x2 y2).map Prod.snd) = (y1 - y2).natAbs)
    ∧ ((x1 - x2).natAbs < (y1 - y2).natAbs →
        List.Chain' (fun p q : Int × Int => (q.1 - p.1).natAbs ≤ 1) (line_pts fuel x1 y1 x2 y2)
        ∧ changes ((line_pts fuel x1 y1 x2 y2).map Prod.fst) = (x1 - x2).natAbs) := by
  refine ⟨(draw_line_trace fuel clip s x1 y1 x2 y2 col).1, ?_, ?_, ?_, ?_⟩
  · by_cases h : (y1 - y2).natAbs ≤ (x1 - x2).natAbs
    · obtain ⟨rest, e, _⟩ := line_pts_x_major fuel x1 y1 x2 y2 h (by omega)
      rw [e]; rfl
    · obtain ⟨rest, e, _⟩ := line_pts_y_major fuel x1 y1 x2 y2 (by omega) (by omega)
      rw [e]; rfl
  · by_cases h : (y1 - y2).natAbs ≤ (x1 - x2).natAbs
    · obtain ⟨rest, e, _, _, r3, _⟩ := line_pts_x_major fuel x1 y1 x2 y2 h (by omega)
      rw [e]; exact r3
    · obtain ⟨rest, e, _, _, r3, _⟩ := line_pts_y_major fuel x1 y1 x2 y2 (by omega) (by omega)
      rw [e]; exact r3
  · intro h
    obtain ⟨rest, e, _, _, _, r4, r5⟩ := line_pts_x_major fuel x1 y1 x2 y2 h (by omega)
    rw [e]
    refine ⟨r4.imp ?_, r5⟩
    intro p q hpq
    split_ifs at hpq <;> omega
  · intro h
    obtain ⟨rest, e, _, _, _, r4, r5⟩ := line_pts_y_major fuel x1 y1 x2 y2 h (by omega)
    rw [e]
    refine ⟨r4.imp ?_, r5⟩
    intro p q hpq
    split_ifs at hpq <;> omega

/-- Witness for C18: the line from `(0, 0)` to `(2, 1)`. -/
theorem draw_line_joins_its_end_points_witness :
    (line_pts 3 0 0 2 1).getLast? = some (2, 1)
    ∧ line_pts 3 0 0 2 1 = [(0, 0), (1, 0), (2, 1)] :=
  ⟨(draw_line_joins_its_end_points 3 ⟨0, 0, 256, 232⟩ (VState.init (fun _ => 0)) 0 0 2 1 5
      (by decide)).2.2.1, by decide⟩

end Irobot
